import Mathlib

/-!
# onlyfiles-fs: a block filesystem inside one backing file

Shallow embedding of `src/fs.c` and a verification of its specification.

* The constants of `fs.h` (`MAX_BLOCKS`, `BLOCK_SIZE`, `MAX_FILES`, `MAX_FILENAME`,
  `MAX_DIRECT_BLOCKS`) are not part of the sources at hand; they are the fields of `Config`
  and are taken to be plain `int` constants, as the arithmetic of `fs.c` uses them.
* C `int` values are `Int`; every addition, subtraction and multiplication whose operands
  come from the caller or from the cached state goes through `wrap32` (two's complement,
  32 bits), and `/` is `Int.tdiv` (truncation toward zero).
* C arrays are lists; an index outside the list reads a default and writes nothing.
* The globals `fs_fd`, `sb`, `bitmap`, `inode_table` and the backing file are the fields of
  `FS`; every operation maps an `FS` to a return code and an `FS`.
* The outcome of the k-th seek or transfer a call issues is given by a `Faults` script.
-/

namespace OnlyFiles

/-! ## Constants -/

/-- The compile-time constants declared in `fs.h`. -/
structure Config where
  MAX_BLOCKS : Nat
  BLOCK_SIZE : Nat
  MAX_FILES : Nat
  MAX_FILENAME : Nat
  MAX_DIRECT_BLOCKS : Nat
deriving DecidableEq

def SUPERBLOCK_BLOCK : Nat := 0
def BITMAP_BLOCK : Nat := 1
def INODE_TABLE_START_BLOCK : Nat := 2
def INODE_TABLE_BLOCKS : Nat := 8
/-- Blocks 0 to 9 are reserved (superblock, bitmap, inode table). -/
def DATA_BLOCK_START : Nat := 10

def DISK_SIZE (cfg : Config) : Nat := cfg.MAX_BLOCKS * cfg.BLOCK_SIZE

def INT_MAX : Int := 2147483647
def INT_MIN : Int := -2147483648

/-- Sanity of the constants: blocks are non-empty, the reserved region exists, one bitmap
block has a bit for every block, and the image size and the table size are `int` values. -/
def Config.sane (cfg : Config) : Prop :=
  0 < cfg.BLOCK_SIZE ∧ DATA_BLOCK_START ≤ cfg.MAX_BLOCKS ∧ cfg.MAX_BLOCKS ≤ 8 * cfg.BLOCK_SIZE ∧
  (DISK_SIZE cfg : Int) ≤ INT_MAX ∧ (cfg.MAX_FILES : Int) ≤ INT_MAX ∧ 0 < cfg.MAX_FILENAME

instance (cfg : Config) : Decidable cfg.sane := by
  unfold Config.sane; infer_instance

/-- The values the comments of `fs.c` give (2560 blocks of 4096 bytes, 256 inodes), with a
28-byte name field and 12 direct blocks per file. -/
def stdConfig : Config := ⟨2560, 4096, 256, 28, 12⟩

/-- A small geometry: 16 blocks of 4 bytes, 3 inodes, 4-byte names, 2 direct blocks. -/
def tinyConfig : Config := ⟨16, 4, 3, 4, 2⟩

/-! ## Machine integers and C strings -/

/-- Reduction of an integer to the range of a 32-bit two's complement `int`. -/
def wrap32 (x : Int) : Int := (x + 2147483648) % 4294967296 - 2147483648

/-- The `strlen` of the C string stored in a byte list (the list end acts as terminator). -/
def strlen : List Nat → Nat
  | [] => 0
  | c :: cs => if c = 0 then 0 else strlen cs + 1

/-- The `strncmp` of two C strings: difference of the first differing bytes among the first
`n`, zero when there is none before a terminator. -/
def strncmp : List Nat → List Nat → Nat → Int
  | _, _, 0 => 0
  | a, b, n + 1 =>
    if a.headD 0 ≠ b.headD 0 then (a.headD 0 : Int) - (b.headD 0 : Int)
    else if a.headD 0 = 0 then 0
    else strncmp a.tail b.tail n

/-- The `n` bytes `strncpy(dest, src, n)` stores in `dest`: the string, then zero padding. -/
def strncpy : List Nat → Nat → List Nat
  | _, 0 => []
  | src, n + 1 =>
    if src.headD 0 = 0 then List.replicate (n + 1) 0
    else src.headD 0 :: strncpy src.tail n

/-! ## Data model -/

structure superblock where
  total_blocks : Int
  block_size : Int
  free_blocks : Int
  total_inodes : Int
  free_inodes : Int
deriving DecidableEq

structure inode where
  name : List Nat
  used : Bool
  size : Int
  blocks : List Int
deriving DecidableEq

/-- The backing file: its length, its bytes, and the three records kept in blocks 0, 1 and
2..9 (a record that was never written completely is absent). -/
structure Disk where
  size : Nat
  bytes : Nat → Nat
  sb : Option superblock
  bitmap : Option (List Nat)
  inodes : List inode

/-- The process-wide state: the descriptor, the cached records, and the backing file. -/
structure FS where
  fs_fd : Int
  sb : superblock
  bitmap : List Nat
  inode_table : List inode
  disk : Disk

/-- Outcome of the k-th seek or transfer of a call: `none` when it completes, `some t` when
it fails (a failing write having moved the first `t` bytes at most). -/
abbrev Faults := Nat → Option Nat

def noFaults : Faults := fun _ => none

/-- The file after `write(fd, src, src.length)` at offset `off`. -/
def Disk.write (d : Disk) (off : Nat) (src : List Nat) : Disk :=
  { d with
    size := max d.size (off + src.length)
    bytes := fun p => if off ≤ p ∧ p < off + src.length then src.getD (p - off) 0 else d.bytes p }

/-- The bytes of `read(fd, buf, n)` at offset `off`; `none` for a short transfer. -/
def Disk.read (d : Disk) (off n : Nat) : Option (List Nat) :=
  if off + n ≤ d.size then some ((List.range n).map (fun k => d.bytes (off + k))) else none

/-! ## Bitmap -/

/-- The test `(bitmap[i / 8] & (1 << (i % 8))) != 0`. -/
def bit_test (bm : List Nat) (i : Nat) : Bool :=
  (bm.getD (i / 8) 0) &&& (1 <<< (i % 8)) != 0

/-- The update `bitmap[i / 8] |= (1 << (i % 8))`. -/
def bit_set (bm : List Nat) (i : Nat) : List Nat :=
  bm.set (i / 8) ((bm.getD (i / 8) 0) ||| (1 <<< (i % 8)))

/-- The update `bitmap[block / 8] &= ~(1 << (block % 8))` on an `unsigned char`; a negative
block index is outside the array and changes nothing. -/
def bit_clear (bm : List Nat) (block : Int) : List Nat :=
  if 0 ≤ block then
    bm.set (block.toNat / 8) ((bm.getD (block.toNat / 8) 0) &&& (255 ^^^ (1 <<< (block.toNat % 8))))
  else bm

/-! ## Format, mount, unmount -/

/-- The value of `inode empty_inode = {0}`. -/
def empty_inode (cfg : Config) : inode :=
  ⟨List.replicate cfg.MAX_FILENAME 0, false, 0, List.replicate cfg.MAX_DIRECT_BLOCKS 0⟩

/-- Lines 57-59 of `fs_format`: mark blocks `i .. i + n - 1` used. -/
def format_mark_loop : Nat → Nat → List Nat → List Nat
  | _, 0, bm => bm
  | i, n + 1, bm => format_mark_loop (i + 1) n (bit_set bm i)

/-- Lines 76-82 of `fs_format`: write `n` empty inode records one after the other. -/
def format_inode_loop (cfg : Config) (ev : Faults) : Nat → Nat → Disk → Bool × Disk
  | _, 0, d => (true, d)
  | i, n + 1, d =>
    if (ev (8 + i)).isSome then (false, d)
    else format_inode_loop cfg ev (i + 1) n { d with inodes := d.inodes ++ [empty_inode cfg] }

def fs_format (cfg : Config) (disk_path : Option (List Nat)) (ev : Faults) (d : Disk) :
    Int × Disk :=
  match disk_path with
  | none => (-1, d)
  | some _ =>
    -- open(disk_path, O_RDWR | O_CREAT | O_TRUNC)
    if (ev 0).isSome then (-1, d)
    else
      let d0 : Disk := ⟨0, fun _ => 0, none, none, []⟩
      -- lseek to DISK_SIZE - 1, write one byte
      if (DISK_SIZE cfg : Int) - 1 < 0 ∨ (ev 1).isSome ∨ (ev 2).isSome then (-1, d0)
      else
        let d1 : Disk := { d0 with size := DISK_SIZE cfg }
        let sb : superblock :=
          { total_blocks := cfg.MAX_BLOCKS
            block_size := cfg.BLOCK_SIZE
            free_blocks := (cfg.MAX_BLOCKS : Int) - DATA_BLOCK_START
            total_inodes := cfg.MAX_FILES
            free_inodes := cfg.MAX_FILES }
        if (ev 3).isSome ∨ (ev 4).isSome then (-1, d1)
        else
          let d2 : Disk := { d1 with sb := some sb }
          let bitmap := format_mark_loop 0 DATA_BLOCK_START (List.replicate cfg.BLOCK_SIZE 0)
          if (ev 5).isSome ∨ (ev 6).isSome then (-1, d2)
          else
            let d3 : Disk := { d2 with bitmap := some bitmap }
            if (ev 7).isSome then (-1, d3)
            else
              let r := format_inode_loop cfg ev 0 cfg.MAX_FILES d3
              if r.1 then (0, r.2) else (-1, r.2)

/-- Lines 148-155 of `fs_mount`: read inode records `i .. i + n - 1` into the table. -/
def mount_inode_loop (ev : Faults) (d : Disk) : Nat → Nat → List inode → Bool × List inode
  | _, 0, tbl => (true, tbl)
  | i, n + 1, tbl =>
    match (if (ev (6 + i)).isSome then none else d.inodes.get? i) with
    | none => (false, tbl)
    | some r => mount_inode_loop ev d (i + 1) n (tbl.set i r)

def fs_mount (cfg : Config) (disk_path : Option (List Nat)) (ev : Faults) (s : FS) : Int × FS :=
  match disk_path with
  | none => (-1, s)
  | some _ =>
    -- fs_fd = open(disk_path, O_RDWR)
    if (ev 0).isSome then (-1, { s with fs_fd := -1 })
    else
      let s0 : FS := { s with fs_fd := 3 }
      -- a failing seek closes the file and leaves fs_fd as it is
      if (ev 1).isSome then (-1, s0)
      else
        match (if (ev 2).isSome then none else s0.disk.sb) with
        | none => (-1, { s0 with fs_fd := -1 })
        | some r =>
          let s1 : FS := { s0 with sb := r }
          if r.total_blocks ≠ cfg.MAX_BLOCKS ∨ r.block_size ≠ cfg.BLOCK_SIZE ∨
              r.total_inodes ≠ cfg.MAX_FILES then (-1, { s1 with fs_fd := -1 })
          else if (ev 3).isSome then (-1, { s1 with fs_fd := -1 })
          else
            match (if (ev 4).isSome then none else s1.disk.bitmap) with
            | none => (-1, { s1 with fs_fd := -1 })
            | some bm =>
              let s2 : FS := { s1 with bitmap := bm }
              if (ev 5).isSome then (-1, { s2 with fs_fd := -1 })
              else
                let r := mount_inode_loop ev s2.disk 0 cfg.MAX_FILES s2.inode_table
                if r.1 then (0, { s2 with inode_table := r.2 })
                else (-1, { s2 with inode_table := r.2, fs_fd := -1 })

/-- Lines 175-177 of `fs_unmount`: write the inode records back; results are ignored. -/
def unmount_inode_loop (ev : Faults) (tbl : List inode) : Nat → Nat → List inode → List inode
  | _, 0, recs => recs
  | i, n + 1, recs =>
    if (ev (6 + i)).isSome then unmount_inode_loop ev tbl (i + 1) n recs
    else unmount_inode_loop ev tbl (i + 1) n
      (recs.take i ++ tbl.getD i ⟨[], false, 0, []⟩ :: recs.drop (i + 1))

def fs_unmount (cfg : Config) (ev : Faults) (s : FS) : FS :=
  let d := s.disk
  let d' : Disk :=
    if 0 ≤ s.fs_fd then
      let d1 : Disk := if (ev 0).isNone ∧ (ev 1).isNone then { d with sb := some s.sb } else d
      let d2 : Disk :=
        if (ev 2).isNone ∧ (ev 3).isNone then { d1 with bitmap := some s.bitmap } else d1
      if (ev 4).isNone then
        { d2 with inodes := unmount_inode_loop ev s.inode_table 0 cfg.MAX_FILES d2.inodes }
      else d2
    else d
  { s with disk := d', fs_fd := -1 }

/-! ## Inode table operations -/

/-- Value read by an out-of-range table index. -/
def no_inode : inode := ⟨[], false, 0, []⟩

/-- The test `inode_table[j].used && strncmp(inode_table[j].name, filename, MAX_FILENAME) == 0`
of the lookup loops. -/
def slot_matches (cfg : Config) (tbl : List inode) (filename : List Nat) (j : Nat) : Prop :=
  (tbl.getD j no_inode).used = true ∧
    strncmp (tbl.getD j no_inode).name filename cfg.MAX_FILENAME = 0

instance (cfg : Config) (tbl : List inode) (f : List Nat) (j : Nat) :
    Decidable (slot_matches cfg tbl f j) := by
  unfold slot_matches; infer_instance

/-- The lookup loop shared by `fs_create`, `fs_delete`, `fs_write` and `fs_read`: the first
index in `i .. i + n - 1` of a used inode whose name compares equal, or `-1`. -/
def find_file (cfg : Config) (tbl : List inode) (filename : List Nat) : Nat → Nat → Int
  | _, 0 => -1
  | i, n + 1 =>
    if slot_matches cfg tbl filename i then (i : Int)
    else find_file cfg tbl filename (i + 1) n

/-- Lines 207-213 of `fs_create`: the first index in `i .. i + n - 1` of an unused inode,
or `-1`. -/
def find_free (tbl : List inode) : Nat → Nat → Int
  | _, 0 => -1
  | i, n + 1 =>
    if (tbl.getD i no_inode).used = false then (i : Int) else find_free tbl (i + 1) n

/-- Lines 226-228 of `fs_create`: `blocks[j] = -1` for `j` in `j .. j + n - 1`. -/
def create_fill_loop : Nat → Nat → List Int → List Int
  | _, 0, blocks => blocks
  | j, n + 1, blocks => create_fill_loop (j + 1) n (blocks.set j (-1))

def fs_create (cfg : Config) (filename : Option (List Nat)) (s : FS) : Int × FS :=
  if s.fs_fd < 0 then (-3, s)
  else
    match filename with
    | none => (-3, s)
    | some f =>
      if strlen f = 0 ∨ strlen f ≥ cfg.MAX_FILENAME then (-3, s)
      else if find_file cfg s.inode_table f 0 cfg.MAX_FILES ≠ -1 then (-1, s)
      else
        let free_index := find_free s.inode_table 0 cfg.MAX_FILES
        if free_index = -1 then (-2, s)
        else
          let node := s.inode_table.getD free_index.toNat no_inode
          let node' : inode :=
            { used := true
              name := (strncpy f cfg.MAX_FILENAME).set (cfg.MAX_FILENAME - 1) 0
              size := 0
              blocks := create_fill_loop 0 cfg.MAX_DIRECT_BLOCKS node.blocks }
          (0, { s with
                inode_table := s.inode_table.set free_index.toNat node'
                sb := { s.sb with free_inodes := wrap32 (s.sb.free_inodes - 1) } })

/-- State of the release loops: bitmap, `sb.free_blocks`, and the block list. -/
structure FreeSt where
  bitmap : List Nat
  free_blocks : Int
  blocks : List Int

/-- Lines 264-272 of `fs_delete`: release the blocks at positions `j .. j + n - 1`. -/
def delete_free_loop : Nat → Nat → FreeSt → FreeSt
  | _, 0, st => st
  | j, n + 1, st =>
    let block := st.blocks.getD j (-1)
    if block ≠ -1 then
      delete_free_loop (j + 1) n
        { st with bitmap := bit_clear st.bitmap block, free_blocks := wrap32 (st.free_blocks + 1) }
    else delete_free_loop (j + 1) n st

def fs_delete (cfg : Config) (filename : Option (List Nat)) (s : FS) : Int × FS :=
  if s.fs_fd < 0 then (-2, s)
  else
    match filename with
    | none => (-2, s)
    | some f =>
      if strlen f = 0 ∨ strlen f ≥ cfg.MAX_FILENAME then (-2, s)
      else
        let file_index := find_file cfg s.inode_table f 0 cfg.MAX_FILES
        if file_index = -1 then (-1, s)
        else
          let node := s.inode_table.getD file_index.toNat no_inode
          let st := delete_free_loop 0 cfg.MAX_DIRECT_BLOCKS ⟨s.bitmap, s.sb.free_blocks, node.blocks⟩
          (0, { s with
                bitmap := st.bitmap
                inode_table := s.inode_table.set file_index.toNat { node with used := false }
                sb := { s.sb with
                        free_blocks := st.free_blocks
                        free_inodes := wrap32 (s.sb.free_inodes + 1) } })

/-- Lines 295-307 of `fs_list`: scan slots `i .. i + n - 1`, appending the names of used
inodes to the output until `max_files` names are held. -/
def list_loop (cfg : Config) (tbl : List inode) (max_files : Int) :
    Nat → Nat → List (List Nat) → List (List Nat)
  | _, 0, out => out
  | i, n + 1, out =>
    if (tbl.getD i no_inode).used = true then
      let out' := out ++ [(strncpy (tbl.getD i no_inode).name cfg.MAX_FILENAME).set
        (cfg.MAX_FILENAME - 1) 0]
      if (out'.length : Int) = max_files then out' else list_loop cfg tbl max_files (i + 1) n out'
    else list_loop cfg tbl max_files (i + 1) n out

/-- The return value of `fs_list` and the rows it stored (`filenames_null` for a null output
array). -/
def fs_list (cfg : Config) (filenames_null : Bool) (max_files : Int) (s : FS) :
    Int × List (List Nat) :=
  if s.fs_fd < 0 then (-1, [])
  else if filenames_null = true ∨ max_files ≤ 0 then (-1, [])
  else
    let out := list_loop cfg s.inode_table max_files 0 cfg.MAX_FILES []
    (out.length, out)

/-! ## File I/O -/

/-- Lines 349-358 of `fs_write`: release the blocks at positions `i .. i + n - 1` and reset
the entries to `-1`. -/
def write_free_loop : Nat → Nat → FreeSt → FreeSt
  | _, 0, st => st
  | i, n + 1, st =>
    let block := st.blocks.getD i (-1)
    if block ≠ -1 then
      write_free_loop (i + 1) n
        { bitmap := bit_clear st.bitmap block
          free_blocks := wrap32 (st.free_blocks + 1)
          blocks := st.blocks.set i (-1) }
    else write_free_loop (i + 1) n st

/-- State of the allocation loop. -/
structure AllocSt where
  bitmap : List Nat
  blocks : List Int
  free_blocks : Int
  allocated_blocks : Nat

/-- Lines 361-370 of `fs_write`: first-fit scan of blocks `i .. i + n - 1`, stopping once
`required_blocks` blocks are allocated. -/
def alloc_loop (required_blocks : Int) : Nat → Nat → AllocSt → AllocSt
  | _, 0, st => st
  | i, n + 1, st =>
    if (st.allocated_blocks : Int) < required_blocks then
      if bit_test st.bitmap i = false then
        alloc_loop required_blocks (i + 1) n
          { bitmap := bit_set st.bitmap i
            blocks := st.blocks.set st.allocated_blocks (i : Int)
            free_blocks := wrap32 (st.free_blocks - 1)
            allocated_blocks := st.allocated_blocks + 1 }
      else alloc_loop required_blocks (i + 1) n st
    else st

/-- The bytes `data_pointer + i * BLOCK_SIZE` passes to `write` for a chunk. -/
def write_chunk (cfg : Config) (data : List Nat) (i : Nat) (chunk_size : Int) : List Nat :=
  (List.range chunk_size.toNat).map
    (fun k => data.getD ((wrap32 ((i : Int) * cfg.BLOCK_SIZE)).toNat + k) 0)

/-- Lines 374-387 of `fs_write`: store chunks `i .. i + n - 1`; `false` on the first seek
or write that fails. -/
def write_loop (cfg : Config) (ev : Faults) (blocks : List Int) (data : List Nat)
    (size required_blocks : Int) : Nat → Nat → Disk → Bool × Disk
  | _, 0, d => (true, d)
  | i, n + 1, d =>
    let block_index := blocks.getD i (-1)
    let off := wrap32 (block_index * cfg.BLOCK_SIZE)
    if off < 0 ∨ (ev (2 * i)).isSome then (false, d)
    else
      let chunk_size : Int :=
        if (i : Int) = required_blocks - 1 then wrap32 (size - wrap32 ((i : Int) * cfg.BLOCK_SIZE))
        else cfg.BLOCK_SIZE
      if chunk_size < 0 then (false, d)
      else
        match ev (2 * i + 1) with
        | some t => (false, d.write off.toNat ((write_chunk cfg data i chunk_size).take t))
        | none =>
          write_loop cfg ev blocks data size required_blocks (i + 1) n
            (d.write off.toNat (write_chunk cfg data i chunk_size))

/-- The computation `(size + BLOCK_SIZE - 1) / BLOCK_SIZE` on `int`. -/
def required_blocks (cfg : Config) (size : Int) : Int :=
  Int.tdiv (wrap32 (wrap32 (size + cfg.BLOCK_SIZE) - 1)) cfg.BLOCK_SIZE

def fs_write (cfg : Config) (filename : Option (List Nat)) (data : Option (List Nat))
    (size : Int) (ev : Faults) (s : FS) : Int × FS :=
  if s.fs_fd < 0 then (-3, s)
  else
    match filename, data with
    | some f, some dat =>
      if size < 0 ∨ strlen f ≥ cfg.MAX_FILENAME then (-3, s)
      else
        let file_index := find_file cfg s.inode_table f 0 cfg.MAX_FILES
        if file_index = -1 then (-1, s)
        else
          let node := s.inode_table.getD file_index.toNat no_inode
          let required := required_blocks cfg size
          if required > cfg.MAX_DIRECT_BLOCKS ∨ required > s.sb.free_blocks then (-2, s)
          else
            let st1 := write_free_loop 0 cfg.MAX_DIRECT_BLOCKS
              ⟨s.bitmap, s.sb.free_blocks, node.blocks⟩
            let st2 := alloc_loop required DATA_BLOCK_START (cfg.MAX_BLOCKS - DATA_BLOCK_START)
              ⟨st1.bitmap, st1.blocks, st1.free_blocks, 0⟩
            let r := write_loop cfg ev st2.blocks dat size required 0 required.toNat s.disk
            (if r.1 then 0 else -3,
             { s with
               bitmap := st2.bitmap
               sb := { s.sb with free_blocks := st2.free_blocks }
               inode_table := s.inode_table.set file_index.toNat
                 { node with blocks := st2.blocks, size := if r.1 then size else node.size }
               disk := r.2 })
    | _, _ => (-3, s)

/-- State of the read loop: `read_counter` and the bytes stored in the buffer so far. -/
structure ReadSt where
  read_counter : Int
  out : List Nat

/-- Lines 428-445 of `fs_read`: fetch chunks from blocks `i .. i + n - 1`; `none` on the
first seek or read that fails. -/
def read_loop (cfg : Config) (ev : Faults) (blocks : List Int) (bytes_to_read : Int)
    (d : Disk) : Nat → Nat → ReadSt → Option ReadSt
  | _, 0, st => some st
  | i, n + 1, st =>
    if st.read_counter < bytes_to_read then
      let block_index := blocks.getD i (-1)
      if block_index = -1 then some st
      else
        let off := wrap32 (block_index * cfg.BLOCK_SIZE)
        if off < 0 ∨ (ev (2 * i)).isSome then none
        else
          let chunk_size : Int :=
            if wrap32 (bytes_to_read - st.read_counter) > cfg.BLOCK_SIZE then cfg.BLOCK_SIZE
            else wrap32 (bytes_to_read - st.read_counter)
          match (if (ev (2 * i + 1)).isSome then none else d.read off.toNat chunk_size.toNat) with
          | none => none
          | some bs =>
            read_loop cfg ev blocks bytes_to_read d (i + 1) n
              ⟨wrap32 (st.read_counter + chunk_size), st.out ++ bs⟩
    else some st

/-- The return value of `fs_read` and the bytes it stored at the start of `buffer`
(`buffer_null` for a null buffer). -/
def fs_read (cfg : Config) (filename : Option (List Nat)) (buffer_null : Bool) (size : Int)
    (ev : Faults) (s : FS) : Int × List Nat :=
  if s.fs_fd < 0 then (-3, [])
  else
    match filename with
    | none => (-3, [])
    | some f =>
      if buffer_null = true ∨ size < 0 ∨ strlen f ≥ cfg.MAX_FILENAME then (-3, [])
      else
        let file_index := find_file cfg s.inode_table f 0 cfg.MAX_FILES
        if file_index = -1 then (-1, [])
        else
          let node := s.inode_table.getD file_index.toNat no_inode
          let bytes_to_read := if size < node.size then size else node.size
          match read_loop cfg ev node.blocks bytes_to_read s.disk 0 cfg.MAX_DIRECT_BLOCKS ⟨0, []⟩ with
          | none => (-3, [])
          | some st => (st.read_counter, st.out)

/-! ## Reachable states -/

/-- State of the globals at program start (`fs_fd = -1`, everything else zero). -/
def boot (cfg : Config) (d : Disk) : FS :=
  { fs_fd := -1
    sb := ⟨0, 0, 0, 0, 0⟩
    bitmap := List.replicate cfg.BLOCK_SIZE 0
    inode_table := List.replicate cfg.MAX_FILES (empty_inode cfg)
    disk := d }

def blank_disk : Disk := ⟨0, fun _ => 0, none, none, []⟩

/-- The path `"disk.img"`. -/
def image_path : List Nat := [100, 105, 115, 107, 46, 105, 109, 103]

/-- The state after `fs_format` and `fs_mount` of the image, without I/O failure. -/
def fresh (cfg : Config) : FS :=
  (fs_mount cfg (some image_path) noFaults
    (boot cfg (fs_format cfg (some image_path) noFaults blank_disk).2)).2

/-- States reached from a freshly formatted and mounted image by `fs_create`, `fs_write`
and `fs_delete` calls with arbitrary arguments and arbitrary I/O outcomes. -/
inductive Reachable (cfg : Config) : FS → Prop
  | fresh : Reachable cfg (fresh cfg)
  | create (s : FS) (filename : Option (List Nat)) :
      Reachable cfg s → Reachable cfg (fs_create cfg filename s).2
  | write (s : FS) (filename data : Option (List Nat)) (size : Int) (ev : Faults) :
      Reachable cfg s → INT_MIN ≤ size → size ≤ INT_MAX →
      Reachable cfg (fs_write cfg filename data size ev s).2
  | delete (s : FS) (filename : Option (List Nat)) :
      Reachable cfg s → Reachable cfg (fs_delete cfg filename s).2

/-! ## Specification-level notions -/

/-- The assigned (non `-1`) entries of an inode's block list, in position order. -/
def assigned (nd : inode) : List Int := nd.blocks.filter (fun b => b ≠ -1)

/-- The blocks an inode slot owns: its assigned entries when the slot is used. -/
def own (nd : inode) : List Int := if nd.used = true then assigned nd else []

/-- All owned blocks of a table, slot by slot. -/
def owned : List inode → List Int
  | [] => []
  | nd :: tbl => own nd ++ owned tbl

/-- The total number of assigned block entries over all used inodes. -/
def assigned_count (tbl : List inode) : Nat :=
  (tbl.map (fun nd => if nd.used = true then (nd.blocks.filter (fun b => b ≠ -1)).length else 0)).sum

/-- The number of inode-table slots with `used = false`. -/
def unused_count (tbl : List inode) : Nat := tbl.countP (fun nd => nd.used = false)

/-- The free blocks among `i .. i + n - 1`, ascending. -/
def free_list (bm : List Nat) (i n : Nat) : List Nat :=
  (List.range' i n).filter (fun j => bit_test bm j = false)

/-- The bitmap after clearing the bits of a list of blocks. -/
def clear_list (bm : List Nat) (l : List Int) : List Nat := l.foldl bit_clear bm

/-- The bitmap after setting the bits of a list of blocks. -/
def set_list (bm : List Nat) (l : List Nat) : List Nat := l.foldl bit_set bm

/-- The block list after storing the blocks of `l` at positions `a, a + 1, ...`. -/
def store_list : List Int → Nat → List Nat → List Int
  | blocks, _, [] => blocks
  | blocks, a, x :: xs => store_list (blocks.set a (x : Int)) (a + 1) xs

/-- The canonical form of a name field: its bytes before the terminator, `n` at most. -/
def cname : List Nat → Nat → List Nat
  | _, 0 => []
  | a, n + 1 => if a.headD 0 = 0 then [] else a.headD 0 :: cname a.tail n

/-- The consistency conditions that hold in every reachable state. -/
structure Inv (cfg : Config) (s : FS) : Prop where
  mounted : 0 ≤ s.fs_fd
  bitmap_len : s.bitmap.length = cfg.BLOCK_SIZE
  table_len : s.inode_table.length = cfg.MAX_FILES
  blocks_len : ∀ nd ∈ s.inode_table, nd.blocks.length = cfg.MAX_DIRECT_BLOCKS
  excl : (owned s.inode_table).Nodup
  range : ∀ b ∈ owned s.inode_table, (DATA_BLOCK_START : Int) ≤ b ∧ b < cfg.MAX_BLOCKS
  bits : ∀ i, i < cfg.MAX_BLOCKS →
    (bit_test s.bitmap i = true ↔ (i < DATA_BLOCK_START ∨ (i : Int) ∈ owned s.inode_table))
  free_blocks : s.sb.free_blocks =
    (cfg.MAX_BLOCKS : Int) - DATA_BLOCK_START - (owned s.inode_table).length
  free_inodes : s.sb.free_inodes = unused_count s.inode_table
  names : ∀ i j, i < s.inode_table.length → j < s.inode_table.length →
    (s.inode_table.getD i no_inode).used = true → (s.inode_table.getD j no_inode).used = true →
    strncmp (s.inode_table.getD i no_inode).name (s.inode_table.getD j no_inode).name
      cfg.MAX_FILENAME = 0 → i = j
  disk_size : DISK_SIZE cfg ≤ s.disk.size

/-- The owned blocks of all slots but slot `k`. -/
def rest (tbl : List inode) (k : Nat) : List Int :=
  owned (tbl.take k) ++ owned (tbl.drop (k + 1))

/-- The assigned entries among positions `j .. j + n - 1` of a block list. -/
def segment (blocks : List Int) (j n : Nat) : List Int :=
  ((blocks.drop j).take n).filter (fun b => b ≠ -1)

/-- The used blocks among `i .. i + n - 1`, ascending. -/
def used_list (bm : List Nat) (i n : Nat) : List Nat :=
  (List.range' i n).filter (fun j => bit_test bm j)

/-- The bitmap `fs_format` writes. -/
def fresh_bitmap (cfg : Config) : List Nat :=
  format_mark_loop 0 DATA_BLOCK_START (List.replicate cfg.BLOCK_SIZE 0)

/-- The superblock `fs_format` writes. -/
def fresh_sb (cfg : Config) : superblock :=
  { total_blocks := cfg.MAX_BLOCKS
    block_size := cfg.BLOCK_SIZE
    free_blocks := (cfg.MAX_BLOCKS : Int) - DATA_BLOCK_START
    total_inodes := cfg.MAX_FILES
    free_inodes := cfg.MAX_FILES }

/-- The state of the allocation loop of `fs_write` on slot `k` after both loops. -/
def write_alloc (cfg : Config) (s : FS) (k : Nat) (req : Int) : AllocSt :=
  alloc_loop req DATA_BLOCK_START (cfg.MAX_BLOCKS - DATA_BLOCK_START)
    ⟨(write_free_loop 0 cfg.MAX_DIRECT_BLOCKS
        ⟨s.bitmap, s.sb.free_blocks, (s.inode_table.getD k no_inode).blocks⟩).bitmap,
     (write_free_loop 0 cfg.MAX_DIRECT_BLOCKS
        ⟨s.bitmap, s.sb.free_blocks, (s.inode_table.getD k no_inode).blocks⟩).blocks,
     (write_free_loop 0 cfg.MAX_DIRECT_BLOCKS
        ⟨s.bitmap, s.sb.free_blocks, (s.inode_table.getD k no_inode).blocks⟩).free_blocks, 0⟩

/-- The lowest-indexed free data blocks, `req` at most, once slot `k` has released its own. -/
def new_blocks (cfg : Config) (s : FS) (k : Nat) (req : Int) : List Nat :=
  (free_list (clear_list s.bitmap (own (s.inode_table.getD k no_inode))) DATA_BLOCK_START
    (cfg.MAX_BLOCKS - DATA_BLOCK_START)).take req.toNat

/-- The state after creating `"a"` on a fresh small image and writing six bytes to it. -/
def demo_state : FS :=
  (fs_write tinyConfig (some [97]) (some [1, 2, 3, 4, 5, 6]) 6 noFaults
    (fs_create tinyConfig (some [97]) (fresh tinyConfig)).2).2

/-- The number of bytes of chunk `i` of a file of `sz` bytes. -/
def chunk_len (bs sz i : Nat) : Nat := min bs (sz - i * bs)

/-- The bytes the backing file holds for positions `lo .. hi - 1` of a file whose blocks are
`l`. -/
def file_range (d : Disk) (bs : Nat) (l : List Nat) (lo hi : Nat) : List Nat :=
  (List.range' lo (hi - lo)).map (fun p => d.bytes (l.getD (p / bs) 0 * bs + p % bs))

/-- The facts one iteration of the copy loops rests on: the geometry, the blocks `l` of the
file (all inside the image), and the file size `sz` with its `l.length` chunks. -/
structure Layout (cfg : Config) (blocks : List Int) (l : List Nat) (sz : Nat) : Prop where
  bs_pos : 0 < cfg.BLOCK_SIZE
  disk_le : (DISK_SIZE cfg : Int) ≤ INT_MAX
  entries : ∀ j, j < l.length → blocks.getD j (-1) = ((l.getD j 0 : Nat) : Int)
  inside : ∀ j, j < l.length → l.getD j 0 < cfg.MAX_BLOCKS
  distinct : ∀ i j, i < l.length → j < l.length → l.getD i 0 = l.getD j 0 → i = j
  below : ∀ j, j < l.length → j * cfg.BLOCK_SIZE < sz
  above : sz ≤ l.length * cfg.BLOCK_SIZE
  sz_le : (sz : Int) ≤ INT_MAX

/-- A formatted standard image whose superblock was overwritten with `total_blocks = 0`. -/
def tampered_disk : Disk :=
  { (fs_format stdConfig (some image_path) noFaults blank_disk).2 with
    sb := some { fresh_sb stdConfig with total_blocks := 0 } }

/-- A formatted standard image whose superblock holds `free_inodes = INT_MIN`. -/
def crafted_disk : Disk :=
  { (fs_format stdConfig (some image_path) noFaults blank_disk).2 with
    sb := some { fresh_sb stdConfig with free_inodes := INT_MIN } }

/-- The state after mounting `crafted_disk`. -/
def crafted_state : FS :=
  (fs_mount stdConfig (some image_path) noFaults (boot stdConfig crafted_disk)).2

/-- States reached from a freshly formatted and mounted image by `fs_create` calls, `n` of
which returned `0`. -/
inductive Created (cfg : Config) : Nat → FS → Prop
  | fresh : Created cfg 0 (fresh cfg)
  | ok (n : Nat) (s : FS) (filename : Option (List Nat)) :
      Created cfg n s → (fs_create cfg filename s).1 = 0 →
      Created cfg (n + 1) (fs_create cfg filename s).2
  | failed (n : Nat) (s : FS) (filename : Option (List Nat)) :
      Created cfg n s → (fs_create cfg filename s).1 ≠ 0 →
      Created cfg n (fs_create cfg filename s).2

/-- The row `fs_list` stores for an inode: `strncpy` of the name field, then a terminator in
the last byte. -/
def list_row (cfg : Config) (nd : inode) : List Nat :=
  (strncpy nd.name cfg.MAX_FILENAME).set (cfg.MAX_FILENAME - 1) 0

/-- The used inodes of a table, in ascending slot order. -/
def used_slots (tbl : List inode) : List inode := tbl.filter (fun nd => nd.used)

/-- The name a slot holds, as a C string: the bytes of its name field before the terminator,
`MAX_FILENAME - 1` at most (the last byte of the field is the terminator's). -/
def slot_name (cfg : Config) (nd : inode) : List Nat := cname nd.name (cfg.MAX_FILENAME - 1)

/-- Lines 374-387 of `fs_write`: the calls `write(fs_fd, ..)` the copy loop issues for chunks
`i .. i + n - 1`, each as the file offset it writes at and the bytes it stores there. -/
def write_loop_calls (cfg : Config) (ev : Faults) (blocks : List Int) (data : List Nat)
    (size required_blocks : Int) : Nat → Nat → List (Nat × List Nat)
  | _, 0 => []
  | i, n + 1 =>
    let block_index := blocks.getD i (-1)
    let off := wrap32 (block_index * cfg.BLOCK_SIZE)
    if off < 0 ∨ (ev (2 * i)).isSome then []
    else
      let chunk_size : Int :=
        if (i : Int) = required_blocks - 1 then wrap32 (size - wrap32 ((i : Int) * cfg.BLOCK_SIZE))
        else cfg.BLOCK_SIZE
      if chunk_size < 0 then []
      else
        match ev (2 * i + 1) with
        | some t => [(off.toNat, (write_chunk cfg data i chunk_size).take t)]
        | none =>
          (off.toNat, write_chunk cfg data i chunk_size) ::
            write_loop_calls cfg ev blocks data size required_blocks (i + 1) n

/-- The calls `write(fs_fd, ..)` one `fs_write` issues, in order. -/
def fs_write_calls (cfg : Config) (filename : Option (List Nat)) (data : Option (List Nat))
    (size : Int) (ev : Faults) (s : FS) : List (Nat × List Nat) :=
  if s.fs_fd < 0 then []
  else
    match filename, data with
    | some f, some dat =>
      if size < 0 ∨ strlen f ≥ cfg.MAX_FILENAME then []
      else
        let file_index := find_file cfg s.inode_table f 0 cfg.MAX_FILES
        if file_index = -1 then []
        else
          let node := s.inode_table.getD file_index.toNat no_inode
          let required := required_blocks cfg size
          if required > cfg.MAX_DIRECT_BLOCKS ∨ required > s.sb.free_blocks then []
          else
            let st1 := write_free_loop 0 cfg.MAX_DIRECT_BLOCKS
              ⟨s.bitmap, s.sb.free_blocks, node.blocks⟩
            let st2 := alloc_loop required DATA_BLOCK_START (cfg.MAX_BLOCKS - DATA_BLOCK_START)
              ⟨st1.bitmap, st1.blocks, st1.free_blocks, 0⟩
            write_loop_calls cfg ev st2.blocks dat size required 0 required.toNat
    | _, _ => []

/-- The image after a list of `write` calls. -/
def apply_calls (d : Disk) (calls : List (Nat × List Nat)) : Disk :=
  calls.foldl (fun d w => d.write w.1 w.2) d

/-- The state `demo_state` followed by the creation of `"b"` and a write of three bytes to
it. -/
def two_files : FS :=
  (fs_write tinyConfig (some [98]) (some [7, 8, 9]) 3 noFaults
    (fs_create tinyConfig (some [98]) demo_state).2).2

/-! ## Machine integers -/

theorem wrap32_of_range (x : Int) (h1 : INT_MIN ≤ x) (h2 : x ≤ INT_MAX) : wrap32 x = x := by
  unfold wrap32
  unfold INT_MIN at h1
  unfold INT_MAX at h2
  omega

theorem wrap32_range (x : Int) : INT_MIN ≤ wrap32 x ∧ wrap32 x ≤ INT_MAX := by
  unfold wrap32 INT_MIN INT_MAX
  omega

/-! ## Bitmap lemmas -/

theorem and_shift_ne_zero (b k : Nat) : (b &&& (1 <<< k) != 0) = b.testBit k := by
  rw [Nat.one_shiftLeft, Nat.and_two_pow]
  cases h : b.testBit k <;> simp

theorem bit_test_eq (bm : List Nat) (i : Nat) :
    bit_test bm i = (bm.getD (i / 8) 0).testBit (i % 8) := by
  unfold bit_test
  exact and_shift_ne_zero _ _

theorem testBit_255 (m : Nat) (h : m < 8) : Nat.testBit 255 m = true := by
  interval_cases m <;> decide

theorem getD_set_eq {α : Type} (l : List α) (i : Nat) (a d : α) (h : i < l.length) :
    (l.set i a).getD i d = a := by
  simp [List.getD_eq_getElem?_getD, List.getElem?_set, h]

theorem getD_set_ne {α : Type} (l : List α) (i j : Nat) (a d : α) (h : i ≠ j) :
    (l.set i a).getD j d = l.getD j d := by
  simp [List.getD_eq_getElem?_getD, List.getElem?_set, h]

theorem bit_set_length (bm : List Nat) (i : Nat) : (bit_set bm i).length = bm.length := by
  simp [bit_set]

theorem bit_clear_length (bm : List Nat) (b : Int) : (bit_clear bm b).length = bm.length := by
  unfold bit_clear
  split <;> simp

theorem div_mod_8 (i j : Nat) (h1 : i / 8 = j / 8) (h2 : i % 8 = j % 8) : i = j := by
  omega

theorem bit_test_set_ne (bm : List Nat) (i j : Nat) (h : j ≠ i) :
    bit_test (bit_set bm i) j = bit_test bm j := by
  rw [bit_test_eq, bit_test_eq]
  unfold bit_set
  by_cases hd : i / 8 = j / 8
  · by_cases hl : i / 8 < bm.length
    · rw [← hd, getD_set_eq _ _ _ _ hl, Nat.testBit_or, Nat.one_shiftLeft, Nat.testBit_two_pow]
      have : ¬ (i % 8 = j % 8) := fun h2 => h (div_mod_8 _ _ hd h2).symm
      simp [this]
    · rw [List.set_eq_of_length_le (by omega)]
  · rw [getD_set_ne _ _ _ _ _ hd]

theorem bit_test_set_self (bm : List Nat) (i : Nat) (hl : i / 8 < bm.length) :
    bit_test (bit_set bm i) i = true := by
  rw [bit_test_eq]
  unfold bit_set
  rw [getD_set_eq _ _ _ _ hl, Nat.testBit_or, Nat.one_shiftLeft, Nat.testBit_two_pow]
  simp

theorem bit_test_clear (bm : List Nat) (i j : Nat) :
    bit_test (bit_clear bm (i : Int)) j = (decide (j ≠ i) && bit_test bm j) := by
  rw [bit_test_eq, bit_test_eq]
  unfold bit_clear
  simp only [Int.natCast_nonneg, if_true, Int.toNat_ofNat]
  by_cases hl : i / 8 < bm.length
  · by_cases hd : i / 8 = j / 8
    · rw [← hd, getD_set_eq _ _ _ _ hl, Nat.testBit_and, Nat.testBit_xor, Nat.one_shiftLeft,
        Nat.testBit_two_pow, testBit_255 _ (Nat.mod_lt _ (by decide))]
      by_cases hm : i % 8 = j % 8
      · have : j = i := (div_mod_8 _ _ hd hm).symm
        simp [this]
      · have : j ≠ i := fun h2 => hm (by rw [h2])
        simp [this, hm]
    · rw [getD_set_ne _ _ _ _ _ hd]
      have : j ≠ i := fun h2 => hd (by rw [h2])
      simp [this]
  · rw [List.set_eq_of_length_le (by omega)]
    by_cases hji : j = i
    · subst hji
      rw [List.getD_eq_default _ _ (by omega)]
      simp
    · simp [hji]

theorem bit_test_clear_neg (bm : List Nat) (b : Int) (h : b < 0) : bit_clear bm b = bm := by
  unfold bit_clear
  rw [if_neg (by omega)]

/-! ## C string lemmas -/

theorem strncmp_eq_zero_iff (a b : List Nat) (n : Nat) :
    strncmp a b n = 0 ↔ cname a n = cname b n := by
  induction n generalizing a b with
  | zero => simp [strncmp, cname]
  | succ n ih =>
    unfold strncmp cname
    generalize a.headD 0 = ca
    generalize b.headD 0 = cb
    by_cases h : ca = cb
    · subst h
      rw [if_neg (by simp)]
      by_cases h0 : ca = 0
      · simp [h0]
      · simp [h0, ih]
    · rw [if_pos h]
      constructor
      · intro h2
        exact absurd (by omega) h
      · intro h2
        exfalso
        by_cases ha : ca = 0
        · have hb : ¬ cb = 0 := fun hb => h (by rw [ha, hb])
          simp [ha, hb] at h2
        · by_cases hb : cb = 0
          · simp [ha, hb] at h2
          · simp [ha, hb] at h2
            exact h h2.1

theorem strncmp_self (a : List Nat) (n : Nat) : strncmp a a n = 0 :=
  (strncmp_eq_zero_iff a a n).2 rfl

theorem strncmp_symm (a b : List Nat) (n : Nat) (h : strncmp a b n = 0) : strncmp b a n = 0 :=
  (strncmp_eq_zero_iff b a n).2 ((strncmp_eq_zero_iff a b n).1 h).symm

theorem strncmp_trans (a b c : List Nat) (n : Nat) (h1 : strncmp a b n = 0)
    (h2 : strncmp b c n = 0) : strncmp a c n = 0 :=
  (strncmp_eq_zero_iff a c n).2
    (((strncmp_eq_zero_iff a b n).1 h1).trans ((strncmp_eq_zero_iff b c n).1 h2))

theorem cname_replicate_zero (m n : Nat) : cname (List.replicate m 0) n = [] := by
  cases n with
  | zero => rfl
  | succ n => cases m <;> simp [cname, List.replicate]

theorem cname_strncpy (f : List Nat) (n : Nat) : cname (strncpy f n) n = cname f n := by
  induction n generalizing f with
  | zero => rfl
  | succ n ih =>
    unfold strncpy
    by_cases h : f.headD 0 = 0
    · rw [if_pos h, cname_replicate_zero]
      unfold cname
      rw [if_pos h]
    · rw [if_neg h]
      unfold cname
      rw [if_neg h]
      simp only [List.headD_cons, List.tail_cons]
      rw [if_neg h, ih]

theorem strlen_pos_tail (f : List Nat) (h : f.headD 0 ≠ 0) : strlen f = strlen f.tail + 1 := by
  cases f with
  | nil => simp at h
  | cons c cs =>
    simp at h
    simp [strlen, h]

theorem strncpy_length (f : List Nat) (n : Nat) : (strncpy f n).length = n := by
  induction n generalizing f with
  | zero => rfl
  | succ n ih =>
    unfold strncpy
    split <;> simp [ih]

theorem strncpy_set_last (f : List Nat) (n : Nat) (h : strlen f < n) :
    (strncpy f n).set (n - 1) 0 = strncpy f n := by
  induction n generalizing f with
  | zero => rfl
  | succ n ih =>
    unfold strncpy
    by_cases h0 : f.headD 0 = 0
    · rw [if_pos h0]
      exact List.set_replicate_self
    · rw [if_neg h0]
      rw [strlen_pos_tail f h0] at h
      have hn : 0 < n := by omega
      obtain ⟨m, rfl⟩ : ∃ m, n = m + 1 := ⟨n - 1, by omega⟩
      simp only [Nat.add_sub_cancel, List.set_cons_succ]
      have := ih f.tail (by omega)
      simp only [Nat.add_sub_cancel] at this
      rw [this]

/-- The name field `fs_create` stores compares equal to the file name. -/
theorem stored_name_matches (f : List Nat) (n : Nat) (h : strlen f < n) (g : List Nat) :
    strncmp ((strncpy f n).set (n - 1) 0) g n = 0 ↔ strncmp f g n = 0 := by
  rw [strncpy_set_last f n h, strncmp_eq_zero_iff, strncmp_eq_zero_iff, cname_strncpy]

/-! ## Lookup loops -/

theorem find_file_spec (cfg : Config) (tbl : List inode) (f : List Nat) (i n : Nat) :
    (find_file cfg tbl f i n = -1 ∧ ∀ j, i ≤ j → j < i + n → ¬ slot_matches cfg tbl f j) ∨
    (∃ k, i ≤ k ∧ k < i + n ∧ find_file cfg tbl f i n = (k : Int) ∧ slot_matches cfg tbl f k ∧
      ∀ j, i ≤ j → j < k → ¬ slot_matches cfg tbl f j) := by
  induction n generalizing i with
  | zero =>
    left
    exact ⟨rfl, fun j h1 h2 => by omega⟩
  | succ n ih =>
    unfold find_file
    by_cases h : slot_matches cfg tbl f i
    · right
      refine ⟨i, le_refl _, by omega, ?_, h, fun j h1 h2 => by omega⟩
      rw [if_pos h]
    · rw [if_neg h]
      rcases ih (i + 1) with ⟨h1, h2⟩ | ⟨k, h1, h2, h3, h4, h5⟩
      · left
        refine ⟨h1, fun j hj1 hj2 => ?_⟩
        by_cases hji : j = i
        · rw [hji]; exact h
        · exact h2 j (by omega) (by omega)
      · right
        refine ⟨k, by omega, by omega, h3, h4, fun j hj1 hj2 => ?_⟩
        by_cases hji : j = i
        · rw [hji]; exact h
        · exact h5 j (by omega) hj2

theorem find_file_neg (cfg : Config) (tbl : List inode) (f : List Nat) (i n : Nat)
    (h : find_file cfg tbl f i n = -1) : ∀ j, i ≤ j → j < i + n → ¬ slot_matches cfg tbl f j := by
  rcases find_file_spec cfg tbl f i n with ⟨_, h2⟩ | ⟨k, _, _, h3, _, _⟩
  · exact h2
  · rw [h3] at h; omega

theorem find_file_pos (cfg : Config) (tbl : List inode) (f : List Nat) (i n : Nat)
    (h : find_file cfg tbl f i n ≠ -1) :
    ∃ k, i ≤ k ∧ k < i + n ∧ find_file cfg tbl f i n = (k : Int) ∧ slot_matches cfg tbl f k ∧
      ∀ j, i ≤ j → j < k → ¬ slot_matches cfg tbl f j := by
  rcases find_file_spec cfg tbl f i n with ⟨h1, _⟩ | h2
  · exact absurd h1 h
  · exact h2

theorem find_free_spec (tbl : List inode) (i n : Nat) :
    (find_free tbl i n = -1 ∧ ∀ j, i ≤ j → j < i + n → (tbl.getD j no_inode).used = true) ∨
    (∃ k, i ≤ k ∧ k < i + n ∧ find_free tbl i n = (k : Int) ∧
      (tbl.getD k no_inode).used = false ∧
      ∀ j, i ≤ j → j < k → (tbl.getD j no_inode).used = true) := by
  induction n generalizing i with
  | zero =>
    left
    exact ⟨rfl, fun j h1 h2 => by omega⟩
  | succ n ih =>
    unfold find_free
    by_cases h : (tbl.getD i no_inode).used = false
    · right
      refine ⟨i, le_refl _, by omega, ?_, h, fun j h1 h2 => by omega⟩
      rw [if_pos h]
    · rw [if_neg h]
      have h' : (tbl.getD i no_inode).used = true := by simpa using h
      rcases ih (i + 1) with ⟨h1, h2⟩ | ⟨k, h1, h2, h3, h4, h5⟩
      · left
        refine ⟨h1, fun j hj1 hj2 => ?_⟩
        by_cases hji : j = i
        · rw [hji]; exact h'
        · exact h2 j (by omega) (by omega)
      · right
        refine ⟨k, by omega, by omega, h3, h4, fun j hj1 hj2 => ?_⟩
        by_cases hji : j = i
        · rw [hji]; exact h'
        · exact h5 j (by omega) hj2

/-! ## Owned blocks of a table -/

theorem owned_append (a b : List inode) : owned (a ++ b) = owned a ++ owned b := by
  induction a with
  | nil => rfl
  | cons nd a ih => simp [owned, ih]

theorem mem_owned (tbl : List inode) (b : Int) : b ∈ owned tbl ↔ ∃ nd ∈ tbl, b ∈ own nd := by
  induction tbl with
  | nil => simp [owned]
  | cons nd tbl ih => simp [owned, ih]

theorem owned_split (tbl : List inode) (k : Nat) (h : k < tbl.length) :
    owned tbl = owned (tbl.take k) ++ (own (tbl.getD k no_inode) ++ owned (tbl.drop (k + 1))) := by
  conv_lhs => rw [← List.take_append_drop k tbl, List.drop_eq_getElem_cons h]
  rw [owned_append, List.getD_eq_getElem _ _ h]
  rfl

theorem owned_set (tbl : List inode) (k : Nat) (x : inode) (h : k < tbl.length) :
    owned (tbl.set k x) = owned (tbl.take k) ++ (own x ++ owned (tbl.drop (k + 1))) := by
  rw [List.set_eq_take_append_cons_drop, if_pos h, owned_append]
  rfl

theorem owned_perm (tbl : List inode) (k : Nat) (h : k < tbl.length) :
    (owned tbl).Perm (own (tbl.getD k no_inode) ++ rest tbl k) := by
  rw [owned_split tbl k h, rest, ← List.append_assoc, ← List.append_assoc]
  exact List.Perm.append_right _ List.perm_append_comm

theorem owned_set_perm (tbl : List inode) (k : Nat) (x : inode) (h : k < tbl.length) :
    (owned (tbl.set k x)).Perm (own x ++ rest tbl k) := by
  rw [owned_set tbl k x h, rest, ← List.append_assoc, ← List.append_assoc]
  exact List.Perm.append_right _ List.perm_append_comm

theorem owned_length (tbl : List inode) : (owned tbl).length = assigned_count tbl := by
  induction tbl with
  | nil => rfl
  | cons nd tbl ih =>
    simp only [owned, List.length_append, ih, assigned_count, List.map_cons, List.sum_cons]
    congr 1
    unfold own assigned
    split <;> simp

theorem unused_count_set (tbl : List inode) (k : Nat) (x : inode) (h : k < tbl.length) :
    unused_count (tbl.set k x) + (if (tbl.getD k no_inode).used = false then 1 else 0) =
      unused_count tbl + (if x.used = false then 1 else 0) := by
  unfold unused_count
  rw [List.set_eq_take_append_cons_drop, if_pos h]
  conv_rhs => rw [← List.take_append_drop k tbl, List.drop_eq_getElem_cons h]
  rw [List.getD_eq_getElem _ _ h]
  simp only [List.countP_append, List.countP_cons]
  simp only [decide_eq_true_eq]
  omega

theorem unused_count_le (tbl : List inode) : unused_count tbl ≤ tbl.length :=
  List.countP_le_length _

/-! ## Release loops -/

theorem clear_list_length (bm : List Nat) (l : List Int) :
    (clear_list bm l).length = bm.length := by
  induction l generalizing bm with
  | nil => rfl
  | cons b l ih =>
    unfold clear_list at ih ⊢
    rw [List.foldl_cons, ih, bit_clear_length]

theorem bit_test_clear_list (bm : List Nat) (l : List Int) (hl : ∀ b ∈ l, 0 ≤ b) (j : Nat) :
    bit_test (clear_list bm l) j = (bit_test bm j && decide ((j : Int) ∉ l)) := by
  induction l generalizing bm with
  | nil => simp [clear_list]
  | cons b l ih =>
    unfold clear_list at ih ⊢
    rw [List.foldl_cons, ih _ (fun c hc => hl c (List.mem_cons_of_mem _ hc))]
    have hb : 0 ≤ b := hl b (List.mem_cons_self _ _)
    obtain ⟨m, rfl⟩ : ∃ m : Nat, b = (m : Int) := ⟨b.toNat, (Int.toNat_of_nonneg hb).symm⟩
    rw [bit_test_clear]
    by_cases hjm : j = m
    · subst hjm; simp
    · have : ¬ ((j : Int) = (m : Int)) := fun h => hjm (by exact_mod_cast h)
      simp [hjm, this, Bool.and_comm]

theorem segment_zero (blocks : List Int) (j : Nat) : segment blocks j 0 = [] := by
  simp [segment]

theorem segment_succ (blocks : List Int) (j n : Nat) :
    segment blocks j (n + 1) =
      (if blocks.getD j (-1) ≠ -1 then [blocks.getD j (-1)] else []) ++ segment blocks (j + 1) n := by
  unfold segment
  by_cases h : j < blocks.length
  · rw [List.drop_eq_getElem_cons h, List.take_succ_cons, List.filter_cons,
      List.getD_eq_getElem _ _ h]
    by_cases hb : blocks[j] = -1
    · simp [hb]
    · simp [hb]
  · rw [List.getD_eq_default _ _ (by omega), List.drop_eq_nil_of_le (by omega),
      List.drop_eq_nil_of_le (by omega)]
    simp

theorem segment_all (blocks : List Int) : segment blocks 0 blocks.length =
    blocks.filter (fun b => b ≠ -1) := by
  simp [segment]

theorem segment_set (blocks : List Int) (j n : Nat) (x : Int) :
    segment (blocks.set j x) (j + 1) n = segment blocks (j + 1) n := by
  unfold segment
  rw [List.drop_set, if_pos (by omega)]

theorem delete_free_loop_spec (j n : Nat) (st : FreeSt) :
    (delete_free_loop j n st).bitmap = clear_list st.bitmap (segment st.blocks j n) ∧
    (delete_free_loop j n st).blocks = st.blocks ∧
    (INT_MIN ≤ st.free_blocks → st.free_blocks + (segment st.blocks j n).length ≤ INT_MAX →
      (delete_free_loop j n st).free_blocks = st.free_blocks + (segment st.blocks j n).length) := by
  induction n generalizing j st with
  | zero => simp [delete_free_loop, segment_zero, clear_list]
  | succ n ih =>
    unfold delete_free_loop
    rw [segment_succ]
    by_cases hb : st.blocks.getD j (-1) = -1
    · simp only [hb, ne_eq, not_true_eq_false, if_false, List.nil_append]
      exact ih (j + 1) st
    · simp only [hb, ne_eq, not_false_eq_true, if_true, List.singleton_append,
        List.length_cons]
      obtain ⟨h1, h2, h3⟩ := ih (j + 1)
        { st with bitmap := bit_clear st.bitmap (st.blocks.getD j (-1)),
                  free_blocks := wrap32 (st.free_blocks + 1) }
      refine ⟨?_, h2, ?_⟩
      · rw [h1]; rfl
      · intro hlo hhi
        push_cast at hhi
        have hw : wrap32 (st.free_blocks + 1) = st.free_blocks + 1 :=
          wrap32_of_range _ (by omega) (by omega)
        simp only [hw] at h3 ⊢
        rw [h3 (by omega) (by omega)]
        push_cast
        omega

theorem write_free_loop_spec (i n : Nat) (st : FreeSt) :
    (write_free_loop i n st).bitmap = clear_list st.bitmap (segment st.blocks i n) ∧
    (write_free_loop i n st).blocks.length = st.blocks.length ∧
    (∀ p, (write_free_loop i n st).blocks.getD p (-1) =
      if i ≤ p ∧ p < i + n then -1 else st.blocks.getD p (-1)) ∧
    (INT_MIN ≤ st.free_blocks → st.free_blocks + (segment st.blocks i n).length ≤ INT_MAX →
      (write_free_loop i n st).free_blocks = st.free_blocks + (segment st.blocks i n).length) := by
  induction n generalizing i st with
  | zero =>
    refine ⟨by simp [write_free_loop, segment_zero, clear_list], rfl, fun p => ?_,
      fun _ _ => by simp [write_free_loop, segment_zero]⟩
    rw [if_neg (by omega)]
    rfl
  | succ n ih =>
    unfold write_free_loop
    rw [segment_succ]
    by_cases hb : st.blocks.getD i (-1) = -1
    · simp only [hb, ne_eq, not_true_eq_false, if_false, List.nil_append]
      obtain ⟨h1, h2, h3, h4⟩ := ih (i + 1) st
      refine ⟨h1, h2, fun p => ?_, h4⟩
      rw [h3 p]
      by_cases hp : p = i
      · subst hp
        rw [if_neg (by omega), if_pos (by omega), hb]
      · have e : (i + 1 ≤ p ∧ p < i + 1 + n) ↔ (i ≤ p ∧ p < i + (n + 1)) := by omega
        simp only [e]
    · simp only [hb, ne_eq, not_false_eq_true, if_true, List.singleton_append,
        List.length_cons]
      obtain ⟨h1, h2, h3, h4⟩ := ih (i + 1)
        { bitmap := bit_clear st.bitmap (st.blocks.getD i (-1)),
          free_blocks := wrap32 (st.free_blocks + 1),
          blocks := st.blocks.set i (-1) }
      simp only [segment_set, List.length_set] at h1 h2 h3 h4
      refine ⟨?_, h2, fun p => ?_, ?_⟩
      · rw [h1]; rfl
      · rw [h3 p]
        by_cases hp : p = i
        · subst hp
          have : ¬ (p + 1 ≤ p ∧ p < p + 1 + n) := by omega
          rw [if_neg this, if_pos (by omega)]
          by_cases hl : p < st.blocks.length
          · rw [getD_set_eq _ _ _ _ hl]
          · rw [List.set_eq_of_length_le (by omega), List.getD_eq_default _ _ (by omega)]
        · have e : (i + 1 ≤ p ∧ p < i + 1 + n) ↔ (i ≤ p ∧ p < i + (n + 1)) := by omega
          simp only [e]
          rw [getD_set_ne _ _ _ _ _ (fun h => hp h.symm)]
      · intro hlo hhi
        push_cast at hhi
        have hw : wrap32 (st.free_blocks + 1) = st.free_blocks + 1 :=
          wrap32_of_range _ (by omega) (by omega)
        simp only [hw] at h4 ⊢
        rw [h4 (by omega) (by omega)]
        push_cast
        omega

/-! ## Allocation loop -/

theorem set_list_length (bm : List Nat) (l : List Nat) : (set_list bm l).length = bm.length := by
  induction l generalizing bm with
  | nil => rfl
  | cons b l ih =>
    unfold set_list at ih ⊢
    rw [List.foldl_cons, ih, bit_set_length]

theorem bit_test_set_list (bm : List Nat) (l : List Nat) (hl : ∀ x ∈ l, x / 8 < bm.length)
    (j : Nat) : bit_test (set_list bm l) j = (bit_test bm j || decide (j ∈ l)) := by
  induction l generalizing bm with
  | nil => simp [set_list]
  | cons b l ih =>
    unfold set_list at ih ⊢
    rw [List.foldl_cons, ih _ (fun x hx => by
      rw [bit_set_length]; exact hl x (List.mem_cons_of_mem _ hx))]
    by_cases hjb : j = b
    · subst hjb
      rw [bit_test_set_self _ _ (hl j (List.mem_cons_self _ _))]
      simp
    · rw [bit_test_set_ne _ _ _ hjb]
      simp [hjb]

theorem free_list_zero (bm : List Nat) (i : Nat) : free_list bm i 0 = [] := rfl

theorem free_list_succ (bm : List Nat) (i n : Nat) :
    free_list bm i (n + 1) =
      if bit_test bm i = false then i :: free_list bm (i + 1) n else free_list bm (i + 1) n := by
  unfold free_list
  rw [List.range'_succ, List.filter_cons]
  by_cases h : bit_test bm i = false <;> simp [h]

theorem mem_free_list (bm : List Nat) (i n x : Nat) :
    x ∈ free_list bm i n ↔ (i ≤ x ∧ x < i + n) ∧ bit_test bm x = false := by
  unfold free_list
  rw [List.mem_filter, List.mem_range'_1]
  simp

theorem free_list_nodup (bm : List Nat) (i n : Nat) : (free_list bm i n).Nodup :=
  List.Nodup.sublist (List.filter_sublist _) (List.nodup_range' i n)

theorem free_list_sorted (bm : List Nat) (i n : Nat) :
    (free_list bm i n).Pairwise (fun a b => a < b) :=
  List.Pairwise.sublist (List.filter_sublist _) (List.pairwise_lt_range' i n)

theorem free_list_congr (bm bm' : List Nat) (i n : Nat)
    (h : ∀ x, i ≤ x → x < i + n → bit_test bm' x = bit_test bm x) :
    free_list bm' i n = free_list bm i n := by
  unfold free_list
  apply List.filter_congr
  intro x hx
  rw [List.mem_range'_1] at hx
  rw [h x hx.1 hx.2]

theorem alloc_loop_spec (req : Int) (i n : Nat) (st : AllocSt) :
    (alloc_loop req i n st).bitmap =
      set_list st.bitmap ((free_list st.bitmap i n).take (req - st.allocated_blocks).toNat) ∧
    (alloc_loop req i n st).blocks =
      store_list st.blocks st.allocated_blocks
        ((free_list st.bitmap i n).take (req - st.allocated_blocks).toNat) ∧
    (alloc_loop req i n st).allocated_blocks =
      st.allocated_blocks + ((free_list st.bitmap i n).take (req - st.allocated_blocks).toNat).length ∧
    (st.free_blocks ≤ INT_MAX →
      INT_MIN ≤ st.free_blocks -
        ((free_list st.bitmap i n).take (req - st.allocated_blocks).toNat).length →
      (alloc_loop req i n st).free_blocks = st.free_blocks -
        ((free_list st.bitmap i n).take (req - st.allocated_blocks).toNat).length) := by
  induction n generalizing i st with
  | zero => simp [alloc_loop, free_list_zero, set_list, store_list]
  | succ n ih =>
    unfold alloc_loop
    by_cases hlt : (st.allocated_blocks : Int) < req
    · rw [if_pos hlt]
      obtain ⟨k, hk⟩ : ∃ k : Nat, (req - st.allocated_blocks).toNat = k + 1 :=
        ⟨(req - st.allocated_blocks).toNat - 1, by omega⟩
      rw [free_list_succ]
      by_cases hfree : bit_test st.bitmap i = false
      · rw [if_pos hfree, if_pos hfree, hk, List.take_succ_cons]
        obtain ⟨h1, h2, h3, h4⟩ := ih (i + 1)
          { bitmap := bit_set st.bitmap i
            blocks := st.blocks.set st.allocated_blocks (i : Int)
            free_blocks := wrap32 (st.free_blocks - 1)
            allocated_blocks := st.allocated_blocks + 1 }
        have hk' : (req - ((st.allocated_blocks + 1 : Nat) : Int)).toNat = k := by
          push_cast; omega
        have hfl : free_list (bit_set st.bitmap i) (i + 1) n = free_list st.bitmap (i + 1) n :=
          free_list_congr _ _ _ _ (fun x hx _ => bit_test_set_ne _ _ _ (by omega))
        simp only [hk', hfl] at h1 h2 h3 h4
        refine ⟨?_, ?_, ?_, ?_⟩
        · rw [h1]; rfl
        · rw [h2]; rfl
        · rw [h3, List.length_cons]; omega
        · intro hhi hlo
          rw [List.length_cons] at hlo ⊢
          push_cast at hlo ⊢
          have hw : wrap32 (st.free_blocks - 1) = st.free_blocks - 1 :=
            wrap32_of_range _ (by omega) (by omega)
          simp only [hw] at h4 ⊢
          rw [h4 (by omega) (by omega)]
          omega
      · rw [if_neg hfree, if_neg hfree]
        exact ih (i + 1) st
    · rw [if_neg hlt]
      have hk : (req - st.allocated_blocks).toNat = 0 := by omega
      simp [hk, set_list, store_list]

theorem take_set_succ {α : Type} (l : List α) (a : Nat) (x : α) (h : a < l.length) :
    (l.set a x).take (a + 1) = l.take a ++ [x] := by
  rw [List.set_eq_take_append_cons_drop, if_pos h]
  have hl : (List.take a l).length = a := by simp; omega
  rw [List.take_append_eq_append_take, hl]
  simp [List.take_of_length_le, hl]

theorem store_list_eq (blocks : List Int) (a : Nat) (l : List Nat)
    (h : a + l.length ≤ blocks.length) :
    store_list blocks a l =
      blocks.take a ++ l.map (fun (x : Nat) => (x : Int)) ++ blocks.drop (a + l.length) := by
  induction l generalizing blocks a with
  | nil => simp [store_list]
  | cons x xs ih =>
    unfold store_list
    rw [List.length_cons] at h
    rw [ih _ _ (by rw [List.length_set]; omega), take_set_succ _ _ _ (by omega), List.drop_set,
      if_pos (by omega)]
    simp only [List.map_cons, List.length_cons, List.append_assoc, List.singleton_append]
    congr 3
    omega

theorem store_list_replicate (m : Nat) (l : List Nat) (h : l.length ≤ m) :
    store_list (List.replicate m (-1)) 0 l =
      l.map (fun (x : Nat) => (x : Int)) ++ List.replicate (m - l.length) (-1) := by
  rw [store_list_eq _ _ _ (by simpa using h)]
  simp

theorem cast_injective : Function.Injective (fun (x : Nat) => (x : Int)) := by
  intro a b hab
  simp only at hab
  exact_mod_cast hab

theorem free_used_length (bm : List Nat) (i n : Nat) :
    (free_list bm i n).length + (used_list bm i n).length = n := by
  induction n generalizing i with
  | zero => rfl
  | succ n ih =>
    unfold free_list used_list at ih ⊢
    rw [List.range'_succ, List.filter_cons, List.filter_cons]
    have := ih (i + 1)
    by_cases h : bit_test bm i = true
    · simp only [h, Bool.true_eq_false, decide_False, if_true, List.length_cons]
      simp only [Bool.false_eq_true, if_false]
      omega
    · have h' : bit_test bm i = false := by simpa using h
      simp only [h', decide_True, if_true, List.length_cons, Bool.false_eq_true, if_false]
      omega

/-- Counting: when the set bits of the data region are exactly the blocks of a duplicate-free
list, the free blocks and that list together fill the data region. -/
theorem free_count (cfg : Config) (bm : List Nat) (r : List Int) (hnd : r.Nodup)
    (hrange : ∀ b ∈ r, (DATA_BLOCK_START : Int) ≤ b ∧ b < cfg.MAX_BLOCKS)
    (hbits : ∀ i, i < cfg.MAX_BLOCKS →
      (bit_test bm i = true ↔ (i < DATA_BLOCK_START ∨ (i : Int) ∈ r))) :
    (free_list bm DATA_BLOCK_START (cfg.MAX_BLOCKS - DATA_BLOCK_START)).length + r.length =
      cfg.MAX_BLOCKS - DATA_BLOCK_START := by
  have hperm : ((used_list bm DATA_BLOCK_START (cfg.MAX_BLOCKS - DATA_BLOCK_START)).map
      (fun (x : Nat) => (x : Int))).Perm r := by
    rw [List.perm_ext_iff_of_nodup _ hnd]
    · intro b
      rw [List.mem_map]
      constructor
      · rintro ⟨x, hx, rfl⟩
        unfold used_list at hx
        rw [List.mem_filter, List.mem_range'_1] at hx
        rcases (hbits x (by omega)).1 hx.2 with h | h
        · omega
        · exact h
      · intro hb
        obtain ⟨h1, h2⟩ := hrange b hb
        have h0 : (0 : Int) ≤ b := by
          have : (0 : Int) ≤ (DATA_BLOCK_START : Int) := Int.natCast_nonneg _
          omega
        obtain ⟨m, rfl⟩ : ∃ m : Nat, b = (m : Int) := ⟨b.toNat, (Int.toNat_of_nonneg h0).symm⟩
        refine ⟨m, ?_, rfl⟩
        unfold used_list
        rw [List.mem_filter, List.mem_range'_1]
        have hm1 : DATA_BLOCK_START ≤ m := by exact_mod_cast h1
        have hm2 : m < cfg.MAX_BLOCKS := by exact_mod_cast h2
        exact ⟨⟨hm1, by omega⟩, (hbits m hm2).2 (Or.inr hb)⟩
    · apply List.Nodup.map
      · intro a b hab
        simp only at hab
        exact_mod_cast hab
      · exact List.Nodup.sublist (List.filter_sublist _) (List.nodup_range' _ _)
  have hlen := hperm.length_eq
  rw [List.length_map] at hlen
  have := free_used_length bm DATA_BLOCK_START (cfg.MAX_BLOCKS - DATA_BLOCK_START)
  omega

/-! ## The freshly formatted and mounted state -/

theorem format_inode_loop_ok (cfg : Config) (i n : Nat) (d : Disk) :
    format_inode_loop cfg noFaults i n d =
      (true, { d with inodes := d.inodes ++ List.replicate n (empty_inode cfg) }) := by
  induction n generalizing i d with
  | zero => simp [format_inode_loop]
  | succ n ih =>
    unfold format_inode_loop
    simp only [noFaults, Option.isSome_none, Bool.false_eq_true, if_false]
    rw [ih]
    simp [List.replicate_succ]

theorem mount_inode_loop_ok (d : Disk) (e : inode) (m i n : Nat) (hd : d.inodes = List.replicate m e)
    (h : i + n ≤ m) :
    mount_inode_loop noFaults d i n (List.replicate m e) = (true, List.replicate m e) := by
  induction n generalizing i with
  | zero => rfl
  | succ n ih =>
    unfold mount_inode_loop
    have hg : d.inodes.get? i = some e := by
      rw [hd]; simp [List.getElem?_replicate]; omega
    simp only [noFaults, Option.isSome_none, Bool.false_eq_true, if_false, hg]
    rw [List.set_replicate_self]
    exact ih (i + 1) (by omega)

theorem disk_size_pos (cfg : Config) (h : cfg.sane) : 0 < DISK_SIZE cfg := by
  obtain ⟨h1, h2, _⟩ := h
  unfold DISK_SIZE
  unfold DATA_BLOCK_START at h2
  exact Nat.mul_pos (by omega) h1

theorem fresh_eq (cfg : Config) (h : cfg.sane) :
    fresh cfg =
      { fs_fd := 3
        sb := fresh_sb cfg
        bitmap := fresh_bitmap cfg
        inode_table := List.replicate cfg.MAX_FILES (empty_inode cfg)
        disk := ⟨DISK_SIZE cfg, fun _ => 0, some (fresh_sb cfg), some (fresh_bitmap cfg),
          List.replicate cfg.MAX_FILES (empty_inode cfg)⟩ } := by
  have hpos := disk_size_pos cfg h
  have hlt : ¬ ((DISK_SIZE cfg : Int) - 1 < 0) := by omega
  unfold fresh fs_format
  simp only [noFaults, Option.isSome_none, Bool.false_eq_true, if_false, hlt, or_self,
    format_inode_loop_ok, List.nil_append, if_true]
  unfold fs_mount
  simp only [noFaults, Option.isSome_none, Bool.false_eq_true, if_false, boot, ne_eq,
    not_true_eq_false, or_self]
  rw [mount_inode_loop_ok _ (empty_inode cfg) cfg.MAX_FILES 0 cfg.MAX_FILES rfl (by omega)]
  simp [fresh_sb, fresh_bitmap]

theorem format_mark_loop_eq (i n : Nat) (bm : List Nat) :
    format_mark_loop i n bm = set_list bm (List.range' i n) := by
  induction n generalizing i bm with
  | zero => rfl
  | succ n ih =>
    unfold format_mark_loop
    rw [ih, List.range'_succ]
    rfl

theorem bit_test_zeros (n j : Nat) : bit_test (List.replicate n 0) j = false := by
  rw [bit_test_eq]
  have : (List.replicate n 0).getD (j / 8) 0 = 0 := by
    rw [List.getD_eq_getElem?_getD, List.getElem?_replicate]
    split <;> rfl
  rw [this]
  simp

theorem fresh_bitmap_length (cfg : Config) : (fresh_bitmap cfg).length = cfg.BLOCK_SIZE := by
  unfold fresh_bitmap
  rw [format_mark_loop_eq, set_list_length, List.length_replicate]

theorem bit_test_fresh (cfg : Config) (h : cfg.sane) (j : Nat) :
    bit_test (fresh_bitmap cfg) j = decide (j < DATA_BLOCK_START) := by
  obtain ⟨h1, h2, h3, _⟩ := h
  unfold fresh_bitmap
  rw [format_mark_loop_eq, bit_test_set_list, bit_test_zeros]
  · simp [List.mem_range'_1]
  · intro x hx
    rw [List.mem_range'_1] at hx
    rw [List.length_replicate]
    unfold DATA_BLOCK_START at hx h2
    omega

theorem owned_replicate_empty (cfg : Config) (m : Nat) :
    owned (List.replicate m (empty_inode cfg)) = [] := by
  induction m with
  | zero => rfl
  | succ m ih =>
    rw [List.replicate_succ, owned, ih]
    simp [own, empty_inode]

theorem unused_count_replicate_empty (cfg : Config) (m : Nat) :
    unused_count (List.replicate m (empty_inode cfg)) = m := by
  unfold unused_count
  rw [List.countP_replicate]
  simp [empty_inode]

theorem inv_fresh (cfg : Config) (h : cfg.sane) : Inv cfg (fresh cfg) := by
  rw [fresh_eq cfg h]
  refine
    { mounted := by simp
      bitmap_len := fresh_bitmap_length cfg
      table_len := by simp
      blocks_len := ?_
      excl := by simp [owned_replicate_empty]
      range := by simp [owned_replicate_empty]
      bits := ?_
      free_blocks := by simp [owned_replicate_empty, fresh_sb]
      free_inodes := by simp [unused_count_replicate_empty, fresh_sb]
      names := ?_
      disk_size := le_refl _ }
  · intro nd hnd
    rw [List.eq_of_mem_replicate hnd]
    simp [empty_inode]
  · intro i _
    simp only [owned_replicate_empty, bit_test_fresh cfg h]
    simp
  · intro i j hi _ hu
    exfalso
    simp only [List.length_replicate] at hi
    rw [List.getD_eq_getElem _ _ (by simpa using hi)] at hu
    simp [empty_inode] at hu

/-! ## Preservation of the invariant -/

theorem max_blocks_le (cfg : Config) (h : cfg.sane) : (cfg.MAX_BLOCKS : Int) ≤ INT_MAX := by
  obtain ⟨h1, _, _, h4, _⟩ := h
  have : cfg.MAX_BLOCKS ≤ DISK_SIZE cfg := by
    unfold DISK_SIZE
    exact Nat.le_mul_of_pos_right _ h1
  have : (cfg.MAX_BLOCKS : Int) ≤ (DISK_SIZE cfg : Int) := by exact_mod_cast this
  omega

theorem filter_all_sentinel (l : List Int) (h : ∀ p, l.getD p (-1) = -1) :
    l.filter (fun b => b ≠ -1) = [] := by
  rw [List.filter_eq_nil_iff]
  intro b hb
  obtain ⟨p, hp, rfl⟩ := List.mem_iff_getElem.1 hb
  have := h p
  rw [List.getD_eq_getElem _ _ hp] at this
  simp [this]

theorem eq_replicate_sentinel (l : List Int) (h : ∀ p, l.getD p (-1) = -1) :
    l = List.replicate l.length (-1) := by
  rw [List.eq_replicate_iff]
  refine ⟨rfl, fun b hb => ?_⟩
  obtain ⟨p, hp, rfl⟩ := List.mem_iff_getElem.1 hb
  have := h p
  rw [List.getD_eq_getElem _ _ hp] at this
  exact this

theorem create_fill_loop_spec (j n : Nat) (blocks : List Int) :
    (create_fill_loop j n blocks).length = blocks.length ∧
    ∀ p, (create_fill_loop j n blocks).getD p (-1) =
      if j ≤ p ∧ p < j + n then -1 else blocks.getD p (-1) := by
  induction n generalizing j blocks with
  | zero =>
    refine ⟨rfl, fun p => ?_⟩
    rw [if_neg (by omega)]
    rfl
  | succ n ih =>
    unfold create_fill_loop
    obtain ⟨h1, h2⟩ := ih (j + 1) (blocks.set j (-1))
    refine ⟨by rw [h1, List.length_set], fun p => ?_⟩
    rw [h2 p]
    by_cases hp : p = j
    · subst hp
      rw [if_neg (by omega), if_pos (by omega)]
      by_cases hl : p < blocks.length
      · rw [getD_set_eq _ _ _ _ hl]
      · rw [List.set_eq_of_length_le (by omega), List.getD_eq_default _ _ (by omega)]
    · have e : (j + 1 ≤ p ∧ p < j + 1 + n) ↔ (j ≤ p ∧ p < j + (n + 1)) := by omega
      simp only [e]
      rw [getD_set_ne _ _ _ _ _ (fun h => hp h.symm)]

theorem create_fill_loop_all (n : Nat) (blocks : List Int) (h : blocks.length = n) :
    create_fill_loop 0 n blocks = List.replicate n (-1) := by
  obtain ⟨h1, h2⟩ := create_fill_loop_spec 0 n blocks
  have h3 : ∀ p, (create_fill_loop 0 n blocks).getD p (-1) = -1 := by
    intro p
    rw [h2 p]
    by_cases hp : p < n
    · rw [if_pos (by omega)]
    · rw [if_neg (by omega), List.getD_eq_default _ _ (by omega)]
  have := eq_replicate_sentinel _ h3
  rw [h1, h] at this
  exact this

theorem filter_replicate_sentinel (n : Nat) :
    (List.replicate n (-1 : Int)).filter (fun b => b ≠ -1) = [] := by
  rw [List.filter_eq_nil_iff]
  intro b hb
  rw [List.eq_of_mem_replicate hb]
  simp

theorem getD_mem_table (tbl : List inode) (k : Nat) (h : k < tbl.length) :
    tbl.getD k no_inode ∈ tbl := by
  rw [List.getD_eq_getElem _ _ h]
  exact List.getElem_mem _

/-- Replacing slot `k` and the bitmap, the free counters and the file keeps the invariant when
the new slot's blocks fit with the blocks of the other slots. -/
theorem inv_update (cfg : Config) (s : FS) (hs : Inv cfg s) (k : Nat)
    (hk : k < s.inode_table.length) (x : inode) (bm : List Nat) (fb fi : Int) (d : Disk)
    (hxlen : x.blocks.length = cfg.MAX_DIRECT_BLOCKS) (hbmlen : bm.length = cfg.BLOCK_SIZE)
    (hnd : (own x ++ rest s.inode_table k).Nodup)
    (hrange : ∀ b ∈ own x ++ rest s.inode_table k,
      (DATA_BLOCK_START : Int) ≤ b ∧ b < cfg.MAX_BLOCKS)
    (hbits : ∀ i, i < cfg.MAX_BLOCKS →
      (bit_test bm i = true ↔
        (i < DATA_BLOCK_START ∨ (i : Int) ∈ own x ++ rest s.inode_table k)))
    (hfb : fb = (cfg.MAX_BLOCKS : Int) - DATA_BLOCK_START -
      (own x ++ rest s.inode_table k).length)
    (hfi : fi = unused_count (s.inode_table.set k x))
    (hnames : ∀ i j, i < s.inode_table.length → j < s.inode_table.length →
      ((s.inode_table.set k x).getD i no_inode).used = true →
      ((s.inode_table.set k x).getD j no_inode).used = true →
      strncmp ((s.inode_table.set k x).getD i no_inode).name
        ((s.inode_table.set k x).getD j no_inode).name cfg.MAX_FILENAME = 0 → i = j)
    (hd : DISK_SIZE cfg ≤ d.size) :
    Inv cfg { s with
      bitmap := bm
      sb := { s.sb with free_blocks := fb, free_inodes := fi }
      inode_table := s.inode_table.set k x
      disk := d } := by
  have hperm := owned_set_perm s.inode_table k x hk
  refine
    { mounted := hs.mounted
      bitmap_len := hbmlen
      table_len := by simp [hs.table_len]
      blocks_len := ?_
      excl := hperm.nodup_iff.2 hnd
      range := fun b hb => hrange b (hperm.mem_iff.1 hb)
      bits := fun i hi => by
        rw [hbits i hi]
        simp only [hperm.mem_iff]
      free_blocks := by
        simp only [hfb, hperm.length_eq]
      free_inodes := hfi
      names := by
        intro i j hi hj
        simp only [List.length_set] at hi hj
        exact hnames i j hi hj
      disk_size := hd }
  intro nd hnd'
  rcases List.mem_or_eq_of_mem_set hnd' with h | h
  · exact hs.blocks_len nd h
  · rw [h]; exact hxlen

/-- What releasing the blocks of the used slot `k` leaves: the blocks of the other slots. -/
theorem release_spec (cfg : Config) (hc : cfg.sane) (s : FS) (hs : Inv cfg s) (k : Nat)
    (hk : k < s.inode_table.length) (hused : (s.inode_table.getD k no_inode).used = true) :
    segment (s.inode_table.getD k no_inode).blocks 0 cfg.MAX_DIRECT_BLOCKS =
      own (s.inode_table.getD k no_inode) ∧
    (rest s.inode_table k).Nodup ∧
    (∀ b ∈ rest s.inode_table k, (DATA_BLOCK_START : Int) ≤ b ∧ b < cfg.MAX_BLOCKS) ∧
    (∀ b ∈ own (s.inode_table.getD k no_inode), (DATA_BLOCK_START : Int) ≤ b ∧ b < cfg.MAX_BLOCKS) ∧
    (∀ i, i < cfg.MAX_BLOCKS →
      (bit_test (clear_list s.bitmap (own (s.inode_table.getD k no_inode))) i = true ↔
        (i < DATA_BLOCK_START ∨ (i : Int) ∈ rest s.inode_table k))) ∧
    s.sb.free_blocks + (own (s.inode_table.getD k no_inode)).length =
      (cfg.MAX_BLOCKS : Int) - DATA_BLOCK_START - (rest s.inode_table k).length ∧
    0 ≤ s.sb.free_blocks ∧
    (free_list (clear_list s.bitmap (own (s.inode_table.getD k no_inode))) DATA_BLOCK_START
        (cfg.MAX_BLOCKS - DATA_BLOCK_START)).length + (rest s.inode_table k).length =
      cfg.MAX_BLOCKS - DATA_BLOCK_START := by
  have hperm := owned_perm s.inode_table k hk
  have hnd : (own (s.inode_table.getD k no_inode) ++ rest s.inode_table k).Nodup :=
    hperm.nodup_iff.1 hs.excl
  rw [List.nodup_append] at hnd
  obtain ⟨hnd1, hnd2, hdis⟩ := hnd
  have hr1 : ∀ b ∈ own (s.inode_table.getD k no_inode),
      (DATA_BLOCK_START : Int) ≤ b ∧ b < cfg.MAX_BLOCKS :=
    fun b hb => hs.range b (hperm.mem_iff.2 (List.mem_append_left _ hb))
  have hr2 : ∀ b ∈ rest s.inode_table k, (DATA_BLOCK_START : Int) ≤ b ∧ b < cfg.MAX_BLOCKS :=
    fun b hb => hs.range b (hperm.mem_iff.2 (List.mem_append_right _ hb))
  have hseg : segment (s.inode_table.getD k no_inode).blocks 0 cfg.MAX_DIRECT_BLOCKS =
      own (s.inode_table.getD k no_inode) := by
    rw [← hs.blocks_len _ (getD_mem_table _ _ hk), segment_all]
    unfold own assigned
    rw [if_pos hused]
  have hbits : ∀ i, i < cfg.MAX_BLOCKS →
      (bit_test (clear_list s.bitmap (own (s.inode_table.getD k no_inode))) i = true ↔
        (i < DATA_BLOCK_START ∨ (i : Int) ∈ rest s.inode_table k)) := by
    intro i hi
    rw [bit_test_clear_list _ _ (fun b hb => by
      have := (hr1 b hb).1
      have h0 : (0 : Int) ≤ (DATA_BLOCK_START : Int) := Int.natCast_nonneg _
      omega)]
    simp only [Bool.and_eq_true, decide_eq_true_eq]
    rw [hs.bits i hi, hperm.mem_iff, List.mem_append]
    constructor
    · rintro ⟨h1 | h1 | h1, h2⟩
      · exact Or.inl h1
      · exact absurd h1 h2
      · exact Or.inr h1
    · rintro (h1 | h1)
      · refine ⟨Or.inl h1, fun h2 => ?_⟩
        have := (hr1 _ h2).1
        have : DATA_BLOCK_START ≤ i := by exact_mod_cast this
        omega
      · exact ⟨Or.inr (Or.inr h1), fun h2 => hdis h2 h1⟩
  have hcount := free_count cfg _ _ hnd2 hr2 hbits
  have hcount0 := free_count cfg _ _ hs.excl hs.range hs.bits
  have hlen := hperm.length_eq
  rw [List.length_append] at hlen
  have hfb := hs.free_blocks
  have hds := hc.2.1
  refine ⟨hseg, hnd2, hr2, hr1, hbits, ?_, ?_, hcount⟩
  · rw [hfb, hlen]
    push_cast
    omega
  · rw [hfb]
    have : ((owned s.inode_table).length : Int) ≤ (cfg.MAX_BLOCKS : Int) - DATA_BLOCK_START := by
      have : (owned s.inode_table).length ≤ cfg.MAX_BLOCKS - DATA_BLOCK_START := by omega
      omega
    omega

theorem table_getD_set (tbl : List inode) (k i : Nat) (x : inode) (hk : k < tbl.length) :
    (tbl.set k x).getD i no_inode = if i = k then x else tbl.getD i no_inode := by
  by_cases h : i = k
  · subst h
    rw [if_pos rfl, getD_set_eq _ _ _ _ hk]
  · rw [if_neg h, getD_set_ne _ _ _ _ _ (fun e => h e.symm)]

/-- A slot replaced by one with the same name and a weaker used flag keeps names unique. -/
theorem names_set_same (cfg : Config) (tbl : List inode) (k : Nat) (x : inode)
    (hk : k < tbl.length)
    (hnames : ∀ i j, i < tbl.length → j < tbl.length →
      (tbl.getD i no_inode).used = true → (tbl.getD j no_inode).used = true →
      strncmp (tbl.getD i no_inode).name (tbl.getD j no_inode).name cfg.MAX_FILENAME = 0 → i = j)
    (hname : x.name = (tbl.getD k no_inode).name)
    (hused : x.used = true → (tbl.getD k no_inode).used = true) :
    ∀ i j, i < tbl.length → j < tbl.length →
      ((tbl.set k x).getD i no_inode).used = true →
      ((tbl.set k x).getD j no_inode).used = true →
      strncmp ((tbl.set k x).getD i no_inode).name
        ((tbl.set k x).getD j no_inode).name cfg.MAX_FILENAME = 0 → i = j := by
  intro i j hi hj hui huj hcmp
  rw [table_getD_set _ _ _ _ hk] at hui huj hcmp
  rw [table_getD_set _ _ _ _ hk] at hcmp
  apply hnames i j hi hj
  · by_cases h : i = k
    · rw [if_pos h] at hui; rw [h]; exact hused hui
    · rw [if_neg h] at hui; exact hui
  · by_cases h : j = k
    · rw [if_pos h] at huj; rw [h]; exact hused huj
    · rw [if_neg h] at huj; exact huj
  · by_cases h : i = k <;> by_cases h' : j = k
    · rw [h, h']; exact strncmp_self _ _
    · rw [if_pos h, if_neg h', hname] at hcmp; rw [h]; exact hcmp
    · rw [if_neg h, if_pos h', hname] at hcmp; rw [h']; exact hcmp
    · rw [if_neg h, if_neg h'] at hcmp; exact hcmp

theorem max_files_le (cfg : Config) (h : cfg.sane) : (cfg.MAX_FILES : Int) ≤ INT_MAX := h.2.2.2.2.1

theorem inv_delete (cfg : Config) (hc : cfg.sane) (s : FS) (hs : Inv cfg s)
    (filename : Option (List Nat)) : Inv cfg (fs_delete cfg filename s).2 := by
  unfold fs_delete
  by_cases hfd : s.fs_fd < 0
  · rw [if_pos hfd]; exact hs
  rw [if_neg hfd]
  cases filename with
  | none => exact hs
  | some f =>
    simp only
    by_cases hval : strlen f = 0 ∨ strlen f ≥ cfg.MAX_FILENAME
    · rw [if_pos hval]; exact hs
    rw [if_neg hval]
    by_cases hfind : find_file cfg s.inode_table f 0 cfg.MAX_FILES = -1
    · rw [if_pos hfind]; exact hs
    rw [if_neg hfind]
    obtain ⟨k, _, hk, hidx, hmatch, _⟩ := find_file_pos cfg s.inode_table f 0 cfg.MAX_FILES hfind
    rw [hidx, Int.toNat_ofNat]
    have hk' : k < s.inode_table.length := by rw [hs.table_len]; omega
    obtain ⟨hseg, hnd, hr2, hr1, hbits, hfb, hfb0, _⟩ := release_spec cfg hc s hs k hk' hmatch.1
    obtain ⟨h1, _, h3⟩ := delete_free_loop_spec 0 cfg.MAX_DIRECT_BLOCKS
      ⟨s.bitmap, s.sb.free_blocks, (s.inode_table.getD k no_inode).blocks⟩
    simp only [hseg] at h1 h3
    have hmax := max_blocks_le cfg hc
    have hmf := max_files_le cfg hc
    have hfree : (delete_free_loop 0 cfg.MAX_DIRECT_BLOCKS
        ⟨s.bitmap, s.sb.free_blocks, (s.inode_table.getD k no_inode).blocks⟩).free_blocks =
        s.sb.free_blocks + (own (s.inode_table.getD k no_inode)).length := by
      apply h3
      · unfold INT_MIN; omega
      · rw [hfb]
        have : (0 : Int) ≤ (DATA_BLOCK_START : Int) := Int.natCast_nonneg _
        omega
    have hown : own { s.inode_table.getD k no_inode with used := false } = [] := by
      simp [own]
    have hcnt := unused_count_set s.inode_table k
      { s.inode_table.getD k no_inode with used := false } hk'
    have hu := hmatch.1
    rw [if_neg (by rw [hu]; decide), if_pos rfl] at hcnt
    have hle := unused_count_le (s.inode_table.set k
      { s.inode_table.getD k no_inode with used := false })
    rw [List.length_set, hs.table_len] at hle
    have hw : wrap32 (s.sb.free_inodes + 1) = s.sb.free_inodes + 1 := by
      apply wrap32_of_range
      · rw [hs.free_inodes]; unfold INT_MIN; omega
      · rw [hs.free_inodes]; omega
    have := inv_update cfg s hs k hk' { s.inode_table.getD k no_inode with used := false }
      (clear_list s.bitmap (own (s.inode_table.getD k no_inode)))
      (s.sb.free_blocks + (own (s.inode_table.getD k no_inode)).length)
      (s.sb.free_inodes + 1) s.disk
      (hs.blocks_len (s.inode_table.getD k no_inode) (getD_mem_table _ _ hk'))
      (by rw [clear_list_length, hs.bitmap_len])
      (by rw [hown]; exact hnd)
      (by rw [hown]; exact hr2)
      (by rw [hown]; exact hbits)
      (by rw [hown, hfb]; simp)
      (by rw [hs.free_inodes]; omega)
      (names_set_same cfg _ k _ hk' hs.names rfl (by simp))
      hs.disk_size
    rw [h1, hfree, hw]
    exact this

theorem inv_create (cfg : Config) (hc : cfg.sane) (s : FS) (hs : Inv cfg s)
    (filename : Option (List Nat)) : Inv cfg (fs_create cfg filename s).2 := by
  unfold fs_create
  by_cases hfd : s.fs_fd < 0
  · rw [if_pos hfd]; exact hs
  rw [if_neg hfd]
  cases filename with
  | none => exact hs
  | some f =>
    simp only
    by_cases hval : strlen f = 0 ∨ strlen f ≥ cfg.MAX_FILENAME
    · rw [if_pos hval]; exact hs
    rw [if_neg hval]
    by_cases hfind : find_file cfg s.inode_table f 0 cfg.MAX_FILES ≠ -1
    · rw [if_pos hfind]; exact hs
    rw [if_neg hfind]
    have hnone := find_file_neg cfg s.inode_table f 0 cfg.MAX_FILES (by simpa using hfind)
    by_cases hfree : find_free s.inode_table 0 cfg.MAX_FILES = -1
    · rw [if_pos hfree]; exact hs
    rw [if_neg hfree]
    rcases find_free_spec s.inode_table 0 cfg.MAX_FILES with ⟨h1, _⟩ | ⟨k, _, hk, hidx, hunused, _⟩
    · exact absurd h1 hfree
    rw [hidx, Int.toNat_ofNat]
    have hk' : k < s.inode_table.length := by rw [hs.table_len]; omega
    have hlen0 := hs.blocks_len (s.inode_table.getD k no_inode) (getD_mem_table _ _ hk')
    rw [create_fill_loop_all _ _ hlen0]
    have hperm := owned_perm s.inode_table k hk'
    have hold : own (s.inode_table.getD k no_inode) = [] := by
      unfold own; rw [hunused]; rfl
    rw [hold, List.nil_append] at hperm
    have hmf := max_files_le cfg hc
    have hcnt := unused_count_set s.inode_table k
      { used := true
        name := (strncpy f cfg.MAX_FILENAME).set (cfg.MAX_FILENAME - 1) 0
        size := 0
        blocks := List.replicate cfg.MAX_DIRECT_BLOCKS (-1) } hk'
    rw [if_pos hunused, if_neg (by simp)] at hcnt
    have hle := unused_count_le s.inode_table
    rw [hs.table_len] at hle
    have hw : wrap32 (s.sb.free_inodes - 1) = s.sb.free_inodes - 1 := by
      apply wrap32_of_range
      · rw [hs.free_inodes]; unfold INT_MIN; omega
      · rw [hs.free_inodes]; omega
    have hnew : own
        { used := true
          name := (strncpy f cfg.MAX_FILENAME).set (cfg.MAX_FILENAME - 1) 0
          size := 0
          blocks := List.replicate cfg.MAX_DIRECT_BLOCKS (-1) } = [] := by
      unfold own assigned
      rw [if_pos rfl]
      exact filter_replicate_sentinel _
    have hflen : strlen f < cfg.MAX_FILENAME := by omega
    rw [hw]
    refine inv_update cfg s hs k hk' _ s.bitmap s.sb.free_blocks (s.sb.free_inodes - 1) s.disk
      (by simp) hs.bitmap_len
      (by rw [hnew]; exact hperm.nodup_iff.1 hs.excl)
      (by rw [hnew]; exact fun b hb => hs.range b (hperm.mem_iff.2 hb))
      (by
        intro i hi
        rw [hnew, hs.bits i hi, hperm.mem_iff]
        rfl)
      (by rw [hnew, hs.free_blocks, hperm.length_eq]; rfl)
      (by rw [hs.free_inodes]; omega)
      ?_ hs.disk_size
    intro i j hi hj hui huj hcmp
    rw [table_getD_set _ _ _ _ hk'] at hui huj hcmp
    rw [table_getD_set _ _ _ _ hk'] at hcmp
    rw [hs.table_len] at hi hj
    by_cases h : i = k <;> by_cases h' : j = k
    · rw [h, h']
    · exfalso
      rw [if_pos h, if_neg h'] at hcmp
      rw [if_neg h'] at huj
      simp only at hcmp
      rw [stored_name_matches f _ hflen] at hcmp
      exact hnone j (by omega) (by omega) ⟨huj, strncmp_symm _ _ _ hcmp⟩
    · exfalso
      rw [if_neg h, if_pos h'] at hcmp
      rw [if_neg h] at hui
      simp only at hcmp
      have hcmp' := strncmp_symm _ _ _ hcmp
      rw [stored_name_matches f _ hflen] at hcmp'
      exact hnone i (by omega) (by omega) ⟨hui, strncmp_symm _ _ _ hcmp'⟩
    · rw [if_neg h] at hui
      rw [if_neg h'] at huj
      rw [if_neg h, if_neg h'] at hcmp
      exact hs.names i j (by rw [hs.table_len]; exact hi) (by rw [hs.table_len]; exact hj)
        hui huj hcmp

theorem new_blocks_mem (cfg : Config) (s : FS) (k : Nat) (req : Int) (x : Nat)
    (hx : x ∈ new_blocks cfg s k req) :
    DATA_BLOCK_START ≤ x ∧ x < DATA_BLOCK_START + (cfg.MAX_BLOCKS - DATA_BLOCK_START) ∧
    bit_test (clear_list s.bitmap (own (s.inode_table.getD k no_inode))) x = false := by
  have := (mem_free_list _ _ _ _).1 (List.mem_of_mem_take hx)
  exact ⟨this.1.1, this.1.2, this.2⟩

theorem new_blocks_nodup (cfg : Config) (s : FS) (k : Nat) (req : Int) :
    (new_blocks cfg s k req).Nodup :=
  List.Nodup.sublist (List.take_sublist _ _) (free_list_nodup _ _ _)

theorem new_blocks_length_le (cfg : Config) (s : FS) (k : Nat) (req : Int) :
    (new_blocks cfg s k req).length ≤ req.toNat := by
  unfold new_blocks
  rw [List.length_take]
  exact Nat.min_le_left _ _

theorem write_alloc_spec (cfg : Config) (hc : cfg.sane) (s : FS) (hs : Inv cfg s) (k : Nat)
    (hk : k < s.inode_table.length) (hused : (s.inode_table.getD k no_inode).used = true)
    (req : Int) (hreq : req ≤ cfg.MAX_DIRECT_BLOCKS) :
    (write_alloc cfg s k req).bitmap =
      set_list (clear_list s.bitmap (own (s.inode_table.getD k no_inode)))
        (new_blocks cfg s k req) ∧
    (write_alloc cfg s k req).blocks =
      (new_blocks cfg s k req).map (fun (x : Nat) => (x : Int)) ++
        List.replicate (cfg.MAX_DIRECT_BLOCKS - (new_blocks cfg s k req).length) (-1) ∧
    (write_alloc cfg s k req).free_blocks =
      (cfg.MAX_BLOCKS : Int) - DATA_BLOCK_START - (rest s.inode_table k).length -
        (new_blocks cfg s k req).length ∧
    (write_alloc cfg s k req).allocated_blocks = (new_blocks cfg s k req).length := by
  obtain ⟨hseg, hnd, hr2, hr1, hbits, hfb, hfb0, hcount⟩ := release_spec cfg hc s hs k hk hused
  obtain ⟨h1, h2, h3, h4⟩ := write_free_loop_spec 0 cfg.MAX_DIRECT_BLOCKS
    ⟨s.bitmap, s.sb.free_blocks, (s.inode_table.getD k no_inode).blocks⟩
  simp only [hseg] at h1 h4
  have hlen0 := hs.blocks_len (s.inode_table.getD k no_inode) (getD_mem_table _ _ hk)
  have hmax := max_blocks_le cfg hc
  have h0 : (0 : Int) ≤ (DATA_BLOCK_START : Int) := Int.natCast_nonneg _
  have hfree := h4 (by unfold INT_MIN; omega) (by rw [hfb]; omega)
  have hblocks : (write_free_loop 0 cfg.MAX_DIRECT_BLOCKS
      ⟨s.bitmap, s.sb.free_blocks, (s.inode_table.getD k no_inode).blocks⟩).blocks =
      List.replicate cfg.MAX_DIRECT_BLOCKS (-1) := by
    have := eq_replicate_sentinel _ (fun p => by
      rw [h3 p]
      by_cases hp : p < cfg.MAX_DIRECT_BLOCKS
      · rw [if_pos (by omega)]
      · rw [if_neg (by omega)]
        exact List.getD_eq_default _ _ (by simp only; omega))
    rw [h2] at this
    simp only [hlen0] at this
    exact this
  unfold write_alloc
  rw [h1, hblocks, hfree]
  obtain ⟨a1, a2, a3, a4⟩ := alloc_loop_spec req DATA_BLOCK_START
    (cfg.MAX_BLOCKS - DATA_BLOCK_START)
    ⟨clear_list s.bitmap (own (s.inode_table.getD k no_inode)),
     List.replicate cfg.MAX_DIRECT_BLOCKS (-1),
     s.sb.free_blocks + (own (s.inode_table.getD k no_inode)).length, 0⟩
  simp only [Nat.cast_zero, sub_zero, zero_add] at a1 a2 a3 a4
  have hL : (free_list (clear_list s.bitmap (own (s.inode_table.getD k no_inode)))
      DATA_BLOCK_START (cfg.MAX_BLOCKS - DATA_BLOCK_START)).take req.toNat =
      new_blocks cfg s k req := rfl
  rw [hL] at a1 a2 a3 a4
  have hLlen := new_blocks_length_le cfg s k req
  have hLlen2 : (new_blocks cfg s k req).length ≤
      (free_list (clear_list s.bitmap (own (s.inode_table.getD k no_inode)))
        DATA_BLOCK_START (cfg.MAX_BLOCKS - DATA_BLOCK_START)).length := by
    unfold new_blocks
    rw [List.length_take]
    exact Nat.min_le_right _ _
  have hds := hc.2.1
  refine ⟨a1, ?_, ?_, a3⟩
  · rw [a2, store_list_replicate _ _ (by omega)]
  · rw [a4 (by rw [hfb]; omega) (by rw [hfb]; unfold INT_MIN; omega), hfb]

theorem disk_write_size (d : Disk) (off : Nat) (src : List Nat) :
    d.size ≤ (d.write off src).size := le_max_left _ _

theorem write_loop_size (cfg : Config) (ev : Faults) (blocks : List Int) (data : List Nat)
    (size req : Int) (i n : Nat) (d : Disk) :
    d.size ≤ (write_loop cfg ev blocks data size req i n d).2.size := by
  induction n generalizing i d with
  | zero => exact le_refl _
  | succ n ih =>
    unfold write_loop
    simp only
    split_ifs <;>
      first
      | exact le_refl _
      | (split
         · exact disk_write_size _ _ _
         · exact le_trans (disk_write_size _ _ _) (ih _ _))

theorem unused_count_set_same (tbl : List inode) (k : Nat) (x : inode) (h : k < tbl.length)
    (hu : x.used = (tbl.getD k no_inode).used) :
    unused_count (tbl.set k x) = unused_count tbl := by
  have := unused_count_set tbl k x h
  rw [hu] at this
  omega

theorem own_written (nd : inode) (l : List Nat) (m : Nat) (sz : Int) (hu : nd.used = true) :
    own { nd with blocks := l.map (fun (x : Nat) => (x : Int)) ++ List.replicate m (-1), size := sz } =
      l.map (fun (x : Nat) => (x : Int)) := by
  unfold own assigned
  rw [if_pos hu]
  simp only
  rw [List.filter_append, filter_replicate_sentinel, List.append_nil, List.filter_eq_self]
  intro b hb
  obtain ⟨x, _, rfl⟩ := List.mem_map.1 hb
  simp only [ne_eq, decide_not, Bool.not_eq_true', decide_eq_false_iff_not]
  omega

theorem inv_write (cfg : Config) (hc : cfg.sane) (s : FS) (hs : Inv cfg s)
    (filename data : Option (List Nat)) (size : Int) (ev : Faults) :
    Inv cfg (fs_write cfg filename data size ev s).2 := by
  unfold fs_write
  by_cases hfd : s.fs_fd < 0
  · rw [if_pos hfd]; exact hs
  rw [if_neg hfd]
  cases filename with
  | none => exact hs
  | some f =>
    cases data with
    | none => exact hs
    | some dat =>
      simp only
      by_cases hval : size < 0 ∨ strlen f ≥ cfg.MAX_FILENAME
      · rw [if_pos hval]; exact hs
      rw [if_neg hval]
      by_cases hfind : find_file cfg s.inode_table f 0 cfg.MAX_FILES = -1
      · rw [if_pos hfind]; exact hs
      rw [if_neg hfind]
      by_cases hreq : required_blocks cfg size > cfg.MAX_DIRECT_BLOCKS ∨
          required_blocks cfg size > s.sb.free_blocks
      · rw [if_pos hreq]; exact hs
      rw [if_neg hreq]
      obtain ⟨k, _, hk, hidx, hmatch, _⟩ :=
        find_file_pos cfg s.inode_table f 0 cfg.MAX_FILES hfind
      rw [hidx, Int.toNat_ofNat]
      have hk' : k < s.inode_table.length := by rw [hs.table_len]; omega
      have hu := hmatch.1
      obtain ⟨hseg, hnd, hr2, hr1, hbits, hfb, hfb0, hcount⟩ :=
        release_spec cfg hc s hs k hk' hu
      obtain ⟨w1, w2, w3, _⟩ := write_alloc_spec cfg hc s hs k hk' hu
        (required_blocks cfg size) (by omega)
      unfold write_alloc at w1 w2 w3
      rw [w1, w2, w3]
      have hmem := new_blocks_mem cfg s k (required_blocks cfg size)
      have hds := hc.2.1
      have hbs := hc.2.2.1
      have hown := own_written (s.inode_table.getD k no_inode)
        (new_blocks cfg s k (required_blocks cfg size))
        (cfg.MAX_DIRECT_BLOCKS - (new_blocks cfg s k (required_blocks cfg size)).length)
      have hLlen := new_blocks_length_le cfg s k (required_blocks cfg size)
      refine inv_update cfg s hs k hk' _ _ _ s.sb.free_inodes _
        (by
          simp only [List.length_append, List.length_map, List.length_replicate]
          omega)
        (by rw [set_list_length, clear_list_length, hs.bitmap_len])
        ?_ ?_ ?_ ?_
        (by
          rw [hs.free_inodes]
          congr 1
          refine (unused_count_set_same _ _ _ hk' ?_).symm
          rfl)
        (names_set_same cfg _ k _ hk' hs.names rfl (fun _ => hu))
        (le_trans hs.disk_size (write_loop_size _ _ _ _ _ _ _ _ _))
      · rw [hown _ hu, List.nodup_append]
        refine ⟨List.Nodup.map cast_injective (new_blocks_nodup _ _ _ _), hnd, ?_⟩
        intro b hb1 hb2
        obtain ⟨x, hx, rfl⟩ := List.mem_map.1 hb1
        obtain ⟨hx1, hx2, hx3⟩ := hmem x hx
        have := (hbits x (by omega)).2 (Or.inr hb2)
        rw [hx3] at this
        exact Bool.noConfusion this
      · rw [hown _ hu]
        intro b hb
        rcases List.mem_append.1 hb with hb | hb
        · obtain ⟨x, hx, rfl⟩ := List.mem_map.1 hb
          obtain ⟨hx1, hx2, _⟩ := hmem x hx
          constructor
          · exact_mod_cast hx1
          · have : x < cfg.MAX_BLOCKS := by omega
            exact_mod_cast this
        · exact hr2 b hb
      · intro i hi
        rw [hown _ hu, bit_test_set_list _ _ (fun x hx => by
          obtain ⟨hx1, hx2, _⟩ := hmem x hx
          rw [clear_list_length, hs.bitmap_len]
          omega)]
        simp only [Bool.or_eq_true, decide_eq_true_eq, List.mem_append, List.mem_map]
        rw [hbits i hi]
        constructor
        · rintro ((h | h) | h)
          · exact Or.inl h
          · exact Or.inr (Or.inr h)
          · exact Or.inr (Or.inl ⟨i, h, rfl⟩)
        · rintro (h | ⟨x, hx, hxi⟩ | h)
          · exact Or.inl (Or.inl h)
          · have : x = i := by exact_mod_cast hxi
            rw [← this]
            exact Or.inr hx
          · exact Or.inl (Or.inr h)
      · rw [hown _ hu, List.length_append, List.length_map]
        push_cast
        omega

theorem inv_reachable (cfg : Config) (hc : cfg.sane) (s : FS) (h : Reachable cfg s) :
    Inv cfg s := by
  induction h with
  | fresh => exact inv_fresh cfg hc
  | create s filename _ ih => exact inv_create cfg hc s ih filename
  | write s filename data size ev _ _ _ ih => exact inv_write cfg hc s ih filename data size ev
  | delete s filename _ ih => exact inv_delete cfg hc s ih filename

/-! ## Exclusivity, pointwise -/

theorem getD_mem_filter (l : List Int) (q : Nat) (h : l.getD q (-1) ≠ -1) :
    l.getD q (-1) ∈ l.filter (fun b => b ≠ -1) := by
  by_cases hq : q < l.length
  · rw [List.getD_eq_getElem _ _ hq] at h ⊢
    rw [List.mem_filter]
    exact ⟨List.getElem_mem _, by simpa using h⟩
  · rw [List.getD_eq_default _ _ (by omega)] at h
    exact absurd rfl h

theorem nodup_filter_index (l : List Int) (hnd : (l.filter (fun b => b ≠ -1)).Nodup) (p q : Nat)
    (hne : l.getD p (-1) ≠ -1) (heq : l.getD p (-1) = l.getD q (-1)) : p = q := by
  induction l generalizing p q with
  | nil => exact absurd rfl hne
  | cons a t ih =>
    have hnd' : (t.filter (fun b => b ≠ -1)).Nodup := by
      rw [List.filter_cons] at hnd
      split at hnd
      · exact (List.nodup_cons.1 hnd).2
      · exact hnd
    cases p with
    | zero =>
      cases q with
      | zero => rfl
      | succ q =>
        exfalso
        simp only [List.getD_cons_zero, List.getD_cons_succ] at hne heq
        have hmem := getD_mem_filter t q (by rw [← heq]; exact hne)
        rw [List.filter_cons, if_pos (by simpa using hne)] at hnd
        rw [← heq] at hmem
        exact (List.nodup_cons.1 hnd).1 hmem
    | succ p =>
      cases q with
      | zero =>
        exfalso
        simp only [List.getD_cons_zero, List.getD_cons_succ] at hne heq
        have hmem := getD_mem_filter t p hne
        have ha : a ≠ -1 := by rw [← heq]; exact hne
        rw [List.filter_cons, if_pos (by simpa using ha)] at hnd
        rw [heq] at hmem
        exact (List.nodup_cons.1 hnd).1 hmem
      | succ q =>
        simp only [List.getD_cons_succ] at hne heq
        rw [ih hnd' p q hne heq]

theorem used_lt_length (tbl : List inode) (i : Nat) (h : (tbl.getD i no_inode).used = true) :
    i < tbl.length := by
  by_contra hlt
  rw [List.getD_eq_default _ _ (by omega)] at h
  exact Bool.noConfusion h

theorem owned_disjoint_slots (tbl : List inode) (hnd : (owned tbl).Nodup) (i j : Nat)
    (hij : i < j) (hj : j < tbl.length) (b : Int) (hbi : b ∈ own (tbl.getD i no_inode))
    (hbj : b ∈ own (tbl.getD j no_inode)) : False := by
  rw [owned_split tbl i (by omega), List.nodup_append] at hnd
  obtain ⟨_, h2, _⟩ := hnd
  rw [List.nodup_append] at h2
  apply h2.2.2 hbi
  rw [mem_owned]
  refine ⟨tbl.getD j no_inode, ?_, hbj⟩
  rw [List.getD_eq_getElem _ _ hj, List.mem_iff_getElem]
  refine ⟨j - (i + 1), by rw [List.length_drop]; omega, ?_⟩
  rw [List.getElem_drop]
  congr 1
  omega

theorem own_nodup_of_owned (tbl : List inode) (hnd : (owned tbl).Nodup) (i : Nat)
    (hi : i < tbl.length) : (own (tbl.getD i no_inode)).Nodup := by
  rw [owned_split tbl i hi, List.nodup_append] at hnd
  obtain ⟨_, h2, _⟩ := hnd
  rw [List.nodup_append] at h2
  exact h2.1

theorem mem_own_getD (nd : inode) (p : Nat) (hu : nd.used = true)
    (hne : nd.blocks.getD p (-1) ≠ -1) : nd.blocks.getD p (-1) ∈ own nd := by
  unfold own assigned
  rw [if_pos hu]
  exact getD_mem_filter _ _ hne

theorem exclusive_of_nodup (tbl : List inode) (hnd : (owned tbl).Nodup) (i j p q : Nat)
    (hui : (tbl.getD i no_inode).used = true) (huj : (tbl.getD j no_inode).used = true)
    (hne : (tbl.getD i no_inode).blocks.getD p (-1) ≠ -1)
    (heq : (tbl.getD i no_inode).blocks.getD p (-1) = (tbl.getD j no_inode).blocks.getD q (-1)) :
    i = j ∧ p = q := by
  have hi := used_lt_length tbl i hui
  have hj := used_lt_length tbl j huj
  have hbi := mem_own_getD _ p hui hne
  have hbj := mem_own_getD _ q huj (by rw [← heq]; exact hne)
  have hij : i = j := by
    rcases Nat.lt_trichotomy i j with h | h | h
    · exfalso
      rw [← heq] at hbj
      exact owned_disjoint_slots tbl hnd i j h hj _ hbi hbj
    · exact h
    · exfalso
      rw [← heq] at hbj
      exact owned_disjoint_slots tbl hnd j i h hi _ hbj hbi
  refine ⟨hij, ?_⟩
  subst hij
  have hown := own_nodup_of_owned tbl hnd i hi
  unfold own assigned at hown
  rw [if_pos hui] at hown
  exact nodup_filter_index _ hown p q hne heq

/-! ## What a create does -/

theorem create_then_matches (cfg : Config) (s : FS) (f : List Nat)
    (hlen : s.inode_table.length = cfg.MAX_FILES) (hok : (fs_create cfg (some f) s).1 = 0) :
    0 ≤ (fs_create cfg (some f) s).2.fs_fd ∧ strlen f ≠ 0 ∧ strlen f < cfg.MAX_FILENAME ∧
    ∃ k, k < cfg.MAX_FILES ∧ slot_matches cfg (fs_create cfg (some f) s).2.inode_table f k := by
  unfold fs_create at hok ⊢
  by_cases hfd : s.fs_fd < 0
  · rw [if_pos hfd] at hok; simp at hok
  rw [if_neg hfd] at hok ⊢
  simp only at hok ⊢
  by_cases hval : strlen f = 0 ∨ strlen f ≥ cfg.MAX_FILENAME
  · rw [if_pos hval] at hok; simp at hok
  rw [if_neg hval] at hok ⊢
  by_cases hfind : find_file cfg s.inode_table f 0 cfg.MAX_FILES ≠ -1
  · rw [if_pos hfind] at hok; simp at hok
  rw [if_neg hfind] at hok ⊢
  by_cases hfree : find_free s.inode_table 0 cfg.MAX_FILES = -1
  · rw [if_pos hfree] at hok; simp at hok
  rw [if_neg hfree]
  rcases find_free_spec s.inode_table 0 cfg.MAX_FILES with ⟨h1, _⟩ | ⟨k, _, hk, hidx, _, _⟩
  · exact absurd h1 hfree
  rw [hidx, Int.toNat_ofNat]
  refine ⟨by simp only; omega, by omega, by omega, k, by omega, ?_⟩
  unfold slot_matches
  simp only
  rw [getD_set_eq _ _ _ _ (by omega)]
  simp only [true_and]
  rw [stored_name_matches f _ (by omega)]
  exact strncmp_self _ _

/-! ## What a write does -/

theorem required_blocks_eq (cfg : Config) (hbs : 0 < cfg.BLOCK_SIZE) (size : Int)
    (h0 : 0 ≤ size) (h1 : size + cfg.BLOCK_SIZE - 1 ≤ INT_MAX) :
    required_blocks cfg size = (size + cfg.BLOCK_SIZE - 1) / cfg.BLOCK_SIZE := by
  unfold required_blocks
  have hb : (0 : Int) < (cfg.BLOCK_SIZE : Int) := by exact_mod_cast hbs
  have hw : wrap32 (wrap32 (size + cfg.BLOCK_SIZE) - 1) = size + cfg.BLOCK_SIZE - 1 := by
    unfold wrap32
    unfold INT_MAX at h1
    omega
  rw [hw, Int.tdiv_eq_ediv (by omega) (by omega)]

/-- The space check of `fs_write`, on the machine value of `required_blocks`: the call
returns `-2` exactly when that value exceeds `MAX_DIRECT_BLOCKS` or `sb.free_blocks`, and then
nothing has changed. -/
theorem fs_write_space_check (cfg : Config) (s : FS) (f dat : List Nat) (size : Int)
    (ev : Faults) (hm : 0 ≤ s.fs_fd) (hv : strlen f < cfg.MAX_FILENAME) (h0 : 0 ≤ size)
    (hex : ∃ j, j < cfg.MAX_FILES ∧ slot_matches cfg s.inode_table f j) :
    ((fs_write cfg (some f) (some dat) size ev s).1 = -2 ↔
      (required_blocks cfg size > cfg.MAX_DIRECT_BLOCKS ∨
        required_blocks cfg size > s.sb.free_blocks)) ∧
    ((fs_write cfg (some f) (some dat) size ev s).1 = -2 →
      (fs_write cfg (some f) (some dat) size ev s).2 = s) := by
  obtain ⟨j, hj, hmatch⟩ := hex
  have hne : find_file cfg s.inode_table f 0 cfg.MAX_FILES ≠ -1 := by
    intro h1
    exact find_file_neg cfg s.inode_table f 0 cfg.MAX_FILES h1 j (by omega) (by omega) hmatch
  unfold fs_write
  rw [if_neg (by omega)]
  simp only
  rw [if_neg (by omega), if_neg hne]
  by_cases hreq : required_blocks cfg size > cfg.MAX_DIRECT_BLOCKS ∨
      required_blocks cfg size > s.sb.free_blocks
  · rw [if_pos hreq]
    exact ⟨⟨fun _ => hreq, fun _ => rfl⟩, fun _ => rfl⟩
  · rw [if_neg hreq]
    have hne2 : ∀ b : Bool, (if b = true then (0 : Int) else -3) ≠ -2 := by
      intro b; cases b <;> decide
    constructor
    · constructor
      · intro h; exact absurd h (hne2 _)
      · intro h; exact absurd h hreq
    · intro h; exact absurd h (hne2 _)

theorem new_blocks_length (cfg : Config) (hc : cfg.sane) (s : FS) (hs : Inv cfg s) (k : Nat)
    (hk : k < s.inode_table.length) (hused : (s.inode_table.getD k no_inode).used = true)
    (req : Int) (hreq : req ≤ s.sb.free_blocks) :
    (new_blocks cfg s k req).length = req.toNat := by
  obtain ⟨_, _, _, _, _, hfb, _, hcount⟩ := release_spec cfg hc s hs k hk hused
  unfold new_blocks
  rw [List.length_take]
  have hds := hc.2.1
  apply Nat.min_eq_left
  omega

/-- A write that returns `0` had valid arguments, found its file and passed the space
check. -/
theorem fs_write_conditions (cfg : Config) (s : FS) (f dat : List Nat) (size : Int)
    (ev : Faults) (hret : (fs_write cfg (some f) (some dat) size ev s).1 = 0) :
    0 ≤ s.fs_fd ∧ 0 ≤ size ∧ strlen f < cfg.MAX_FILENAME ∧
    (∃ j, j < cfg.MAX_FILES ∧ slot_matches cfg s.inode_table f j) ∧
    required_blocks cfg size ≤ cfg.MAX_DIRECT_BLOCKS ∧
    required_blocks cfg size ≤ s.sb.free_blocks := by
  unfold fs_write at hret
  by_cases hfd : s.fs_fd < 0
  · rw [if_pos hfd] at hret; simp at hret
  rw [if_neg hfd] at hret
  simp only at hret
  by_cases hval : size < 0 ∨ strlen f ≥ cfg.MAX_FILENAME
  · rw [if_pos hval] at hret; simp at hret
  rw [if_neg hval] at hret
  by_cases hfind : find_file cfg s.inode_table f 0 cfg.MAX_FILES = -1
  · rw [if_pos hfind] at hret; simp at hret
  rw [if_neg hfind] at hret
  by_cases hreq : required_blocks cfg size > cfg.MAX_DIRECT_BLOCKS ∨
      required_blocks cfg size > s.sb.free_blocks
  · rw [if_pos hreq] at hret; simp at hret
  obtain ⟨k, _, hk, _, hmatch, _⟩ := find_file_pos cfg s.inode_table f 0 cfg.MAX_FILES hfind
  exact ⟨by omega, by omega, by omega, ⟨k, by omega, hmatch⟩, by omega, by omega⟩

/-- The state a write that gets past the space check leaves, in terms of the blocks it
allocates. -/
theorem fs_write_spec (cfg : Config) (hc : cfg.sane) (s : FS) (hs : Inv cfg s)
    (f dat : List Nat) (size : Int) (ev : Faults)
    (h0 : 0 ≤ size) (hv : strlen f < cfg.MAX_FILENAME)
    (hex : ∃ j, j < cfg.MAX_FILES ∧ slot_matches cfg s.inode_table f j)
    (hr1 : required_blocks cfg size ≤ cfg.MAX_DIRECT_BLOCKS)
    (hr2 : required_blocks cfg size ≤ s.sb.free_blocks) :
    ∃ k, k < cfg.MAX_FILES ∧ slot_matches cfg s.inode_table f k ∧
      (∀ j, j < k → ¬ slot_matches cfg s.inode_table f j) ∧
      (new_blocks cfg s k (required_blocks cfg size)).length =
        (required_blocks cfg size).toNat ∧
      (fs_write cfg (some f) (some dat) size ev s).2.bitmap =
        set_list (clear_list s.bitmap (own (s.inode_table.getD k no_inode)))
          (new_blocks cfg s k (required_blocks cfg size)) ∧
      (fs_write cfg (some f) (some dat) size ev s).2.sb.free_blocks =
        (cfg.MAX_BLOCKS : Int) - DATA_BLOCK_START - (rest s.inode_table k).length -
          (new_blocks cfg s k (required_blocks cfg size)).length ∧
      (fs_write cfg (some f) (some dat) size ev s).2.inode_table =
        s.inode_table.set k
          { s.inode_table.getD k no_inode with
            blocks := (new_blocks cfg s k (required_blocks cfg size)).map
                (fun (x : Nat) => (x : Int)) ++
              List.replicate (cfg.MAX_DIRECT_BLOCKS -
                (new_blocks cfg s k (required_blocks cfg size)).length) (-1)
            size := if (fs_write cfg (some f) (some dat) size ev s).1 = 0 then size
              else (s.inode_table.getD k no_inode).size } ∧
      (fs_write cfg (some f) (some dat) size ev s).2.disk =
        (write_loop cfg ev
          ((new_blocks cfg s k (required_blocks cfg size)).map (fun (x : Nat) => (x : Int)) ++
            List.replicate (cfg.MAX_DIRECT_BLOCKS -
              (new_blocks cfg s k (required_blocks cfg size)).length) (-1))
          dat size (required_blocks cfg size) 0 (required_blocks cfg size).toNat s.disk).2 ∧
      (fs_write cfg (some f) (some dat) size ev s).1 =
        if (write_loop cfg ev
          ((new_blocks cfg s k (required_blocks cfg size)).map (fun (x : Nat) => (x : Int)) ++
            List.replicate (cfg.MAX_DIRECT_BLOCKS -
              (new_blocks cfg s k (required_blocks cfg size)).length) (-1))
          dat size (required_blocks cfg size) 0 (required_blocks cfg size).toNat s.disk).1
          = true then 0 else -3 := by
  obtain ⟨j, hj, hjm⟩ := hex
  have hfind : find_file cfg s.inode_table f 0 cfg.MAX_FILES ≠ -1 := by
    intro h1
    exact find_file_neg cfg s.inode_table f 0 cfg.MAX_FILES h1 j (by omega) (by omega) hjm
  unfold fs_write
  have hfd : ¬ s.fs_fd < 0 := by have := hs.mounted; omega
  rw [if_neg hfd]
  simp only
  rw [if_neg (by omega), if_neg hfind, if_neg (by omega)]
  obtain ⟨k, _, hk, hidx, hmatch, hfirst⟩ :=
    find_file_pos cfg s.inode_table f 0 cfg.MAX_FILES hfind
  rw [hidx, Int.toNat_ofNat]
  have hk' : k < s.inode_table.length := by rw [hs.table_len]; omega
  have hu := hmatch.1
  obtain ⟨w1, w2, w3, _⟩ := write_alloc_spec cfg hc s hs k hk' hu
    (required_blocks cfg size) (by omega)
  unfold write_alloc at w1 w2 w3
  rw [w1, w2, w3]
  refine ⟨k, by omega, hmatch, fun j hj => hfirst j (by omega) hj,
    new_blocks_length cfg hc s hs k hk' hu _ (by omega), rfl, rfl, ?_, rfl, rfl⟩
  simp only
  congr 2
  cases (write_loop cfg ev _ dat size (required_blocks cfg size) 0
    (required_blocks cfg size).toNat s.disk).1 <;> simp

/-- The block list after a successful write whose size does not overflow the `int`
computation of `required_blocks`: the inode holds `size`, its first
`ceil(size / BLOCK_SIZE)` entries are data-region blocks with their bitmap bits set, and all
later entries are `-1`. -/
theorem fs_write_block_list (cfg : Config) (hc : cfg.sane) (s : FS) (h : Reachable cfg s)
    (f dat : List Nat) (size : Int) (ev : Faults)
    (hsz : size + cfg.BLOCK_SIZE - 1 ≤ INT_MAX)
    (hret : (fs_write cfg (some f) (some dat) size ev s).1 = 0) :
    ∃ k, k < cfg.MAX_FILES ∧ slot_matches cfg s.inode_table f k ∧
      (∀ j, j < k → ¬ slot_matches cfg s.inode_table f j) ∧
      ((fs_write cfg (some f) (some dat) size ev s).2.inode_table.getD k no_inode).used = true ∧
      ((fs_write cfg (some f) (some dat) size ev s).2.inode_table.getD k no_inode).size = size ∧
      (assigned ((fs_write cfg (some f) (some dat) size ev s).2.inode_table.getD k no_inode)).length
        = ((size + cfg.BLOCK_SIZE - 1) / cfg.BLOCK_SIZE).toNat ∧
      (∀ p, p < ((size + cfg.BLOCK_SIZE - 1) / cfg.BLOCK_SIZE).toNat →
        (DATA_BLOCK_START : Int) ≤
          ((fs_write cfg (some f) (some dat) size ev s).2.inode_table.getD k no_inode).blocks.getD p (-1) ∧
        ((fs_write cfg (some f) (some dat) size ev s).2.inode_table.getD k no_inode).blocks.getD p (-1)
          < cfg.MAX_BLOCKS ∧
        bit_test (fs_write cfg (some f) (some dat) size ev s).2.bitmap
          (((fs_write cfg (some f) (some dat) size ev s).2.inode_table.getD k no_inode).blocks.getD
            p (-1)).toNat = true) ∧
      (∀ p, ((size + cfg.BLOCK_SIZE - 1) / cfg.BLOCK_SIZE).toNat ≤ p →
        ((fs_write cfg (some f) (some dat) size ev s).2.inode_table.getD k no_inode).blocks.getD p (-1)
          = -1) := by
  have hs := inv_reachable cfg hc s h
  have h0 : 0 ≤ size := by
    by_contra hneg
    unfold fs_write at hret
    rw [if_neg (by have := hs.mounted; omega)] at hret
    simp only at hret
    rw [if_pos (Or.inl (by omega))] at hret
    simp at hret
  obtain ⟨_, _, hv, hex, hr1, hr2⟩ := fs_write_conditions cfg s f dat size ev hret
  obtain ⟨k, hk, hmatch, hfirst, hlen, hbm, _, htbl, _, _⟩ :=
    fs_write_spec cfg hc s hs f dat size ev h0 hv hex hr1 hr2
  have hk' : k < s.inode_table.length := by rw [hs.table_len]; exact hk
  rw [← required_blocks_eq cfg hc.1 size h0 hsz]
  have hmem := new_blocks_mem cfg s k (required_blocks cfg size)
  have hds := hc.2.1
  have hbs := hc.2.2.1
  refine ⟨k, hk, hmatch, hfirst, ?_⟩
  rw [htbl, hbm, getD_set_eq _ _ _ _ hk', if_pos hret]
  refine ⟨hmatch.1, rfl, ?_, ?_, ?_⟩
  · unfold assigned
    simp only
    rw [List.filter_append, filter_replicate_sentinel, List.append_nil, List.filter_eq_self.2,
      List.length_map, hlen]
    intro b hb
    obtain ⟨x, _, rfl⟩ := List.mem_map.1 hb
    simp only [ne_eq, decide_not, Bool.not_eq_true', decide_eq_false_iff_not]
    omega
  · intro p hp
    rw [← hlen] at hp
    rw [List.getD_append _ _ _ _ (by rw [List.length_map]; exact hp),
      List.getD_eq_getElem _ _ (by rw [List.length_map]; exact hp), List.getElem_map]
    obtain ⟨hx1, hx2, _⟩ := hmem _ (List.getElem_mem hp)
    refine ⟨by exact_mod_cast hx1, ?_, ?_⟩
    · have : (new_blocks cfg s k (required_blocks cfg size))[p] < cfg.MAX_BLOCKS := by omega
      exact_mod_cast this
    · rw [Int.toNat_ofNat, bit_test_set_list _ _ (fun x hx => by
        obtain ⟨hy1, hy2, _⟩ := hmem x hx
        rw [clear_list_length, hs.bitmap_len]
        omega)]
      simp [List.getElem_mem hp]
  · intro p hp
    rw [← hlen] at hp
    rw [List.getD_append_right _ _ _ _ (by rw [List.length_map]; exact hp),
      List.getD_eq_getElem?_getD, List.getElem?_replicate]
    split <;> rfl

/-! ## The overflow of the block count -/

/-- For a size above `INT_MAX - BLOCK_SIZE + 1` the `int` computation of `required_blocks`
wraps around and yields a value that is not positive. -/
theorem required_blocks_overflow (cfg : Config) (hbs : 0 < cfg.BLOCK_SIZE)
    (hbs2 : (cfg.BLOCK_SIZE : Int) ≤ INT_MAX) (size : Int)
    (hlo : INT_MAX < size + cfg.BLOCK_SIZE - 1) (hhi : size ≤ INT_MAX) :
    required_blocks cfg size ≤ 0 := by
  unfold required_blocks
  have hb : (0 : Int) < (cfg.BLOCK_SIZE : Int) := by exact_mod_cast hbs
  have hw : wrap32 (wrap32 (size + cfg.BLOCK_SIZE) - 1) =
      -(4294967296 - (size + cfg.BLOCK_SIZE - 1)) := by
    unfold wrap32
    unfold INT_MAX at hlo hhi hbs2
    omega
  rw [hw, Int.neg_tdiv]
  have : 0 ≤ (4294967296 - (size + cfg.BLOCK_SIZE - 1)).tdiv cfg.BLOCK_SIZE := by
    apply Int.tdiv_nonneg
    · unfold INT_MAX at hhi hbs2; omega
    · omega
  omega

theorem block_size_le (cfg : Config) (hc : cfg.sane) : (cfg.BLOCK_SIZE : Int) ≤ INT_MAX := by
  obtain ⟨_, h2, _, h4, _⟩ := hc
  have : cfg.BLOCK_SIZE ≤ DISK_SIZE cfg := by
    unfold DISK_SIZE
    unfold DATA_BLOCK_START at h2
    exact Nat.le_mul_of_pos_left _ (by omega)
  have : (cfg.BLOCK_SIZE : Int) ≤ (DISK_SIZE cfg : Int) := by exact_mod_cast this
  omega

theorem free_blocks_nonneg (cfg : Config) (hc : cfg.sane) (s : FS) (hs : Inv cfg s) :
    0 ≤ s.sb.free_blocks := by
  have hcount := free_count cfg _ _ hs.excl hs.range hs.bits
  have hds := hc.2.1
  rw [hs.free_blocks]
  have : (owned s.inode_table).length ≤ cfg.MAX_BLOCKS - DATA_BLOCK_START := by omega
  omega

theorem slot_matches_set_same (cfg : Config) (tbl : List inode) (k : Nat) (x : inode)
    (f : List Nat) (hk : k < tbl.length) (hname : x.name = (tbl.getD k no_inode).name)
    (hused : x.used = (tbl.getD k no_inode).used) (j : Nat) :
    slot_matches cfg (tbl.set k x) f j ↔ slot_matches cfg tbl f j := by
  unfold slot_matches
  rw [table_getD_set _ _ _ _ hk]
  by_cases h : j = k
  · rw [if_pos h, hname, hused, h]
  · rw [if_neg h]

theorem find_file_congr (cfg : Config) (tbl tbl' : List inode) (f : List Nat) (i n : Nat)
    (h : ∀ j, slot_matches cfg tbl' f j ↔ slot_matches cfg tbl f j) :
    find_file cfg tbl' f i n = find_file cfg tbl f i n := by
  induction n generalizing i with
  | zero => rfl
  | succ n ih =>
    unfold find_file
    by_cases hm : slot_matches cfg tbl f i
    · rw [if_pos hm, if_pos ((h i).2 hm)]
    · rw [if_neg hm, if_neg (fun h' => hm ((h i).1 h')), ih]

theorem find_file_first (cfg : Config) (tbl : List inode) (f : List Nat) (n k : Nat)
    (hk : k < n) (hmatch : slot_matches cfg tbl f k)
    (hfirst : ∀ j, j < k → ¬ slot_matches cfg tbl f j) :
    find_file cfg tbl f 0 n = (k : Int) := by
  rcases find_file_spec cfg tbl f 0 n with ⟨_, h2⟩ | ⟨k', _, h2, h3, h4, h5⟩
  · exact absurd hmatch (h2 k (by omega) (by omega))
  · rw [h3]
    have : k' = k := by
      rcases Nat.lt_trichotomy k' k with h | h | h
      · exact absurd h4 (hfirst k' h)
      · exact h
      · exact absurd hmatch (h5 k (by omega) h)
    rw [this]

theorem read_loop_no_blocks (cfg : Config) (ev : Faults) (m : Nat) (btr : Int) (d : Disk)
    (n : Nat) (st : ReadSt) :
    read_loop cfg ev (List.replicate m (-1)) btr d 0 n st = some st := by
  cases n with
  | zero => rfl
  | succ n =>
    unfold read_loop
    have hg : (List.replicate m (-1 : Int)).getD 0 (-1) = -1 := by
      rw [List.getD_eq_getElem?_getD, List.getElem?_replicate]
      split <;> rfl
    simp only [hg, if_true]
    split <;> rfl

/-- A write of a size above `INT_MAX - BLOCK_SIZE + 1` to an existing file, in a state that
satisfies the invariant: the call returns `0`, stores the size, leaves the file without any
block, and a following read of the file yields no byte. -/
theorem fs_write_overflow (cfg : Config) (hc : cfg.sane) (s : FS) (hs : Inv cfg s)
    (f dat : List Nat) (size : Int) (ev : Faults) (hv : strlen f < cfg.MAX_FILENAME)
    (hex : ∃ j, j < cfg.MAX_FILES ∧ slot_matches cfg s.inode_table f j)
    (hlo : INT_MAX < size + cfg.BLOCK_SIZE - 1) (hhi : size ≤ INT_MAX) :
    (fs_write cfg (some f) (some dat) size ev s).1 = 0 ∧
    ∃ k, k < cfg.MAX_FILES ∧ slot_matches cfg s.inode_table f k ∧
      (fs_write cfg (some f) (some dat) size ev s).2.inode_table =
        s.inode_table.set k
          { s.inode_table.getD k no_inode with
            blocks := List.replicate cfg.MAX_DIRECT_BLOCKS (-1), size := size } ∧
      ∀ (m : Int) (ev' : Faults), 0 ≤ m →
        fs_read cfg (some f) false m ev' (fs_write cfg (some f) (some dat) size ev s).2 = (0, []) := by
  have hbs2 := block_size_le cfg hc
  have hreq := required_blocks_overflow cfg hc.1 hbs2 size hlo hhi
  have hfb := free_blocks_nonneg cfg hc s hs
  have h0 : 0 ≤ size := by unfold INT_MAX at hlo hbs2; omega
  obtain ⟨k, hk, hmatch, hfirst, hlen, _, _, htbl, _, hret⟩ :=
    fs_write_spec cfg hc s hs f dat size ev h0 hv hex (by omega) (by omega)
  have hn : (required_blocks cfg size).toNat = 0 := by omega
  have hL : new_blocks cfg s k (required_blocks cfg size) = [] := by
    apply List.eq_nil_of_length_eq_zero
    rw [hlen, hn]
  rw [hL, hn] at hret
  rw [hL] at htbl
  have hret0 : (fs_write cfg (some f) (some dat) size ev s).1 = 0 := by
    rw [hret]; rfl
  have hk' : k < s.inode_table.length := by rw [hs.table_len]; exact hk
  have htbl' : (fs_write cfg (some f) (some dat) size ev s).2.inode_table =
      s.inode_table.set k
        { s.inode_table.getD k no_inode with
          blocks := List.replicate cfg.MAX_DIRECT_BLOCKS (-1), size := size } := by
    rw [htbl, if_pos hret0]
    simp
  refine ⟨hret0, k, hk, hmatch, htbl', fun m ev' hm => ?_⟩
  have hmnt : 0 ≤ (fs_write cfg (some f) (some dat) size ev s).2.fs_fd :=
    (inv_write cfg hc s hs (some f) (some dat) size ev).mounted
  have hcongr := slot_matches_set_same cfg s.inode_table k
    { s.inode_table.getD k no_inode with
      blocks := List.replicate cfg.MAX_DIRECT_BLOCKS (-1), size := size } f hk' rfl rfl
  have hfind : find_file cfg (fs_write cfg (some f) (some dat) size ev s).2.inode_table f 0
      cfg.MAX_FILES = (k : Int) := by
    rw [htbl', find_file_congr cfg _ _ f 0 cfg.MAX_FILES hcongr]
    exact find_file_first cfg _ f _ k hk hmatch hfirst
  unfold fs_read
  rw [if_neg (by omega)]
  simp only
  rw [if_neg (by
    intro h
    rcases h with h | h | h
    · exact Bool.noConfusion h
    · omega
    · omega), hfind, if_neg (by omega), Int.toNat_ofNat, htbl', getD_set_eq _ _ _ _ hk']
  simp only
  rw [read_loop_no_blocks]

/-! ## A first file on a fresh image -/

theorem fresh_no_match (cfg : Config) (hc : cfg.sane) (f : List Nat) (j : Nat) :
    ¬ slot_matches cfg (fresh cfg).inode_table f j := by
  rw [fresh_eq cfg hc]
  unfold slot_matches
  simp only
  intro h
  have h1 := h.1
  by_cases hj : j < cfg.MAX_FILES
  · rw [List.getD_eq_getElem _ _ (by simpa using hj), List.getElem_replicate] at h1
    exact Bool.noConfusion h1
  · rw [List.getD_eq_default _ _ (by simpa using hj)] at h1
    exact Bool.noConfusion h1

/-- On a fresh image with at least one inode slot, creating a file with a valid name
returns `0`. -/
theorem fs_create_fresh (cfg : Config) (hc : cfg.sane) (hmf : 0 < cfg.MAX_FILES)
    (f : List Nat) (hv1 : strlen f ≠ 0) (hv2 : strlen f < cfg.MAX_FILENAME) :
    (fs_create cfg (some f) (fresh cfg)).1 = 0 := by
  have hs := inv_fresh cfg hc
  unfold fs_create
  rw [if_neg (by have := hs.mounted; omega)]
  simp only
  rw [if_neg (by omega)]
  have hnf : find_file cfg (fresh cfg).inode_table f 0 cfg.MAX_FILES = -1 := by
    rcases find_file_spec cfg (fresh cfg).inode_table f 0 cfg.MAX_FILES with
      ⟨h1, _⟩ | ⟨k, _, _, _, h4, _⟩
    · exact h1
    · exact absurd h4 (fresh_no_match cfg hc f k)
  rw [if_neg (by rw [hnf]; simp)]
  have hfree : find_free (fresh cfg).inode_table 0 cfg.MAX_FILES ≠ -1 := by
    rcases find_free_spec (fresh cfg).inode_table 0 cfg.MAX_FILES with ⟨_, h2⟩ | ⟨k, _, _, h3, _, _⟩
    · exfalso
      have := h2 0 (le_refl _) (by omega)
      rw [fresh_eq cfg hc] at this
      simp only at this
      rw [List.getD_eq_getElem _ _ (by simpa using hmf), List.getElem_replicate] at this
      exact Bool.noConfusion this
    · rw [h3]; omega
  rw [if_neg hfree]

/-! ## Chunks of a file -/

theorem ceil_facts (bs sz : Nat) (hbs : 0 < bs) :
    (∀ j, j < (sz + bs - 1) / bs → j * bs < sz) ∧ sz ≤ (sz + bs - 1) / bs * bs := by
  have h1 : (sz + bs - 1) / bs * bs ≤ sz + bs - 1 := Nat.div_mul_le_self _ _
  have h2 : sz + bs - 1 < ((sz + bs - 1) / bs + 1) * bs := by
    have e := Nat.div_add_mod (sz + bs - 1) bs
    have l := Nat.mod_lt (sz + bs - 1) hbs
    have c : bs * ((sz + bs - 1) / bs) = (sz + bs - 1) / bs * bs := Nat.mul_comm _ _
    rw [Nat.add_mul, Nat.one_mul]
    omega
  constructor
  · intro j hj
    have : (j + 1) * bs ≤ (sz + bs - 1) / bs * bs := Nat.mul_le_mul_right _ hj
    rw [Nat.add_mul, Nat.one_mul] at this
    omega
  · rw [Nat.add_mul, Nat.one_mul] at h2
    omega

theorem block_range_disjoint (bs a b t p : Nat) (hab : a ≠ b) (ht : t < bs)
    (hp : p = b * bs + t) : ¬ (a * bs ≤ p ∧ p < a * bs + bs) := by
  rintro ⟨h1, h2⟩
  subst hp
  apply hab
  have h3 : a * bs < (b + 1) * bs := by rw [Nat.add_mul, Nat.one_mul]; omega
  have h4 : b * bs < (a + 1) * bs := by rw [Nat.add_mul, Nat.one_mul]; omega
  have h5 := Nat.lt_of_mul_lt_mul_right h3
  have h6 := Nat.lt_of_mul_lt_mul_right h4
  omega

theorem disk_write_bytes_in (d : Disk) (off : Nat) (src : List Nat) (t : Nat)
    (ht : t < src.length) : (d.write off src).bytes (off + t) = src.getD t 0 := by
  unfold Disk.write
  simp only
  rw [if_pos ⟨by omega, by omega⟩, Nat.add_sub_cancel_left]

theorem disk_write_bytes_out (d : Disk) (off : Nat) (src : List Nat) (p : Nat)
    (hp : ¬ (off ≤ p ∧ p < off + src.length)) : (d.write off src).bytes p = d.bytes p := by
  unfold Disk.write
  simp only
  rw [if_neg hp]

theorem Layout.offset {cfg : Config} {blocks : List Int} {l : List Nat} {sz : Nat}
    (h : Layout cfg blocks l sz) (j : Nat) (hj : j < l.length) :
    wrap32 (blocks.getD j (-1) * cfg.BLOCK_SIZE) = ((l.getD j 0 * cfg.BLOCK_SIZE : Nat) : Int) ∧
    l.getD j 0 * cfg.BLOCK_SIZE + cfg.BLOCK_SIZE ≤ DISK_SIZE cfg := by
  have h1 := h.inside j hj
  have h2 : (l.getD j 0 + 1) * cfg.BLOCK_SIZE ≤ cfg.MAX_BLOCKS * cfg.BLOCK_SIZE :=
    Nat.mul_le_mul_right _ h1
  rw [Nat.add_mul, Nat.one_mul] at h2
  have h3 : l.getD j 0 * cfg.BLOCK_SIZE + cfg.BLOCK_SIZE ≤ DISK_SIZE cfg := h2
  refine ⟨?_, h3⟩
  rw [h.entries j hj, ← Nat.cast_mul]
  apply wrap32_of_range
  · unfold INT_MIN; omega
  · have := h.disk_le
    omega

theorem Layout.index_mul {cfg : Config} {blocks : List Int} {l : List Nat} {sz : Nat}
    (h : Layout cfg blocks l sz) (j : Nat) (hj : j < l.length) :
    wrap32 ((j : Int) * cfg.BLOCK_SIZE) = ((j * cfg.BLOCK_SIZE : Nat) : Int) := by
  rw [← Nat.cast_mul]
  apply wrap32_of_range
  · unfold INT_MIN; omega
  · have := h.below j hj
    have := h.sz_le
    omega

theorem Layout.chunk_pos {cfg : Config} {blocks : List Int} {l : List Nat} {sz : Nat}
    (h : Layout cfg blocks l sz) (j : Nat) (hj : j < l.length) :
    0 < chunk_len cfg.BLOCK_SIZE sz j ∧ chunk_len cfg.BLOCK_SIZE sz j ≤ cfg.BLOCK_SIZE ∧
    j * cfg.BLOCK_SIZE + chunk_len cfg.BLOCK_SIZE sz j ≤ sz ∧
    (j + 1 < l.length → chunk_len cfg.BLOCK_SIZE sz j = cfg.BLOCK_SIZE) ∧
    (j + 1 = l.length → chunk_len cfg.BLOCK_SIZE sz j = sz - j * cfg.BLOCK_SIZE) := by
  have h1 := h.below j hj
  have h2 := h.bs_pos
  unfold chunk_len
  refine ⟨by omega, Nat.min_le_left _ _, by omega, ?_, ?_⟩
  · intro hj2
    have := h.below (j + 1) hj2
    rw [Nat.add_mul, Nat.one_mul] at this
    omega
  · intro hj2
    have := h.above
    rw [← hj2, Nat.add_mul, Nat.one_mul] at this
    omega

theorem Layout.chunk_size {cfg : Config} {blocks : List Int} {l : List Nat} {sz : Nat}
    (h : Layout cfg blocks l sz) (j : Nat) (hj : j < l.length) :
    (if (j : Int) = (l.length : Int) - 1
      then wrap32 ((sz : Int) - wrap32 ((j : Int) * cfg.BLOCK_SIZE))
      else (cfg.BLOCK_SIZE : Int)) = ((chunk_len cfg.BLOCK_SIZE sz j : Nat) : Int) := by
  obtain ⟨_, _, h3, h4, h5⟩ := h.chunk_pos j hj
  have hb := h.below j hj
  have hs := h.sz_le
  by_cases hlast : j + 1 = l.length
  · rw [if_pos (by omega), h.index_mul j hj, h5 hlast]
    rw [wrap32_of_range _ (by unfold INT_MIN; omega) (by omega)]
    omega
  · rw [if_neg (by omega), h4 (by omega)]

theorem write_chunk_eq (cfg : Config) (blocks : List Int) (l : List Nat) (sz : Nat)
    (h : Layout cfg blocks l sz) (data : List Nat) (j : Nat) (hj : j < l.length) (c : Nat) :
    write_chunk cfg data j (c : Int) =
      (List.range c).map (fun k => data.getD (j * cfg.BLOCK_SIZE + k) 0) := by
  unfold write_chunk
  rw [h.index_mul j hj, Int.toNat_ofNat, Int.toNat_ofNat]

/-- Frame property of the copy loop of `fs_write`: a byte outside the blocks of the chunks
`i .. i + n - 1` keeps its value, whatever the I/O outcomes. -/
theorem write_loop_frame (cfg : Config) (ev : Faults) (blocks : List Int) (l : List Nat)
    (sz : Nat) (h : Layout cfg blocks l sz) (data : List Nat) (n i : Nat) (d : Disk)
    (hin : i + n ≤ l.length) (p : Nat)
    (hp : ∀ j, i ≤ j → j < i + n →
      ¬ (l.getD j 0 * cfg.BLOCK_SIZE ≤ p ∧ p < l.getD j 0 * cfg.BLOCK_SIZE + cfg.BLOCK_SIZE)) :
    (write_loop cfg ev blocks data sz l.length i n d).2.bytes p = d.bytes p := by
  induction n generalizing i d with
  | zero => rfl
  | succ n ih =>
    have hi : i < l.length := by omega
    obtain ⟨ho1, _⟩ := h.offset i hi
    obtain ⟨_, hc2, _⟩ := h.chunk_pos i hi
    have hpi := hp i (le_refl _) (by omega)
    unfold write_loop
    simp only
    rw [ho1, h.chunk_size i hi, Int.toNat_ofNat, write_chunk_eq cfg blocks l sz h data i hi]
    split_ifs
    · rfl
    · rfl
    · split
      · rw [disk_write_bytes_out]
        intro hcon
        apply hpi
        rw [List.length_take, List.length_map, List.length_range] at hcon
        omega
      · rw [ih (i + 1) _ (by omega) (fun j hj1 hj2 => hp j (by omega) (by omega)),
          disk_write_bytes_out]
        intro hcon
        apply hpi
        rw [List.length_map, List.length_range] at hcon
        omega

/-- A copy loop of `fs_write` that reports success has stored every chunk in its block. -/
theorem write_loop_bytes (cfg : Config) (ev : Faults) (blocks : List Int) (l : List Nat)
    (sz : Nat) (h : Layout cfg blocks l sz) (data : List Nat) (n i : Nat) (d : Disk)
    (hin : i + n = l.length)
    (hok : (write_loop cfg ev blocks data sz l.length i n d).1 = true)
    (j : Nat) (hj1 : i ≤ j) (hj2 : j < l.length) (t : Nat)
    (ht : t < chunk_len cfg.BLOCK_SIZE sz j) :
    (write_loop cfg ev blocks data sz l.length i n d).2.bytes
      (l.getD j 0 * cfg.BLOCK_SIZE + t) = data.getD (j * cfg.BLOCK_SIZE + t) 0 := by
  induction n generalizing i d with
  | zero => omega
  | succ n ih =>
    have hi : i < l.length := by omega
    obtain ⟨ho1, _⟩ := h.offset i hi
    obtain ⟨_, hc2, _⟩ := h.chunk_pos i hi
    unfold write_loop at hok ⊢
    simp only at hok ⊢
    rw [ho1, h.chunk_size i hi, Int.toNat_ofNat, write_chunk_eq cfg blocks l sz h data i hi]
      at hok ⊢
    by_cases hc1 : ((l.getD i 0 * cfg.BLOCK_SIZE : Nat) : Int) < 0 ∨ (ev (2 * i)).isSome = true
    · rw [if_pos hc1] at hok
      exact Bool.noConfusion hok
    rw [if_neg hc1] at hok ⊢
    rw [if_neg (by omega)] at hok ⊢
    cases hev : ev (2 * i + 1) with
    | some t' =>
      rw [hev] at hok
      exact Bool.noConfusion hok
    | none =>
      rw [hev] at hok
      simp only at hok ⊢
      by_cases hji : j = i
      · subst hji
        rw [write_loop_frame cfg ev blocks l sz h data n (j + 1) _ (by omega) _
          (fun j' hj1' hj2' => block_range_disjoint _ _ _ t _ (fun e => by
            have := h.distinct j' j (by omega) hj2 e
            omega) (by omega) rfl)]
        rw [disk_write_bytes_in _ _ _ _ (by rw [List.length_map, List.length_range]; exact ht),
          List.getD_eq_getElem _ _ (by rw [List.length_map, List.length_range]; exact ht)]
        simp
      · exact ih (i + 1) _ (by omega) hok (by omega)

/-- Without I/O failure the copy loop of `fs_write` reports success. -/
theorem write_loop_ok (cfg : Config) (blocks : List Int) (l : List Nat)
    (sz : Nat) (h : Layout cfg blocks l sz) (data : List Nat) (n i : Nat) (d : Disk)
    (hin : i + n ≤ l.length) :
    (write_loop cfg noFaults blocks data sz l.length i n d).1 = true := by
  induction n generalizing i d with
  | zero => rfl
  | succ n ih =>
    have hi : i < l.length := by omega
    obtain ⟨ho1, _⟩ := h.offset i hi
    unfold write_loop
    simp only
    rw [ho1, h.chunk_size i hi]
    have hn : ¬ (((l.getD i 0 * cfg.BLOCK_SIZE : Nat) : Int) < 0 ∨
        (noFaults (2 * i)).isSome = true) := by
      intro hcon
      rcases hcon with hcon | hcon
      · omega
      · exact Bool.noConfusion hcon
    rw [if_neg hn, if_neg (by omega)]
    simp only [noFaults]
    exact ih (i + 1) _ (by omega)

theorem file_range_nil (d : Disk) (bs : Nat) (l : List Nat) (a : Nat) :
    file_range d bs l a a = [] := by
  simp [file_range]

theorem file_range_append (d : Disk) (bs : Nat) (l : List Nat) (lo mid hi : Nat)
    (h1 : lo ≤ mid) (h2 : mid ≤ hi) :
    file_range d bs l lo mid ++ file_range d bs l mid hi = file_range d bs l lo hi := by
  unfold file_range
  rw [← List.map_append]
  congr 1
  have := List.range'_append lo (mid - lo) (hi - mid) 1
  rw [Nat.one_mul] at this
  have e1 : lo + (mid - lo) = mid := by omega
  have e2 : hi - mid + (mid - lo) = hi - lo := by omega
  rw [e1, e2] at this
  exact this

theorem div_block (i k bs : Nat) (h : k < bs) : (i * bs + k) / bs = i := by
  rw [Nat.add_comm, Nat.add_mul_div_right _ _ (by omega), Nat.div_eq_of_lt h, Nat.zero_add]

theorem mod_block (i k bs : Nat) (h : k < bs) : (i * bs + k) % bs = k := by
  rw [Nat.add_comm, Nat.add_mul_mod_self_right, Nat.mod_eq_of_lt h]

theorem chunk_read_eq (d : Disk) (bs : Nat) (l : List Nat) (i c : Nat) (hc : c ≤ bs) :
    (List.range c).map (fun k => d.bytes (l.getD i 0 * bs + k)) =
      file_range d bs l (i * bs) (i * bs + c) := by
  unfold file_range
  rw [Nat.add_sub_cancel_left, List.range'_eq_map_range, List.map_map]
  apply List.map_congr_left
  intro k hk
  rw [List.mem_range] at hk
  simp only [Function.comp]
  rw [div_block i k bs (by omega), mod_block i k bs (by omega)]

/-- Without I/O failure, the read loop of `fs_read` asked for the whole file returns its
size and the bytes of its chunks, block after block. -/
theorem read_loop_run (cfg : Config) (blocks : List Int) (l : List Nat) (sz : Nat)
    (h : Layout cfg blocks l sz) (d : Disk) (hd : DISK_SIZE cfg ≤ d.size) (n i : Nat)
    (out : List Nat) (hi : i ≤ l.length) (hn : l.length ≤ i + n) :
    read_loop cfg noFaults blocks (sz : Int) d i n
        ⟨((min (i * cfg.BLOCK_SIZE) sz : Nat) : Int), out⟩ =
      some ⟨(sz : Int), out ++ file_range d cfg.BLOCK_SIZE l (min (i * cfg.BLOCK_SIZE) sz) sz⟩ := by
  induction n generalizing i out with
  | zero =>
    have hiN : i = l.length := by omega
    have := h.above
    rw [← hiN] at this
    unfold read_loop
    rw [Nat.min_eq_right this, file_range_nil, List.append_nil]
  | succ n ih =>
    unfold read_loop
    simp only
    by_cases hlt : i < l.length
    · have hb := h.below i hlt
      obtain ⟨ho1, ho2⟩ := h.offset i hlt
      obtain ⟨hc1, hc2, hc3, hc4, hc5⟩ := h.chunk_pos i hlt
      have hs := h.sz_le
      have hmin : min (i * cfg.BLOCK_SIZE) sz = i * cfg.BLOCK_SIZE := Nat.min_eq_left (by omega)
      rw [hmin, if_pos (by omega), h.entries i hlt, if_neg (by omega), ← h.entries i hlt, ho1]
      have hn1 : ¬ (((l.getD i 0 * cfg.BLOCK_SIZE : Nat) : Int) < 0 ∨
          (noFaults (2 * i)).isSome = true) := by
        intro hcon
        rcases hcon with hcon | hcon
        · omega
        · exact Bool.noConfusion hcon
      rw [if_neg hn1]
      have hw : wrap32 ((sz : Int) - ((i * cfg.BLOCK_SIZE : Nat) : Int)) =
          ((sz - i * cfg.BLOCK_SIZE : Nat) : Int) := by
        rw [wrap32_of_range _ (by unfold INT_MIN; omega) (by omega)]
        omega
      have hchunk : (if wrap32 ((sz : Int) - ((i * cfg.BLOCK_SIZE : Nat) : Int)) > cfg.BLOCK_SIZE
          then (cfg.BLOCK_SIZE : Int)
          else wrap32 ((sz : Int) - ((i * cfg.BLOCK_SIZE : Nat) : Int))) =
          ((chunk_len cfg.BLOCK_SIZE sz i : Nat) : Int) := by
        rw [hw]
        unfold chunk_len
        by_cases hgt : sz - i * cfg.BLOCK_SIZE > cfg.BLOCK_SIZE
        · rw [if_pos (by omega), Nat.min_eq_left (by omega)]
        · rw [if_neg (by omega), Nat.min_eq_right (by omega)]
      rw [hchunk, Int.toNat_ofNat, Int.toNat_ofNat]
      have hread : d.read (l.getD i 0 * cfg.BLOCK_SIZE) (chunk_len cfg.BLOCK_SIZE sz i) =
          some (file_range d cfg.BLOCK_SIZE l (i * cfg.BLOCK_SIZE)
            (i * cfg.BLOCK_SIZE + chunk_len cfg.BLOCK_SIZE sz i)) := by
        unfold Disk.read
        rw [if_pos (by omega), chunk_read_eq d _ l i _ hc2]
      simp only [noFaults, Option.isSome_none, Bool.false_eq_true, if_false, hread]
      have hrc : wrap32 (((i * cfg.BLOCK_SIZE : Nat) : Int) +
          ((chunk_len cfg.BLOCK_SIZE sz i : Nat) : Int)) =
          ((min ((i + 1) * cfg.BLOCK_SIZE) sz : Nat) : Int) := by
        rw [wrap32_of_range _ (by unfold INT_MIN; omega) (by omega)]
        by_cases hlast : i + 1 = l.length
        · have := h.above
          rw [← hlast] at this
          rw [Nat.min_eq_right this, hc5 hlast]
          omega
        · have := h.below (i + 1) (by omega)
          rw [Nat.min_eq_left (by omega), hc4 (by omega), Nat.add_mul, Nat.one_mul]
          push_cast
          rfl
      rw [hrc]
      rw [ih (i + 1) _ (by omega) (by omega), List.append_assoc]
      have hmid : i * cfg.BLOCK_SIZE + chunk_len cfg.BLOCK_SIZE sz i =
          min ((i + 1) * cfg.BLOCK_SIZE) sz := by
        have := hrc
        rw [wrap32_of_range _ (by unfold INT_MIN; omega) (by omega)] at this
        exact_mod_cast this
      rw [hmid, file_range_append _ _ _ _ _ _ (by rw [← hmid]; omega) (Nat.min_le_right _ _)]
    · have hiN : i = l.length := by omega
      have := h.above
      rw [← hiN] at this
      rw [Nat.min_eq_right this, if_neg (by omega), file_range_nil, List.append_nil]

theorem required_blocks_nat (cfg : Config) (hbs : 0 < cfg.BLOCK_SIZE) (sz : Nat)
    (h1 : (sz : Int) + cfg.BLOCK_SIZE - 1 ≤ INT_MAX) :
    required_blocks cfg (sz : Int) = (((sz + cfg.BLOCK_SIZE - 1) / cfg.BLOCK_SIZE : Nat) : Int) := by
  rw [required_blocks_eq cfg hbs _ (Int.natCast_nonneg _) h1]
  have : (sz : Int) + cfg.BLOCK_SIZE - 1 = ((sz + cfg.BLOCK_SIZE - 1 : Nat) : Int) := by omega
  rw [this]
  norm_cast

theorem written_entries (l : List Nat) (m j : Nat) (hj : j < l.length) :
    (l.map (fun (x : Nat) => (x : Int)) ++ List.replicate m (-1)).getD j (-1) =
      ((l.getD j 0 : Nat) : Int) := by
  have hj' : j < (l.map (fun (x : Nat) => (x : Int))).length := by
    rw [List.length_map]; exact hj
  rw [List.getD_append _ _ _ _ hj', List.getD_eq_getElem _ _ hj', List.getElem_map,
    List.getD_eq_getElem _ _ hj]

theorem nodup_getD_inj (l : List Nat) (hnd : l.Nodup) (i j : Nat) (hi : i < l.length)
    (hj : j < l.length) (heq : l.getD i 0 = l.getD j 0) : i = j := by
  rw [List.getD_eq_getElem _ _ hi, List.getD_eq_getElem _ _ hj] at heq
  exact (List.Nodup.getElem_inj_iff hnd).1 heq

theorem new_blocks_inside (cfg : Config) (hc : cfg.sane) (s : FS) (k : Nat) (req : Int)
    (j : Nat) (hj : j < (new_blocks cfg s k req).length) :
    (new_blocks cfg s k req).getD j 0 < cfg.MAX_BLOCKS := by
  rw [List.getD_eq_getElem _ _ hj]
  obtain ⟨_, hx2, _⟩ := new_blocks_mem cfg s k req _ (List.getElem_mem hj)
  have hds := hc.2.1
  omega

/-- The blocks a write allocates, together with the block list it stores, form a layout for
a file of `sz` bytes. -/
theorem write_layout (cfg : Config) (hc : cfg.sane) (s : FS) (k : Nat) (sz : Nat)
    (h1 : (sz : Int) + cfg.BLOCK_SIZE - 1 ≤ INT_MAX)
    (hlen : (new_blocks cfg s k (required_blocks cfg (sz : Int))).length =
      (required_blocks cfg (sz : Int)).toNat) :
    Layout cfg
      ((new_blocks cfg s k (required_blocks cfg (sz : Int))).map (fun (x : Nat) => (x : Int)) ++
        List.replicate (cfg.MAX_DIRECT_BLOCKS -
          (new_blocks cfg s k (required_blocks cfg (sz : Int))).length) (-1))
      (new_blocks cfg s k (required_blocks cfg (sz : Int))) sz := by
  have hrn := required_blocks_nat cfg hc.1 sz h1
  have hlen2 : (new_blocks cfg s k (required_blocks cfg (sz : Int))).length =
      (sz + cfg.BLOCK_SIZE - 1) / cfg.BLOCK_SIZE := by
    rw [hlen, hrn, Int.toNat_ofNat]
  obtain ⟨hf1, hf2⟩ := ceil_facts cfg.BLOCK_SIZE sz hc.1
  have hbs := hc.1
  have hsz : (sz : Int) ≤ INT_MAX := by omega
  exact
    { bs_pos := hc.1
      disk_le := hc.2.2.2.1
      entries := fun j hj => written_entries _ _ j hj
      inside := fun j hj => new_blocks_inside cfg hc s k _ j hj
      distinct := fun i j hi hj heq => nodup_getD_inj _ (new_blocks_nodup cfg s k _) i j hi hj heq
      below := fun j hj => hf1 j (by rw [← hlen2]; exact hj)
      above := by rw [hlen2]; exact hf2
      sz_le := hsz }

theorem file_range_written (cfg : Config) (ev : Faults) (blocks : List Int) (l : List Nat)
    (data : List Nat) (h : Layout cfg blocks l data.length) (d : Disk)
    (hok : (write_loop cfg ev blocks data data.length l.length 0 l.length d).1 = true) :
    file_range (write_loop cfg ev blocks data data.length l.length 0 l.length d).2
      cfg.BLOCK_SIZE l 0 data.length = data := by
  apply List.ext_getElem
  · simp [file_range]
  · intro p hp1 hp2
    unfold file_range
    rw [List.getElem_map, List.getElem_range', Nat.zero_add, Nat.one_mul]
    have hbs := h.bs_pos
    have hdm := Nat.div_add_mod p cfg.BLOCK_SIZE
    have hml := Nat.mod_lt p hbs
    have hcomm : cfg.BLOCK_SIZE * (p / cfg.BLOCK_SIZE) = p / cfg.BLOCK_SIZE * cfg.BLOCK_SIZE :=
      Nat.mul_comm _ _
    have hj : p / cfg.BLOCK_SIZE < l.length := by
      apply Nat.div_lt_of_lt_mul
      have := h.above
      rw [Nat.mul_comm]
      omega
    have ht : p % cfg.BLOCK_SIZE < chunk_len cfg.BLOCK_SIZE data.length (p / cfg.BLOCK_SIZE) := by
      unfold chunk_len
      rw [Nat.lt_min]
      omega
    rw [write_loop_bytes cfg ev blocks l data.length h data l.length 0 d (by omega) hok
      (p / cfg.BLOCK_SIZE) (Nat.zero_le _) hj (p % cfg.BLOCK_SIZE) ht]
    have e : p / cfg.BLOCK_SIZE * cfg.BLOCK_SIZE + p % cfg.BLOCK_SIZE = p := by omega
    rw [e, List.getD_eq_getElem _ _ hp2]

/-- Round trip for sizes whose block count does not overflow: in a reachable state, when
`fs_write(name, B, len(B))` returns `0` and `len(B) + BLOCK_SIZE - 1` is an `int`, a following
`fs_read(name, buffer, m)` with `m >= len(B)` and no I/O failure returns `len(B)` and stores
exactly `B`. -/
theorem fs_round_trip (cfg : Config) (hc : cfg.sane) (s : FS) (h : Reachable cfg s)
    (f B : List Nat) (ev : Faults) (m : Int)
    (hsz : (B.length : Int) + cfg.BLOCK_SIZE - 1 ≤ INT_MAX)
    (hret : (fs_write cfg (some f) (some B) B.length ev s).1 = 0)
    (hm : (B.length : Int) ≤ m) :
    fs_read cfg (some f) false m noFaults (fs_write cfg (some f) (some B) B.length ev s).2 =
      ((B.length : Int), B) := by
  have hs := inv_reachable cfg hc s h
  have hs' := inv_write cfg hc s hs (some f) (some B) B.length ev
  obtain ⟨_, h0, hv, hex, hr1, hr2⟩ := fs_write_conditions cfg s f B B.length ev hret
  obtain ⟨k, hk, hmatch, hfirst, hlen, _, _, htbl, hdisk, hcode⟩ :=
    fs_write_spec cfg hc s hs f B B.length ev h0 hv hex hr1 hr2
  have hlay := write_layout cfg hc s k B.length hsz hlen
  have hreq : required_blocks cfg (B.length : Int) =
      ((new_blocks cfg s k (required_blocks cfg (B.length : Int))).length : Int) := by
    rw [hlen, Int.toNat_of_nonneg]
    rw [required_blocks_nat cfg hc.1 _ hsz]
    exact Int.natCast_nonneg _
  have hok : (write_loop cfg ev
      ((new_blocks cfg s k (required_blocks cfg (B.length : Int))).map
          (fun (x : Nat) => (x : Int)) ++
        List.replicate (cfg.MAX_DIRECT_BLOCKS -
          (new_blocks cfg s k (required_blocks cfg (B.length : Int))).length) (-1))
      B B.length (required_blocks cfg (B.length : Int)) 0
      (required_blocks cfg (B.length : Int)).toNat s.disk).1 = true := by
    by_contra hne
    rw [hcode, if_neg hne] at hret
    exact absurd hret (by decide)
  have hk' : k < s.inode_table.length := by rw [hs.table_len]; exact hk
  have hcongr := slot_matches_set_same cfg s.inode_table k
    { s.inode_table.getD k no_inode with
      blocks := (new_blocks cfg s k (required_blocks cfg (B.length : Int))).map
          (fun (x : Nat) => (x : Int)) ++
        List.replicate (cfg.MAX_DIRECT_BLOCKS -
          (new_blocks cfg s k (required_blocks cfg (B.length : Int))).length) (-1)
      size := if (fs_write cfg (some f) (some B) B.length ev s).1 = 0 then (B.length : Int)
        else (s.inode_table.getD k no_inode).size } f hk' rfl rfl
  have hfind : find_file cfg (fs_write cfg (some f) (some B) B.length ev s).2.inode_table f 0
      cfg.MAX_FILES = (k : Int) := by
    rw [htbl, find_file_congr cfg _ _ f 0 cfg.MAX_FILES hcongr]
    exact find_file_first cfg _ f _ k hk hmatch hfirst
  have hdsz := hs'.disk_size
  unfold fs_read
  rw [if_neg (by have := hs'.mounted; omega)]
  simp only
  rw [if_neg (by
    intro hcon
    rcases hcon with hcon | hcon | hcon
    · exact Bool.noConfusion hcon
    · omega
    · omega), hfind, if_neg (by omega), Int.toNat_ofNat, htbl, getD_set_eq _ _ _ _ hk',
    if_pos hret]
  simp only
  rw [if_neg (by omega)]
  rw [hdisk] at hdsz ⊢
  have hle : ((new_blocks cfg s k (required_blocks cfg (B.length : Int))).length : Int) ≤
      cfg.MAX_DIRECT_BLOCKS := by rw [← hreq]; exact hr1
  generalize new_blocks cfg s k (required_blocks cfg (B.length : Int)) = l at hlay hreq hok hdsz hle ⊢
  rw [hreq, Int.toNat_ofNat] at hok hdsz ⊢
  have hn : l.length ≤ 0 + cfg.MAX_DIRECT_BLOCKS := by
    clear hdsz hok hlay hreq
    omega
  have hrun := read_loop_run cfg _ _ B.length hlay _ hdsz cfg.MAX_DIRECT_BLOCKS 0 []
    (Nat.zero_le _) hn
  rw [Nat.zero_mul, Nat.zero_min] at hrun
  simp only [Nat.cast_zero, List.nil_append] at hrun
  rw [hrun]
  simp only
  rw [file_range_written cfg ev _ _ B hlay s.disk hok]

/-- Without I/O failure, a write to an existing file in a reachable state returns `0` as
soon as the block count, computed without overflow, is within `MAX_DIRECT_BLOCKS` and within
`sb.free_blocks`. -/
theorem fs_write_succeeds (cfg : Config) (hc : cfg.sane) (s : FS) (h : Reachable cfg s)
    (f dat : List Nat) (sz : Nat) (hv : strlen f < cfg.MAX_FILENAME)
    (hex : ∃ j, j < cfg.MAX_FILES ∧ slot_matches cfg s.inode_table f j)
    (hsz : (sz : Int) + cfg.BLOCK_SIZE - 1 ≤ INT_MAX)
    (hr1 : (sz + cfg.BLOCK_SIZE - 1) / cfg.BLOCK_SIZE ≤ cfg.MAX_DIRECT_BLOCKS)
    (hr2 : (((sz + cfg.BLOCK_SIZE - 1) / cfg.BLOCK_SIZE : Nat) : Int) ≤ s.sb.free_blocks) :
    (fs_write cfg (some f) (some dat) sz noFaults s).1 = 0 := by
  have hs := inv_reachable cfg hc s h
  have hrn := required_blocks_nat cfg hc.1 sz hsz
  obtain ⟨k, _, _, _, hlen, _, _, _, _, hcode⟩ :=
    fs_write_spec cfg hc s hs f dat sz noFaults (Int.natCast_nonneg _) hv hex
      (by rw [hrn]; exact_mod_cast hr1) (by rw [hrn]; exact hr2)
  have hlay := write_layout cfg hc s k sz hsz hlen
  have hreq : required_blocks cfg (sz : Int) =
      ((new_blocks cfg s k (required_blocks cfg (sz : Int))).length : Int) := by
    rw [hlen, Int.toNat_of_nonneg]
    rw [hrn]
    exact Int.natCast_nonneg _
  rw [hcode]
  generalize new_blocks cfg s k (required_blocks cfg (sz : Int)) = l at hlay hreq ⊢
  rw [hreq, Int.toNat_ofNat,
    write_loop_ok cfg _ l sz hlay dat l.length 0 s.disk (by omega)]
  rfl

theorem fs_create_free_blocks (cfg : Config) (filename : Option (List Nat)) (s : FS) :
    (fs_create cfg filename s).2.sb.free_blocks = s.sb.free_blocks := by
  unfold fs_create
  split_ifs <;> try rfl
  cases filename with
  | none => rfl
  | some f =>
    simp only
    split_ifs <;> rfl

/-- Scenario A on the standard geometry: after `fs_format`, `fs_mount` and
`fs_create("a.txt")`, writing a buffer `B` of 10000 bytes returns `0`, the inode then holds
`size = 10000` and 3 assigned blocks, and reading with a 10000-byte buffer returns the 10000
bytes of `B`. -/
theorem scenario_a (B : List Nat) (hB : B.length = 10000) :
    (fs_write stdConfig (some [97, 46, 116, 120, 116]) (some B) B.length noFaults
      (fs_create stdConfig (some [97, 46, 116, 120, 116]) (fresh stdConfig)).2).1 = 0 ∧
    (∃ k, ((fs_write stdConfig (some [97, 46, 116, 120, 116]) (some B) B.length noFaults
        (fs_create stdConfig (some [97, 46, 116, 120, 116]) (fresh stdConfig)).2).2.inode_table.getD
          k no_inode).size = 10000 ∧
      (assigned ((fs_write stdConfig (some [97, 46, 116, 120, 116]) (some B) B.length noFaults
        (fs_create stdConfig (some [97, 46, 116, 120, 116]) (fresh stdConfig)).2).2.inode_table.getD
          k no_inode)).length = 3) ∧
    fs_read stdConfig (some [97, 46, 116, 120, 116]) false 10000 noFaults
      (fs_write stdConfig (some [97, 46, 116, 120, 116]) (some B) B.length noFaults
        (fs_create stdConfig (some [97, 46, 116, 120, 116]) (fresh stdConfig)).2).2 =
      (10000, B) := by
  have hc : stdConfig.sane := by decide
  have hcreate := fs_create_fresh stdConfig hc (by decide) [97, 46, 116, 120, 116] (by decide)
    (by decide)
  obtain ⟨_, _, hv, hex⟩ := create_then_matches stdConfig (fresh stdConfig)
    [97, 46, 116, 120, 116] (inv_fresh stdConfig hc).table_len hcreate
  have hreach : Reachable stdConfig
      (fs_create stdConfig (some [97, 46, 116, 120, 116]) (fresh stdConfig)).2 :=
    Reachable.create (fresh stdConfig) (some [97, 46, 116, 120, 116]) Reachable.fresh
  have hfree : (fs_create stdConfig (some [97, 46, 116, 120, 116])
      (fresh stdConfig)).2.sb.free_blocks = 2550 := by
    rw [fs_create_free_blocks, fresh_eq stdConfig hc]
    rfl
  have hsz : (B.length : Int) + stdConfig.BLOCK_SIZE - 1 ≤ INT_MAX := by
    rw [hB]; decide
  have hw := fs_write_succeeds stdConfig hc _ hreach [97, 46, 116, 120, 116] B B.length hv hex
    hsz (by rw [hB]; decide) (by rw [hfree, hB]; decide)
  obtain ⟨k, _, _, _, _, hsize, hcount, _, _⟩ := fs_write_block_list stdConfig hc _ hreach
    [97, 46, 116, 120, 116] B B.length noFaults hsz hw
  have hrt := fs_round_trip stdConfig hc _ hreach [97, 46, 116, 120, 116] B noFaults 10000 hsz hw
    (by rw [hB]; decide)
  refine ⟨hw, ⟨k, ?_, ?_⟩, ?_⟩
  · rw [hsize, hB]; rfl
  · rw [hcount, hB]; rfl
  · rw [hrt, hB]; rfl

/-! ## What a delete leaves behind -/

theorem fs_write_keeps_names (cfg : Config) (s : FS) (hlen : s.inode_table.length = cfg.MAX_FILES)
    (filename data : Option (List Nat)) (size : Int) (ev : Faults) (f : List Nat) (j : Nat) :
    slot_matches cfg (fs_write cfg filename data size ev s).2.inode_table f j ↔
      slot_matches cfg s.inode_table f j := by
  unfold fs_write
  by_cases hfd : s.fs_fd < 0
  · rw [if_pos hfd]
  rw [if_neg hfd]
  cases filename with
  | none => exact Iff.rfl
  | some g =>
    cases data with
    | none => exact Iff.rfl
    | some dat =>
      simp only
      by_cases hval : size < 0 ∨ strlen g ≥ cfg.MAX_FILENAME
      · rw [if_pos hval]
      rw [if_neg hval]
      by_cases hfind : find_file cfg s.inode_table g 0 cfg.MAX_FILES = -1
      · rw [if_pos hfind]
      rw [if_neg hfind]
      by_cases hsp : required_blocks cfg size > cfg.MAX_DIRECT_BLOCKS ∨
          required_blocks cfg size > s.sb.free_blocks
      · rw [if_pos hsp]
      rw [if_neg hsp]
      obtain ⟨k, _, hk, hidx, _, _⟩ := find_file_pos cfg s.inode_table g 0 cfg.MAX_FILES hfind
      rw [hidx, Int.toNat_ofNat]
      have hk' : k < s.inode_table.length := by rw [hlen]; omega
      refine slot_matches_set_same cfg s.inode_table k _ f hk' ?_ ?_ j <;> rfl

theorem fs_delete_table (cfg : Config) (s : FS) (f : List Nat) (k : Nat) (hm : 0 ≤ s.fs_fd)
    (hv1 : strlen f ≠ 0) (hv2 : strlen f < cfg.MAX_FILENAME) (hk : k < cfg.MAX_FILES)
    (hmatch : slot_matches cfg s.inode_table f k)
    (hfirst : ∀ j, j < k → ¬ slot_matches cfg s.inode_table f j) :
    (fs_delete cfg (some f) s).2.inode_table =
      s.inode_table.set k { s.inode_table.getD k no_inode with used := false } := by
  unfold fs_delete
  rw [if_neg (by omega)]
  simp only
  rw [if_neg (by omega), find_file_first cfg _ f _ k hk hmatch hfirst, if_neg (by omega),
    Int.toNat_ofNat]

/-- After `fs_delete` has released the file in slot `k`, a block `b` the file owned is still
an entry of the block list of slot `k`, and its bit in the bitmap is clear. -/
theorem fs_delete_stale (cfg : Config) (hc : cfg.sane) (s : FS) (hs : Inv cfg s) (f : List Nat)
    (k : Nat) (hv1 : strlen f ≠ 0) (hv2 : strlen f < cfg.MAX_FILENAME) (hk : k < cfg.MAX_FILES)
    (hmatch : slot_matches cfg s.inode_table f k)
    (hfirst : ∀ j, j < k → ¬ slot_matches cfg s.inode_table f j)
    (b : Int) (hb : b ∈ own (s.inode_table.getD k no_inode)) :
    (∃ nd ∈ (fs_delete cfg (some f) s).2.inode_table, b ∈ nd.blocks) ∧
    b.toNat < cfg.MAX_BLOCKS ∧ ((b.toNat : Nat) : Int) = b ∧
    bit_test (fs_delete cfg (some f) s).2.bitmap b.toNat = false := by
  have hk' : k < s.inode_table.length := by rw [hs.table_len]; exact hk
  have htbl := fs_delete_table cfg s f k hs.mounted hv1 hv2 hk hmatch hfirst
  have hperm := owned_perm s.inode_table k hk'
  have hrange := hs.range b (hperm.mem_iff.2 (List.mem_append_left _ hb))
  have h0 : (0 : Int) ≤ (DATA_BLOCK_START : Int) := Int.natCast_nonneg _
  have hcast : ((b.toNat : Nat) : Int) = b := Int.toNat_of_nonneg (by omega)
  have hlt : b.toNat < cfg.MAX_BLOCKS := by omega
  have hnd : (own (s.inode_table.getD k no_inode) ++ rest s.inode_table k).Nodup :=
    hperm.nodup_iff.1 hs.excl
  rw [List.nodup_append] at hnd
  have hs3 := inv_delete cfg hc s hs (some f)
  refine ⟨⟨{ s.inode_table.getD k no_inode with used := false }, ?_, ?_⟩, hlt, hcast, ?_⟩
  · rw [htbl]
    have := getD_mem_table (s.inode_table.set k
      { s.inode_table.getD k no_inode with used := false }) k (by rw [List.length_set]; exact hk')
    rw [getD_set_eq _ _ _ _ hk'] at this
    exact this
  · unfold own assigned at hb
    rw [if_pos hmatch.1] at hb
    exact (List.mem_filter.1 hb).1
  · cases hbit : bit_test (fs_delete cfg (some f) s).2.bitmap b.toNat with
    | false => rfl
    | true =>
      exfalso
      rcases (hs3.bits b.toNat hlt).1 hbit with h1 | h1
      · have : (DATA_BLOCK_START : Int) ≤ (b.toNat : Int) := by rw [hcast]; exact hrange.1
        have : DATA_BLOCK_START ≤ b.toNat := by exact_mod_cast this
        omega
      · rw [hcast, htbl] at h1
        have h2 := (owned_set_perm s.inode_table k
          { s.inode_table.getD k no_inode with used := false } hk').mem_iff.1 h1
        have hown : own { s.inode_table.getD k no_inode with used := false } = [] := by
          simp [own]
        rw [hown, List.nil_append] at h2
        exact hnd.2.2 hb h2

theorem data_block_ne_sentinel (b : Int) (h : (DATA_BLOCK_START : Int) ≤ b) : b ≠ -1 := by
  have h0 : (0 : Int) ≤ (DATA_BLOCK_START : Int) := Int.natCast_nonneg _
  omega

/-! ## Rejected calls -/

theorem fs_write_not_found (cfg : Config) (s : FS) (f dat : List Nat) (size : Int) (ev : Faults)
    (hm : 0 ≤ s.fs_fd) (h0 : 0 ≤ size) (hv : strlen f < cfg.MAX_FILENAME)
    (hnone : ∀ j, j < cfg.MAX_FILES → ¬ slot_matches cfg s.inode_table f j) :
    fs_write cfg (some f) (some dat) size ev s = (-1, s) := by
  unfold fs_write
  rw [if_neg (by omega)]
  simp only
  rw [if_neg (by omega)]
  rcases find_file_spec cfg s.inode_table f 0 cfg.MAX_FILES with ⟨h1, _⟩ | ⟨k, _, hk, _, hmatch, _⟩
  · rw [if_pos h1]
  · exact absurd hmatch (hnone k (by omega))

theorem fs_read_not_found (cfg : Config) (s : FS) (f : List Nat) (size : Int) (ev : Faults)
    (hm : 0 ≤ s.fs_fd) (h0 : 0 ≤ size) (hv : strlen f < cfg.MAX_FILENAME)
    (hnone : ∀ j, j < cfg.MAX_FILES → ¬ slot_matches cfg s.inode_table f j) :
    fs_read cfg (some f) false size ev s = (-1, []) := by
  unfold fs_read
  rw [if_neg (by omega)]
  simp only
  rw [if_neg (by
    intro h
    rcases h with h | h | h
    · exact Bool.noConfusion h
    · omega
    · omega)]
  rcases find_file_spec cfg s.inode_table f 0 cfg.MAX_FILES with ⟨h1, _⟩ | ⟨k, _, hk, _, hmatch, _⟩
  · rw [if_pos h1]
  · exact absurd hmatch (hnone k (by omega))

/-- The argument checks that the four operations do make: `fs_create` and `fs_delete` reject
an empty or oversized name, `fs_write` and `fs_read` reject an oversized name and a negative
size; the state stays as it is. -/
theorem invalid_arguments_rejected (cfg : Config) (s : FS) (f : List Nat) (hm : 0 ≤ s.fs_fd) :
    (strlen f = 0 ∨ strlen f ≥ cfg.MAX_FILENAME →
      fs_create cfg (some f) s = (-3, s) ∧ fs_delete cfg (some f) s = (-2, s)) ∧
    (∀ (data : Option (List Nat)) (size : Int) (ev : Faults) (buffer_null : Bool),
      size < 0 ∨ strlen f ≥ cfg.MAX_FILENAME →
      fs_write cfg (some f) data size ev s = (-3, s) ∧
      fs_read cfg (some f) buffer_null size ev s = (-3, [])) := by
  have hfd : ¬ s.fs_fd < 0 := by omega
  refine ⟨fun h => ⟨?_, ?_⟩, fun data size ev buffer_null h => ⟨?_, ?_⟩⟩
  · unfold fs_create
    rw [if_neg hfd]
    simp only
    rw [if_pos h]
  · unfold fs_delete
    rw [if_neg hfd]
    simp only
    rw [if_pos h]
  · unfold fs_write
    rw [if_neg hfd]
    cases data with
    | none => rfl
    | some dat =>
      simp only
      rw [if_pos h]
  · unfold fs_read
    rw [if_neg hfd]
    simp only
    rw [if_pos (Or.inr h)]

/-! ## Calls without a mount -/

theorem not_mounted_calls (cfg : Config) (s : FS) (h : s.fs_fd < 0)
    (filename data : Option (List Nat)) (size max_files : Int)
    (buffer_null filenames_null : Bool) (ev : Faults) :
    fs_create cfg filename s = (-3, s) ∧ fs_delete cfg filename s = (-2, s) ∧
    fs_list cfg filenames_null max_files s = (-1, []) ∧
    fs_write cfg filename data size ev s = (-3, s) ∧
    fs_read cfg filename buffer_null size ev s = (-3, []) := by
  refine ⟨?_, ?_, ?_, ?_, ?_⟩
  · unfold fs_create; rw [if_pos h]
  · unfold fs_delete; rw [if_pos h]
  · unfold fs_list; rw [if_pos h]
  · unfold fs_write; rw [if_pos h]
  · unfold fs_read; rw [if_pos h]

/-! ## A mount that fails the validation -/

theorem fs_mount_mismatch (cfg : Config) (s : FS) (path : List Nat) (ev : Faults)
    (r : superblock) (hdisk : s.disk.sb = some r)
    (hbad : r.total_blocks ≠ cfg.MAX_BLOCKS ∨ r.block_size ≠ cfg.BLOCK_SIZE ∨
      r.total_inodes ≠ cfg.MAX_FILES) :
    (fs_mount cfg (some path) ev s).1 = -1 ∧
    ((ev 0).isSome = true ∨ ev 1 = none → (fs_mount cfg (some path) ev s).2.fs_fd = -1) ∧
    (fs_mount cfg (some path) ev s).2.bitmap = s.bitmap ∧
    (fs_mount cfg (some path) ev s).2.inode_table = s.inode_table ∧
    (fs_mount cfg (some path) ev s).2.disk = s.disk ∧
    (fs_mount cfg (some path) ev s).2.sb =
      if (ev 0).isSome = true ∨ (ev 1).isSome = true ∨ (ev 2).isSome = true then s.sb
      else r := by
  unfold fs_mount
  simp only
  by_cases h0 : (ev 0).isSome = true
  · rw [if_pos h0, if_pos (Or.inl h0)]
    exact ⟨rfl, fun _ => rfl, rfl, rfl, rfl, rfl⟩
  rw [if_neg h0]
  by_cases h1 : (ev 1).isSome = true
  · rw [if_pos h1, if_pos (Or.inr (Or.inl h1))]
    refine ⟨rfl, fun hs => ?_, rfl, rfl, rfl, rfl⟩
    rcases hs with hs | hs
    · exact absurd hs h0
    · rw [hs] at h1
      exact absurd h1 (by decide)
  rw [if_neg h1]
  by_cases h2 : (ev 2).isSome = true
  · rw [if_pos h2, if_pos (Or.inr (Or.inr h2))]
    exact ⟨rfl, fun _ => rfl, rfl, rfl, rfl, rfl⟩
  rw [if_neg h2, hdisk]
  simp only
  rw [if_pos hbad, if_neg (by tauto)]
  exact ⟨rfl, fun _ => rfl, rfl, rfl, rfl, rfl⟩

/-! ## What a create does, slot by slot -/

theorem find_free_first (tbl : List inode) (n k : Nat) (hk : k < n)
    (hfree : (tbl.getD k no_inode).used = false)
    (hfirst : ∀ j, j < k → (tbl.getD j no_inode).used = true) :
    find_free tbl 0 n = (k : Int) := by
  rcases find_free_spec tbl 0 n with ⟨_, h2⟩ | ⟨k', _, h2, h3, h4, h5⟩
  · have := h2 k (by omega) (by omega)
    rw [hfree] at this
    exact Bool.noConfusion this
  · rw [h3]
    have : k' = k := by
      rcases Nat.lt_trichotomy k' k with h | h | h
      · have := hfirst k' h
        rw [h4] at this
        exact Bool.noConfusion this
      · exact h
      · have := h5 k (by omega) h
        rw [hfree] at this
        exact Bool.noConfusion this
    rw [this]

theorem find_file_none (cfg : Config) (tbl : List inode) (f : List Nat) (n : Nat)
    (hnone : ∀ j, j < n → ¬ slot_matches cfg tbl f j) : find_file cfg tbl f 0 n = -1 := by
  rcases find_file_spec cfg tbl f 0 n with ⟨h1, _⟩ | ⟨k, _, hk, _, hmatch, _⟩
  · exact h1
  · exact absurd hmatch (hnone k (by omega))

/-- A create of a valid name that no used inode holds, on a full table. -/
theorem fs_create_full (cfg : Config) (s : FS) (f : List Nat) (hm : 0 ≤ s.fs_fd)
    (hv1 : strlen f ≠ 0) (hv2 : strlen f < cfg.MAX_FILENAME)
    (hnone : ∀ j, j < cfg.MAX_FILES → ¬ slot_matches cfg s.inode_table f j)
    (hfull : ∀ j, j < cfg.MAX_FILES → (s.inode_table.getD j no_inode).used = true) :
    fs_create cfg (some f) s = (-2, s) := by
  unfold fs_create
  rw [if_neg (by omega)]
  simp only
  rw [if_neg (by omega), find_file_none cfg _ f _ hnone, if_neg (by simp)]
  rcases find_free_spec s.inode_table 0 cfg.MAX_FILES with ⟨h1, _⟩ | ⟨k, _, hk, _, h4, _⟩
  · rw [if_pos h1]
  · have := hfull k (by omega)
    rw [h4] at this
    exact Bool.noConfusion this

/-- A create of a valid name that no used inode holds, the lowest unused slot being `k`. -/
theorem fs_create_slot (cfg : Config) (s : FS) (f : List Nat) (hm : 0 ≤ s.fs_fd)
    (hv1 : strlen f ≠ 0) (hv2 : strlen f < cfg.MAX_FILENAME)
    (hnone : ∀ j, j < cfg.MAX_FILES → ¬ slot_matches cfg s.inode_table f j)
    (k : Nat) (hk : k < cfg.MAX_FILES) (hfree : (s.inode_table.getD k no_inode).used = false)
    (hfirst : ∀ j, j < k → (s.inode_table.getD j no_inode).used = true) :
    fs_create cfg (some f) s =
      (0, { s with
            inode_table := s.inode_table.set k
              { used := true
                name := (strncpy f cfg.MAX_FILENAME).set (cfg.MAX_FILENAME - 1) 0
                size := 0
                blocks := create_fill_loop 0 cfg.MAX_DIRECT_BLOCKS
                  (s.inode_table.getD k no_inode).blocks }
            sb := { s.sb with free_inodes := wrap32 (s.sb.free_inodes - 1) } }) := by
  unfold fs_create
  rw [if_neg (by omega)]
  simp only
  rw [if_neg (by omega), find_file_none cfg _ f _ hnone, if_neg (by simp),
    find_free_first _ _ k hk hfree hfirst, if_neg (by omega), Int.toNat_ofNat]

/-- Whatever the arguments, a create that returns `0` has claimed one unused slot. -/
theorem fs_create_unused_count (cfg : Config) (s : FS) (filename : Option (List Nat))
    (hlen : s.inode_table.length = cfg.MAX_FILES) (hok : (fs_create cfg filename s).1 = 0) :
    unused_count (fs_create cfg filename s).2.inode_table + 1 = unused_count s.inode_table := by
  unfold fs_create at hok ⊢
  by_cases hfd : s.fs_fd < 0
  · rw [if_pos hfd] at hok; simp at hok
  rw [if_neg hfd] at hok ⊢
  cases filename with
  | none => simp at hok
  | some f =>
    simp only at hok ⊢
    by_cases hval : strlen f = 0 ∨ strlen f ≥ cfg.MAX_FILENAME
    · rw [if_pos hval] at hok; simp at hok
    rw [if_neg hval] at hok ⊢
    by_cases hfind : find_file cfg s.inode_table f 0 cfg.MAX_FILES ≠ -1
    · rw [if_pos hfind] at hok; simp at hok
    rw [if_neg hfind] at hok ⊢
    by_cases hfree : find_free s.inode_table 0 cfg.MAX_FILES = -1
    · rw [if_pos hfree] at hok; simp at hok
    rw [if_neg hfree]
    rcases find_free_spec s.inode_table 0 cfg.MAX_FILES with ⟨h1, _⟩ | ⟨k, _, hk, hidx, hun, _⟩
    · exact absurd h1 hfree
    rw [hidx, Int.toNat_ofNat]
    simp only
    have := unused_count_set s.inode_table k
      { used := true
        name := (strncpy f cfg.MAX_FILENAME).set (cfg.MAX_FILENAME - 1) 0
        size := 0
        blocks := create_fill_loop 0 cfg.MAX_DIRECT_BLOCKS
          (s.inode_table.getD k no_inode).blocks } (by rw [hlen]; omega)
    rw [if_pos hun, if_neg (by simp)] at this
    omega

theorem fs_create_failed (cfg : Config) (s : FS) (filename : Option (List Nat))
    (hne : (fs_create cfg filename s).1 ≠ 0) : (fs_create cfg filename s).2 = s := by
  unfold fs_create at hne ⊢
  by_cases hfd : s.fs_fd < 0
  · rw [if_pos hfd]
  rw [if_neg hfd] at hne ⊢
  cases filename with
  | none => rfl
  | some f =>
    simp only at hne ⊢
    by_cases hval : strlen f = 0 ∨ strlen f ≥ cfg.MAX_FILENAME
    · rw [if_pos hval]
    rw [if_neg hval] at hne ⊢
    by_cases hfind : find_file cfg s.inode_table f 0 cfg.MAX_FILES ≠ -1
    · rw [if_pos hfind]
    rw [if_neg hfind] at hne ⊢
    by_cases hfree : find_free s.inode_table 0 cfg.MAX_FILES = -1
    · rw [if_pos hfree]
    rw [if_neg hfree] at hne
    simp at hne

theorem created_reachable (cfg : Config) (n : Nat) (s : FS) (h : Created cfg n s) :
    Reachable cfg s := by
  induction h with
  | fresh => exact Reachable.fresh
  | ok n s filename _ _ ih => exact Reachable.create s filename ih
  | failed n s filename _ _ ih => exact Reachable.create s filename ih

/-- After `n` successful creates on a fresh image, `MAX_FILES - n` slots are unused. -/
theorem created_unused_count (cfg : Config) (hc : cfg.sane) (n : Nat) (s : FS)
    (h : Created cfg n s) : unused_count s.inode_table + n = cfg.MAX_FILES := by
  induction h with
  | fresh =>
    rw [fresh_eq cfg hc]
    simp only
    rw [unused_count_replicate_empty]
    rfl
  | ok n s filename hprev hok ih =>
    have hs := inv_reachable cfg hc s (created_reachable cfg n s hprev)
    have := fs_create_unused_count cfg s filename hs.table_len hok
    omega
  | failed n s filename hprev hne ih =>
    rw [fs_create_failed cfg s filename hne]
    exact ih

theorem unused_count_zero (tbl : List inode) (h : unused_count tbl = 0) (j : Nat)
    (hj : j < tbl.length) : (tbl.getD j no_inode).used = true := by
  unfold unused_count at h
  rw [List.countP_eq_zero] at h
  have := h (tbl.getD j no_inode) (getD_mem_table tbl j hj)
  simpa using this

/-! ## Mounting a formatted image whose superblock was replaced -/

theorem mount_formatted_eq (cfg : Config) (h : cfg.sane) (r : superblock)
    (h1 : r.total_blocks = cfg.MAX_BLOCKS) (h2 : r.block_size = cfg.BLOCK_SIZE)
    (h3 : r.total_inodes = cfg.MAX_FILES) :
    fs_mount cfg (some image_path) noFaults
        (boot cfg { (fs_format cfg (some image_path) noFaults blank_disk).2 with sb := some r }) =
      (0, { fs_fd := 3
            sb := r
            bitmap := fresh_bitmap cfg
            inode_table := List.replicate cfg.MAX_FILES (empty_inode cfg)
            disk := ⟨DISK_SIZE cfg, fun _ => 0, some r, some (fresh_bitmap cfg),
              List.replicate cfg.MAX_FILES (empty_inode cfg)⟩ }) := by
  have hpos := disk_size_pos cfg h
  have hlt : ¬ ((DISK_SIZE cfg : Int) - 1 < 0) := by omega
  unfold fs_format
  simp only [noFaults, Option.isSome_none, Bool.false_eq_true, if_false, hlt, or_self,
    format_inode_loop_ok, List.nil_append, if_true]
  unfold fs_mount
  simp only [noFaults, Option.isSome_none, Bool.false_eq_true, if_false, boot, ne_eq,
    h1, h2, h3, not_true_eq_false, or_self]
  rw [mount_inode_loop_ok _ (empty_inode cfg) cfg.MAX_FILES 0 cfg.MAX_FILES rfl (by omega)]
  simp [fresh_bitmap]

theorem crafted_state_eq :
    fs_mount stdConfig (some image_path) noFaults (boot stdConfig crafted_disk) =
      (0, { fs_fd := 3
            sb := { fresh_sb stdConfig with free_inodes := INT_MIN }
            bitmap := fresh_bitmap stdConfig
            inode_table := List.replicate stdConfig.MAX_FILES (empty_inode stdConfig)
            disk := ⟨DISK_SIZE stdConfig, fun _ => 0,
              some { fresh_sb stdConfig with free_inodes := INT_MIN },
              some (fresh_bitmap stdConfig),
              List.replicate stdConfig.MAX_FILES (empty_inode stdConfig)⟩ }) :=
  mount_formatted_eq stdConfig (by decide) _ rfl rfl rfl

theorem replicate_empty_unused (cfg : Config) (m j : Nat) :
    ((List.replicate m (empty_inode cfg)).getD j no_inode).used = false := by
  by_cases hj : j < m
  · rw [List.getD_eq_getElem _ _ (by simpa using hj), List.getElem_replicate]
    rfl
  · rw [List.getD_eq_default _ _ (by simpa using hj)]
    rfl

/-! ## Listing -/

theorem cname_zeros_set (m j n : Nat) : cname ((List.replicate m 0).set j 0) n = [] := by
  cases n with
  | zero => rfl
  | succ n =>
    unfold cname
    have : ((List.replicate m 0).set j 0).headD 0 = 0 := by
      cases m with
      | zero => rfl
      | succ m =>
        cases j with
        | zero => rfl
        | succ j => rfl
    rw [if_pos this]

/-- The stored row, read as a C string, is the name of the slot. -/
theorem cname_list_row (a : List Nat) (n : Nat) :
    cname ((strncpy a n).set (n - 1) 0) n = cname a (n - 1) := by
  cases n with
  | zero => rfl
  | succ m =>
    rw [Nat.add_sub_cancel]
    induction m generalizing a with
    | zero =>
      unfold strncpy
      by_cases h : a.headD 0 = 0
      · rw [if_pos h]; rfl
      · rw [if_neg h]; rfl
    | succ m ih =>
      unfold strncpy
      by_cases h : a.headD 0 = 0
      · rw [if_pos h, cname_zeros_set]
        unfold cname
        rw [if_pos h]
      · rw [if_neg h, List.set_cons_succ]
        conv_lhs => unfold cname
        conv_rhs => unfold cname
        rw [List.headD_cons, if_neg h, if_neg h, List.tail_cons, ih]

theorem list_loop_spec (cfg : Config) (tbl : List inode) (max_files : Int) (n i : Nat)
    (out : List (List Nat)) (hlen : tbl.length = i + n) (hout : (out.length : Int) < max_files) :
    list_loop cfg tbl max_files i n out =
      out ++ (((tbl.drop i).filter (fun nd => nd.used)).map (list_row cfg)).take
        (max_files.toNat - out.length) := by
  induction n generalizing i out with
  | zero =>
    rw [List.drop_eq_nil_of_le (by omega)]
    simp [list_loop]
  | succ n ih =>
    have hi : i < tbl.length := by omega
    unfold list_loop
    rw [List.drop_eq_getElem_cons hi, List.getD_eq_getElem _ _ hi]
    by_cases hu : tbl[i].used = true
    · rw [if_pos hu, List.filter_cons_of_pos hu, List.map_cons]
      simp only
      have hpos : max_files.toNat - out.length = (max_files.toNat - out.length - 1) + 1 := by
        omega
      rw [hpos, List.take_succ_cons]
      by_cases hfull : ((out ++ [list_row cfg tbl[i]]).length : Int) = max_files
      · have hz : max_files.toNat - out.length - 1 = 0 := by
          rw [List.length_append, List.length_singleton] at hfull
          omega
        rw [hz, List.take_zero]
        exact if_pos hfull
      · have hstep := ih (i + 1) (out ++ [list_row cfg tbl[i]]) (by omega) (by
          rw [List.length_append, List.length_singleton] at hfull ⊢
          push_cast at hfull ⊢
          omega)
        rw [List.length_append, List.length_singleton] at hstep
        have hsub : max_files.toNat - (out.length + 1) = max_files.toNat - out.length - 1 := by
          omega
        rw [hsub, List.append_assoc, List.singleton_append] at hstep
        rw [← hstep]
        exact if_neg hfull
    · rw [if_neg hu, List.filter_cons_of_neg hu]
      exact ih (i + 1) out (by omega) hout

/-- The rows and the count `fs_list` produces in a mounted state, for a positive limit. -/
theorem fs_list_spec (cfg : Config) (s : FS) (limit : Int) (hm : 0 ≤ s.fs_fd)
    (hlen : s.inode_table.length = cfg.MAX_FILES) (hl : 0 < limit) :
    fs_list cfg false limit s =
      ((((used_slots s.inode_table).take limit.toNat).length : Int),
        ((used_slots s.inode_table).take limit.toNat).map (list_row cfg)) := by
  unfold fs_list
  rw [if_neg (by omega), if_neg (by
    intro h
    rcases h with h | h
    · exact Bool.noConfusion h
    · omega)]
  simp only
  rw [list_loop_spec cfg s.inode_table limit cfg.MAX_FILES 0 [] (by omega) (by simpa using hl)]
  simp only [List.drop_zero, List.nil_append, List.length_nil, Nat.sub_zero, List.length_take,
    List.length_map, List.map_take]
  rfl

/-! ## Unmount, then mount -/

theorem unmount_inode_loop_spec (tbl : List inode) (n i : Nat) (recs : List inode)
    (hinv : recs.take i = tbl.take i) (hi : i ≤ recs.length) (hin : i + n ≤ tbl.length) :
    unmount_inode_loop noFaults tbl i n recs = tbl.take (i + n) ++ recs.drop (i + n) := by
  induction n generalizing i recs with
  | zero =>
    rw [Nat.add_zero, ← hinv, List.take_append_drop]
    rfl
  | succ n ih =>
    have hlt : i < tbl.length := by omega
    unfold unmount_inode_loop
    simp only [noFaults, Option.isSome_none, Bool.false_eq_true, if_false]
    rw [List.getD_eq_getElem _ _ hlt]
    have hlen : (recs.take i).length = i := by rw [List.length_take]; omega
    rw [ih (i + 1) _ ?_ ?_ (by omega)]
    · have hd : (recs.take i ++ tbl[i] :: recs.drop (i + 1)).drop (i + 1 + n) =
          recs.drop (i + (n + 1)) := by
        rw [List.drop_append_eq_append_drop, hlen, List.drop_eq_nil_of_le (by rw [hlen]; omega),
          List.nil_append]
        have : i + 1 + n - i = n + 1 := by omega
        rw [this, List.drop_succ_cons, List.drop_drop]
        congr 1
        omega
      rw [hd]
      congr 1
      congr 1
      omega
    · rw [List.take_append_eq_append_take, hlen, List.take_of_length_le (by rw [hlen]; omega)]
      have : i + 1 - i = 1 := by omega
      rw [this, hinv]
      simp only [List.take_succ_cons, List.take_zero]
      rw [List.take_succ, List.getElem?_eq_getElem hlt]
      rfl
    · rw [List.length_append, hlen, List.length_cons]
      omega

theorem set_same {α : Type} (l : List α) (i : Nat) (h : i < l.length) :
    l.set i l[i] = l := by
  induction l generalizing i with
  | nil => rfl
  | cons a l ih =>
    cases i with
    | zero => rfl
    | succ i =>
      simp only [List.set_cons_succ, List.getElem_cons_succ]
      rw [ih]

theorem mount_inode_loop_same (d : Disk) (tbl : List inode) (n i : Nat)
    (hd : ∀ j, j < tbl.length → d.inodes.get? j = tbl.get? j) (hin : i + n ≤ tbl.length) :
    mount_inode_loop noFaults d i n tbl = (true, tbl) := by
  induction n generalizing i with
  | zero => rfl
  | succ n ih =>
    have hlt : i < tbl.length := by omega
    unfold mount_inode_loop
    simp only [noFaults, Option.isSome_none, Bool.false_eq_true, if_false]
    rw [hd i hlt, List.get?_eq_getElem?, List.getElem?_eq_getElem hlt]
    simp only
    rw [set_same]
    exact ih (i + 1) (by omega)

/-- The state after `fs_unmount` and `fs_mount` without I/O failure: descriptor open, the
cached superblock, bitmap and inode table as before the unmount, the image holding them. -/
theorem remount_eq (cfg : Config) (s : FS) (path : List Nat) (hm : 0 ≤ s.fs_fd)
    (hlen : s.inode_table.length = cfg.MAX_FILES)
    (h1 : s.sb.total_blocks = cfg.MAX_BLOCKS) (h2 : s.sb.block_size = cfg.BLOCK_SIZE)
    (h3 : s.sb.total_inodes = cfg.MAX_FILES) :
    fs_mount cfg (some path) noFaults (fs_unmount cfg noFaults s) =
      (0, { fs_fd := 3
            sb := s.sb
            bitmap := s.bitmap
            inode_table := s.inode_table
            disk := { s.disk with
                      sb := some s.sb
                      bitmap := some s.bitmap
                      inodes := s.inode_table ++ s.disk.inodes.drop cfg.MAX_FILES } }) := by
  have hloop := unmount_inode_loop_spec s.inode_table cfg.MAX_FILES 0 s.disk.inodes rfl
    (Nat.zero_le _) (by omega)
  rw [Nat.zero_add, List.take_of_length_le (by omega)] at hloop
  unfold fs_unmount
  simp only [noFaults, Option.isNone_none, and_self, if_true, hm, hloop]
  unfold fs_mount
  simp only [noFaults, Option.isSome_none, Bool.false_eq_true, if_false, ne_eq, h1, h2, h3,
    not_true_eq_false, or_self]
  rw [mount_inode_loop_same _ s.inode_table cfg.MAX_FILES 0 (fun j hj => by
    simp only [List.get?_eq_getElem?]
    rw [List.getElem?_append_left hj]) (by omega)]
  rfl

theorem mount_inode_loop_length (ev : Faults) (d : Disk) (n i : Nat) (tbl : List inode) :
    (mount_inode_loop ev d i n tbl).2.length = tbl.length := by
  induction n generalizing i tbl with
  | zero => rfl
  | succ n ih =>
    unfold mount_inode_loop
    split
    · rfl
    · rw [ih, List.length_set]

/-- What a mount that returns `0` establishes: the descriptor is open and the three
validated superblock fields equal the constants; the table keeps its number of slots. -/
theorem fs_mount_ok (cfg : Config) (s : FS) (path : Option (List Nat)) (ev : Faults)
    (hok : (fs_mount cfg path ev s).1 = 0) :
    0 ≤ (fs_mount cfg path ev s).2.fs_fd ∧
    (fs_mount cfg path ev s).2.sb.total_blocks = cfg.MAX_BLOCKS ∧
    (fs_mount cfg path ev s).2.sb.block_size = cfg.BLOCK_SIZE ∧
    (fs_mount cfg path ev s).2.sb.total_inodes = cfg.MAX_FILES ∧
    (fs_mount cfg path ev s).2.inode_table.length = s.inode_table.length := by
  unfold fs_mount at hok ⊢
  cases path with
  | none => simp at hok
  | some p =>
    simp only at hok ⊢
    by_cases h0 : (ev 0).isSome = true
    · rw [if_pos h0] at hok; simp at hok
    rw [if_neg h0] at hok ⊢
    by_cases h1 : (ev 1).isSome = true
    · rw [if_pos h1] at hok; simp at hok
    rw [if_neg h1] at hok ⊢
    cases hsb : (if (ev 2).isSome = true then none else s.disk.sb) with
    | none => rw [hsb] at hok; simp at hok
    | some r =>
      rw [hsb] at hok
      simp only at hok ⊢
      by_cases hbad : r.total_blocks ≠ cfg.MAX_BLOCKS ∨ r.block_size ≠ cfg.BLOCK_SIZE ∨
          r.total_inodes ≠ cfg.MAX_FILES
      · rw [if_pos hbad] at hok; simp at hok
      rw [if_neg hbad] at hok ⊢
      by_cases h3 : (ev 3).isSome = true
      · rw [if_pos h3] at hok; simp at hok
      rw [if_neg h3] at hok ⊢
      cases hbm : (if (ev 4).isSome = true then none else s.disk.bitmap) with
      | none => rw [hbm] at hok; simp at hok
      | some bm =>
        rw [hbm] at hok
        simp only at hok ⊢
        by_cases h5 : (ev 5).isSome = true
        · rw [if_pos h5] at hok; simp at hok
        rw [if_neg h5] at hok ⊢
        by_cases hl : (mount_inode_loop ev s.disk 0 cfg.MAX_FILES s.inode_table).1 = true
        · rw [if_pos hl]
          simp only
          refine ⟨by decide, ?_, ?_, ?_, mount_inode_loop_length _ _ _ _ _⟩
          · by_contra h; exact hbad (Or.inl h)
          · by_contra h; exact hbad (Or.inr (Or.inl h))
          · by_contra h; exact hbad (Or.inr (Or.inr h))
        · rw [if_neg hl] at hok; simp at hok

/-! ## Names held by used inodes are valid -/

theorem strlen_of_head_zero (a : List Nat) (h : a.headD 0 = 0) : strlen a = 0 := by
  cases a with
  | nil => rfl
  | cons c cs =>
    simp only [List.headD_cons] at h
    simp [strlen, h]

theorem cname_length (a : List Nat) (n : Nat) : (cname a n).length = min (strlen a) n := by
  induction n generalizing a with
  | zero => simp [cname]
  | succ n ih =>
    unfold cname
    by_cases h : a.headD 0 = 0
    · rw [if_pos h, strlen_of_head_zero a h]
      simp
    · rw [if_neg h, List.length_cons, ih, strlen_pos_tail a h]
      omega

/-- A name that compares equal to a valid stored name is valid. -/
theorem valid_of_match (a f : List Nat) (n : Nat) (h : strncmp a f n = 0)
    (h1 : strlen a ≠ 0) (h2 : strlen a < n) : strlen f ≠ 0 ∧ strlen f < n := by
  rw [strncmp_eq_zero_iff] at h
  have ha := cname_length a n
  have hf := cname_length f n
  rw [h] at ha
  omega

theorem strlen_stored (f : List Nat) (n : Nat) (h : strlen f < n) :
    strlen ((strncpy f n).set (n - 1) 0) = strlen f := by
  have h1 := cname_length ((strncpy f n).set (n - 1) 0) n
  have h2 := cname_length f n
  rw [strncpy_set_last f n h, cname_strncpy] at h1
  rw [strncpy_set_last f n h]
  have h3 : strlen (strncpy f n) ≤ n := by
    clear h1 h2 h
    induction n generalizing f with
    | zero => simp [strncpy, strlen]
    | succ n ih =>
      unfold strncpy
      by_cases hh : f.headD 0 = 0
      · rw [if_pos hh, strlen_of_head_zero _ (by simp [List.replicate_succ])]
        omega
      · rw [if_neg hh]
        simp only [strlen, hh, if_false]
        have := ih f.tail
        omega
  omega

/-- Used flag and name of every slot after a write: as before. -/
theorem fs_write_slot_name (cfg : Config) (s : FS) (hlen : s.inode_table.length = cfg.MAX_FILES)
    (filename data : Option (List Nat)) (size : Int) (ev : Faults) (j : Nat) :
    ((fs_write cfg filename data size ev s).2.inode_table.getD j no_inode).used =
      (s.inode_table.getD j no_inode).used ∧
    ((fs_write cfg filename data size ev s).2.inode_table.getD j no_inode).name =
      (s.inode_table.getD j no_inode).name := by
  unfold fs_write
  by_cases hfd : s.fs_fd < 0
  · rw [if_pos hfd]; exact ⟨rfl, rfl⟩
  rw [if_neg hfd]
  cases filename with
  | none => exact ⟨rfl, rfl⟩
  | some g =>
    cases data with
    | none => exact ⟨rfl, rfl⟩
    | some dat =>
      simp only
      by_cases hval : size < 0 ∨ strlen g ≥ cfg.MAX_FILENAME
      · rw [if_pos hval]; exact ⟨rfl, rfl⟩
      rw [if_neg hval]
      by_cases hfind : find_file cfg s.inode_table g 0 cfg.MAX_FILES = -1
      · rw [if_pos hfind]; exact ⟨rfl, rfl⟩
      rw [if_neg hfind]
      by_cases hsp : required_blocks cfg size > cfg.MAX_DIRECT_BLOCKS ∨
          required_blocks cfg size > s.sb.free_blocks
      · rw [if_pos hsp]; exact ⟨rfl, rfl⟩
      rw [if_neg hsp]
      obtain ⟨k, _, hk, hidx, _, _⟩ := find_file_pos cfg s.inode_table g 0 cfg.MAX_FILES hfind
      rw [hidx, Int.toNat_ofNat]
      have hk' : k < s.inode_table.length := by rw [hlen]; omega
      dsimp only
      rw [table_getD_set _ _ _ _ hk']
      by_cases hjk : j = k
      · rw [if_pos hjk, hjk]; exact ⟨rfl, rfl⟩
      · rw [if_neg hjk]; exact ⟨rfl, rfl⟩

/-- Used flag and name of every slot after a delete: the name as before, no slot newly used. -/
theorem fs_delete_slot_name (cfg : Config) (s : FS) (hlen : s.inode_table.length = cfg.MAX_FILES)
    (filename : Option (List Nat)) (j : Nat) :
    (((fs_delete cfg filename s).2.inode_table.getD j no_inode).used = true →
      (s.inode_table.getD j no_inode).used = true) ∧
    ((fs_delete cfg filename s).2.inode_table.getD j no_inode).name =
      (s.inode_table.getD j no_inode).name := by
  unfold fs_delete
  by_cases hfd : s.fs_fd < 0
  · rw [if_pos hfd]; exact ⟨id, rfl⟩
  rw [if_neg hfd]
  cases filename with
  | none => exact ⟨id, rfl⟩
  | some g =>
    simp only
    by_cases hval : strlen g = 0 ∨ strlen g ≥ cfg.MAX_FILENAME
    · rw [if_pos hval]; exact ⟨id, rfl⟩
    rw [if_neg hval]
    by_cases hfind : find_file cfg s.inode_table g 0 cfg.MAX_FILES = -1
    · rw [if_pos hfind]; exact ⟨id, rfl⟩
    rw [if_neg hfind]
    obtain ⟨k, _, hk, hidx, _, _⟩ := find_file_pos cfg s.inode_table g 0 cfg.MAX_FILES hfind
    rw [hidx, Int.toNat_ofNat]
    have hk' : k < s.inode_table.length := by rw [hlen]; omega
    dsimp only
    rw [table_getD_set _ _ _ _ hk']
    by_cases hjk : j = k
    · rw [if_pos hjk, hjk]
      exact ⟨fun h => Bool.noConfusion h, rfl⟩
    · rw [if_neg hjk]; exact ⟨id, rfl⟩

/-- Used flag and name of every slot after a create: a slot that is used afterwards was used
before with the same name, or holds a valid name. -/
theorem fs_create_slot_name (cfg : Config) (s : FS) (hlen : s.inode_table.length = cfg.MAX_FILES)
    (filename : Option (List Nat)) (j : Nat)
    (hu : ((fs_create cfg filename s).2.inode_table.getD j no_inode).used = true) :
    ((s.inode_table.getD j no_inode).used = true ∧
      ((fs_create cfg filename s).2.inode_table.getD j no_inode).name =
        (s.inode_table.getD j no_inode).name) ∨
    (strlen ((fs_create cfg filename s).2.inode_table.getD j no_inode).name ≠ 0 ∧
      strlen ((fs_create cfg filename s).2.inode_table.getD j no_inode).name <
        cfg.MAX_FILENAME) := by
  unfold fs_create at hu ⊢
  by_cases hfd : s.fs_fd < 0
  · rw [if_pos hfd] at hu ⊢; exact Or.inl ⟨hu, rfl⟩
  rw [if_neg hfd] at hu ⊢
  cases filename with
  | none => exact Or.inl ⟨hu, rfl⟩
  | some f =>
    simp only at hu ⊢
    by_cases hval : strlen f = 0 ∨ strlen f ≥ cfg.MAX_FILENAME
    · rw [if_pos hval] at hu ⊢; exact Or.inl ⟨hu, rfl⟩
    rw [if_neg hval] at hu ⊢
    by_cases hfind : find_file cfg s.inode_table f 0 cfg.MAX_FILES ≠ -1
    · rw [if_pos hfind] at hu ⊢; exact Or.inl ⟨hu, rfl⟩
    rw [if_neg hfind] at hu ⊢
    by_cases hfree : find_free s.inode_table 0 cfg.MAX_FILES = -1
    · rw [if_pos hfree] at hu ⊢; exact Or.inl ⟨hu, rfl⟩
    rw [if_neg hfree] at hu ⊢
    rcases find_free_spec s.inode_table 0 cfg.MAX_FILES with ⟨h1, _⟩ | ⟨k, _, hk, hidx, _, _⟩
    · exact absurd h1 hfree
    rw [hidx, Int.toNat_ofNat] at hu ⊢
    have hk' : k < s.inode_table.length := by rw [hlen]; omega
    dsimp only at hu ⊢
    rw [table_getD_set _ _ _ _ hk'] at hu ⊢
    by_cases hjk : j = k
    · rw [if_pos hjk]
      right
      dsimp only
      rw [strlen_stored f _ (by omega)]
      omega
    · rw [if_neg hjk] at hu ⊢
      exact Or.inl ⟨hu, rfl⟩

/-- In every reachable state the name field of a used inode holds a valid name. -/
theorem reachable_names_valid (cfg : Config) (hc : cfg.sane) (s : FS) (h : Reachable cfg s)
    (j : Nat) (hu : (s.inode_table.getD j no_inode).used = true) :
    strlen (s.inode_table.getD j no_inode).name ≠ 0 ∧
    strlen (s.inode_table.getD j no_inode).name < cfg.MAX_FILENAME := by
  induction h generalizing j with
  | fresh =>
    rw [fresh_eq cfg hc] at hu
    simp only at hu
    by_cases hj : j < cfg.MAX_FILES
    · rw [List.getD_eq_getElem _ _ (by simpa using hj), List.getElem_replicate] at hu
      exact Bool.noConfusion hu
    · rw [List.getD_eq_default _ _ (by simpa using hj)] at hu
      exact Bool.noConfusion hu
  | create s filename hprev ih =>
    have hs := inv_reachable cfg hc s hprev
    rcases fs_create_slot_name cfg s hs.table_len filename j hu with ⟨h1, h2⟩ | h2
    · rw [h2]; exact ih j h1
    · exact h2
  | write s filename data size ev hprev _ _ ih =>
    have hs := inv_reachable cfg hc s hprev
    obtain ⟨h1, h2⟩ := fs_write_slot_name cfg s hs.table_len filename data size ev j
    rw [h2]
    exact ih j (by rw [← h1]; exact hu)
  | delete s filename hprev ih =>
    have hs := inv_reachable cfg hc s hprev
    obtain ⟨h1, h2⟩ := fs_delete_slot_name cfg s hs.table_len filename j
    rw [h2]
    exact ih j (h1 hu)

/-! ## What a delete does -/

theorem fs_delete_not_found (cfg : Config) (s : FS) (f : List Nat)
    (hm : 0 ≤ s.fs_fd) (hv1 : strlen f ≠ 0) (hv2 : strlen f < cfg.MAX_FILENAME)
    (hnone : ∀ j, j < cfg.MAX_FILES → ¬ slot_matches cfg s.inode_table f j) :
    fs_delete cfg (some f) s = (-1, s) := by
  unfold fs_delete
  rw [if_neg (by omega)]
  simp only
  rw [if_neg (by omega), find_file_none cfg _ f _ hnone, if_pos rfl]

/-- In a state that satisfies the invariant, the used slot that holds a name is the first
and only slot that matches it. -/
theorem match_unique (cfg : Config) (s : FS) (hs : Inv cfg s) (f : List Nat) (k j : Nat)
    (hk : k < cfg.MAX_FILES) (hj : j < cfg.MAX_FILES)
    (hmk : slot_matches cfg s.inode_table f k) (hmj : slot_matches cfg s.inode_table f j) :
    j = k := by
  apply hs.names j k (by rw [hs.table_len]; exact hj) (by rw [hs.table_len]; exact hk)
    hmj.1 hmk.1
  exact strncmp_trans _ _ _ _ hmj.2 (strncmp_symm _ _ _ hmk.2)

/-- The state after deleting the file held by slot `k`. -/
theorem fs_delete_spec (cfg : Config) (hc : cfg.sane) (s : FS) (hs : Inv cfg s) (f : List Nat)
    (hv1 : strlen f ≠ 0) (hv2 : strlen f < cfg.MAX_FILENAME) (k : Nat) (hk : k < cfg.MAX_FILES)
    (hmatch : slot_matches cfg s.inode_table f k) :
    fs_delete cfg (some f) s =
      (0, { s with
            bitmap := clear_list s.bitmap (assigned (s.inode_table.getD k no_inode))
            inode_table := s.inode_table.set k { s.inode_table.getD k no_inode with used := false }
            sb := { s.sb with
                    free_blocks := s.sb.free_blocks +
                      (assigned (s.inode_table.getD k no_inode)).length
                    free_inodes := s.sb.free_inodes + 1 } }) := by
  have hk' : k < s.inode_table.length := by rw [hs.table_len]; exact hk
  have hfirst : ∀ j, j < k → ¬ slot_matches cfg s.inode_table f j := by
    intro j hj hmj
    have := match_unique cfg s hs f k j hk (by omega) hmatch hmj
    omega
  obtain ⟨hseg, _, _, _, _, hfb, _, _⟩ := release_spec cfg hc s hs k hk' hmatch.1
  have hown : own (s.inode_table.getD k no_inode) = assigned (s.inode_table.getD k no_inode) := by
    unfold own; rw [if_pos hmatch.1]
  rw [hown] at hseg hfb
  obtain ⟨h1, _, h3⟩ := delete_free_loop_spec 0 cfg.MAX_DIRECT_BLOCKS
    ⟨s.bitmap, s.sb.free_blocks, (s.inode_table.getD k no_inode).blocks⟩
  simp only [hseg] at h1 h3
  have hmax := max_blocks_le cfg hc
  have hmf := max_files_le cfg hc
  have h0 : (0 : Int) ≤ (DATA_BLOCK_START : Int) := Int.natCast_nonneg _
  have hfree := h3 (by rw [hs.free_blocks]; unfold INT_MIN; have := free_blocks_nonneg cfg hc s hs
                       rw [hs.free_blocks] at this; omega) (by omega)
  have hle := unused_count_le s.inode_table
  rw [hs.table_len] at hle
  have hcnt := unused_count_set s.inode_table k
    { s.inode_table.getD k no_inode with used := false } hk'
  rw [if_neg (by rw [hmatch.1]; decide), if_pos rfl] at hcnt
  have hle2 := unused_count_le (s.inode_table.set k
    { s.inode_table.getD k no_inode with used := false })
  rw [List.length_set, hs.table_len] at hle2
  have hw : wrap32 (s.sb.free_inodes + 1) = s.sb.free_inodes + 1 := by
    apply wrap32_of_range
    · rw [hs.free_inodes]; unfold INT_MIN; omega
    · rw [hs.free_inodes]; omega
  unfold fs_delete
  rw [if_neg (by have := hs.mounted; omega)]
  simp only
  rw [if_neg (by omega), find_file_first cfg _ f _ k hk hmatch hfirst, if_neg (by omega),
    Int.toNat_ofNat, h1, hfree, hw]

/-- After the delete no used inode holds the name. -/
theorem fs_delete_no_match (cfg : Config) (s : FS) (hs : Inv cfg s) (f : List Nat) (k : Nat)
    (hk : k < cfg.MAX_FILES) (hmatch : slot_matches cfg s.inode_table f k) (j : Nat)
    (hj : j < cfg.MAX_FILES) :
    ¬ slot_matches cfg
      (s.inode_table.set k { s.inode_table.getD k no_inode with used := false }) f j := by
  have hk' : k < s.inode_table.length := by rw [hs.table_len]; exact hk
  intro hmj
  unfold slot_matches at hmj
  rw [table_getD_set _ _ _ _ hk'] at hmj
  by_cases hjk : j = k
  · rw [if_pos hjk] at hmj
    exact Bool.noConfusion hmj.1
  · rw [if_neg hjk] at hmj
    exact hjk (match_unique cfg s hs f k j hk hj hmatch hmj)

/-! ## First-fit allocation -/

theorem filter_cast_ne_sentinel (l : List Nat) :
    (l.map (fun (x : Nat) => (x : Int))).filter (fun b => b ≠ -1) =
      l.map (fun (x : Nat) => (x : Int)) := by
  apply List.filter_eq_self.2
  intro b hb
  obtain ⟨x, _, rfl⟩ := List.mem_map.1 hb
  simp only [ne_eq, decide_not, Bool.not_eq_true', decide_eq_false_iff_not]
  omega

/-- The allocation of a write that returns `0` in a reachable state, in terms of the machine
value `required_blocks`: the file's entries are the blocks of `new_blocks` (the lowest free
data blocks once the file's old blocks are released), then `-1`, and `free_blocks` has grown
by the old blocks and shrunk by the new ones. -/
theorem fs_write_alloc (cfg : Config) (hc : cfg.sane) (s : FS) (h : Reachable cfg s)
    (f dat : List Nat) (size : Int) (ev : Faults)
    (hret : (fs_write cfg (some f) (some dat) size ev s).1 = 0) :
    ∃ k, k < cfg.MAX_FILES ∧ slot_matches cfg s.inode_table f k ∧
      ((fs_write cfg (some f) (some dat) size ev s).2.inode_table.getD k no_inode).blocks =
        (new_blocks cfg s k (required_blocks cfg size)).map (fun (x : Nat) => (x : Int)) ++
          List.replicate (cfg.MAX_DIRECT_BLOCKS -
            (new_blocks cfg s k (required_blocks cfg size)).length) (-1) ∧
      assigned ((fs_write cfg (some f) (some dat) size ev s).2.inode_table.getD k no_inode) =
        (new_blocks cfg s k (required_blocks cfg size)).map (fun (x : Nat) => (x : Int)) ∧
      (new_blocks cfg s k (required_blocks cfg size)).length =
        (required_blocks cfg size).toNat ∧
      new_blocks cfg s k (required_blocks cfg size) =
        (free_list (clear_list s.bitmap (assigned (s.inode_table.getD k no_inode)))
          DATA_BLOCK_START (cfg.MAX_BLOCKS - DATA_BLOCK_START)).take
            (required_blocks cfg size).toNat ∧
      (fs_write cfg (some f) (some dat) size ev s).2.sb.free_blocks =
        s.sb.free_blocks + (assigned (s.inode_table.getD k no_inode)).length -
          (new_blocks cfg s k (required_blocks cfg size)).length := by
  have hs := inv_reachable cfg hc s h
  obtain ⟨_, h0, hv, hex, hr1, hr2⟩ := fs_write_conditions cfg s f dat size ev hret
  obtain ⟨k, hk, hmatch, _, hlen, _, hfb, htbl, _, _⟩ :=
    fs_write_spec cfg hc s hs f dat size ev h0 hv hex hr1 hr2
  have hk' : k < s.inode_table.length := by rw [hs.table_len]; exact hk
  have hown : own (s.inode_table.getD k no_inode) = assigned (s.inode_table.getD k no_inode) := by
    unfold own; rw [if_pos hmatch.1]
  have hpl := (owned_perm s.inode_table k hk').length_eq
  rw [List.length_append, hown] at hpl
  refine ⟨k, hk, hmatch, ?_, ?_, hlen, ?_, ?_⟩
  · rw [htbl, getD_set_eq _ _ _ _ hk']
  · rw [htbl, getD_set_eq _ _ _ _ hk']
    unfold assigned
    dsimp only
    rw [List.filter_append, filter_replicate_sentinel, List.append_nil, filter_cast_ne_sentinel]
  · unfold new_blocks
    rw [hown]
  · rw [hfb, hs.free_blocks, hpl]
    push_cast
    omega

/-- First fit, for a size whose block count does not overflow: after a write that returns `0`
the file's blocks are the `r = ceil(size / BLOCK_SIZE)` lowest-indexed free data blocks found
once the file's old blocks are released, in ascending order, and `free_blocks` is its old
value plus the number of old blocks minus `r`. -/
theorem fs_write_first_fit (cfg : Config) (hc : cfg.sane) (s : FS) (h : Reachable cfg s)
    (f dat : List Nat) (size : Int) (ev : Faults)
    (hsz : size + cfg.BLOCK_SIZE - 1 ≤ INT_MAX)
    (hret : (fs_write cfg (some f) (some dat) size ev s).1 = 0) :
    ∃ k, k < cfg.MAX_FILES ∧ slot_matches cfg s.inode_table f k ∧
      assigned ((fs_write cfg (some f) (some dat) size ev s).2.inode_table.getD k no_inode) =
        ((free_list (clear_list s.bitmap (assigned (s.inode_table.getD k no_inode)))
          DATA_BLOCK_START (cfg.MAX_BLOCKS - DATA_BLOCK_START)).take
            ((size + cfg.BLOCK_SIZE - 1) / cfg.BLOCK_SIZE).toNat).map
          (fun (x : Nat) => (x : Int)) ∧
      (assigned ((fs_write cfg (some f) (some dat) size ev s).2.inode_table.getD k
        no_inode)).length = ((size + cfg.BLOCK_SIZE - 1) / cfg.BLOCK_SIZE).toNat ∧
      (fs_write cfg (some f) (some dat) size ev s).2.sb.free_blocks =
        s.sb.free_blocks + (assigned (s.inode_table.getD k no_inode)).length -
          (size + cfg.BLOCK_SIZE - 1) / cfg.BLOCK_SIZE := by
  obtain ⟨_, h0, _⟩ := fs_write_conditions cfg s f dat size ev hret
  obtain ⟨k, hk, hmatch, _, hasg, hlen, hnew, hfb⟩ :=
    fs_write_alloc cfg hc s h f dat size ev hret
  have hreq := required_blocks_eq cfg hc.1 size h0 hsz
  have hbs : (0 : Int) < (cfg.BLOCK_SIZE : Int) := by exact_mod_cast hc.1
  have hnn : 0 ≤ (size + cfg.BLOCK_SIZE - 1) / cfg.BLOCK_SIZE :=
    Int.ediv_nonneg (by omega) (by omega)
  rw [hreq] at hasg hlen hnew hfb
  refine ⟨k, hk, hmatch, ?_, ?_, ?_⟩
  · rw [hasg, hnew]
  · rw [hasg, List.length_map, hlen]
  · rw [hfb, hlen, Int.toNat_of_nonneg hnn]

theorem int_ne_sub (x c : Int) (h : 0 < c) : x ≠ x - c := by omega

/-- The allocation of a write whose size overflows the block count: no block at all. -/
theorem fs_write_overflow_alloc (cfg : Config) (hc : cfg.sane) (s : FS) (h : Reachable cfg s)
    (f dat : List Nat) (size : Int) (ev : Faults)
    (hlo : INT_MAX < size + cfg.BLOCK_SIZE - 1) (hhi : size ≤ INT_MAX)
    (hret : (fs_write cfg (some f) (some dat) size ev s).1 = 0) :
    ∃ k, k < cfg.MAX_FILES ∧ slot_matches cfg s.inode_table f k ∧
      assigned ((fs_write cfg (some f) (some dat) size ev s).2.inode_table.getD k no_inode) =
        [] ∧
      (fs_write cfg (some f) (some dat) size ev s).2.sb.free_blocks =
        s.sb.free_blocks + (assigned (s.inode_table.getD k no_inode)).length := by
  obtain ⟨k, hk, hmatch, _, hasg, hlen, _, hfb⟩ := fs_write_alloc cfg hc s h f dat size ev hret
  have hreq := required_blocks_overflow cfg hc.1 (block_size_le cfg hc) size hlo hhi
  have hz : (required_blocks cfg size).toNat = 0 := by omega
  rw [hz] at hlen
  have hnil := List.eq_nil_of_length_eq_zero hlen
  rw [hnil] at hasg hfb
  refine ⟨k, hk, hmatch, hasg, ?_⟩
  rw [hfb]
  simp

/-! ## Reading a prefix of a file -/

theorem getD_take_of_lt (l : List Nat) (n j : Nat) (h : j < n) :
    (l.take n).getD j 0 = l.getD j 0 := by
  rw [List.getD_eq_getElem?_getD, List.getD_eq_getElem?_getD, List.getElem?_take_of_lt h]

theorem ceil_le_of_le (bs m n : Nat) (hbs : 0 < bs) (h : m ≤ n * bs) :
    (m + bs - 1) / bs ≤ n := by
  apply Nat.le_of_lt_succ
  rw [Nat.div_lt_iff_lt_mul hbs, Nat.succ_mul]
  omega

/-- The first `ceil(m / BLOCK_SIZE)` blocks of a file of `sz` bytes lay out its first `m`
bytes. -/
theorem Layout.first {cfg : Config} {blocks : List Int} {l : List Nat} {sz : Nat}
    (h : Layout cfg blocks l sz) (m : Nat) (hm : m ≤ sz) :
    Layout cfg blocks (l.take ((m + cfg.BLOCK_SIZE - 1) / cfg.BLOCK_SIZE)) m := by
  have hbs := h.bs_pos
  have hle : (m + cfg.BLOCK_SIZE - 1) / cfg.BLOCK_SIZE ≤ l.length :=
    ceil_le_of_le _ _ _ hbs (le_trans hm h.above)
  have hlen : (l.take ((m + cfg.BLOCK_SIZE - 1) / cfg.BLOCK_SIZE)).length =
      (m + cfg.BLOCK_SIZE - 1) / cfg.BLOCK_SIZE := by
    rw [List.length_take]; omega
  obtain ⟨hc1, hc2⟩ := ceil_facts cfg.BLOCK_SIZE m hbs
  have hsz := h.sz_le
  exact
    { bs_pos := hbs
      disk_le := h.disk_le
      entries := fun j hj => by
        rw [hlen] at hj
        rw [getD_take_of_lt _ _ _ hj]
        exact h.entries j (by omega)
      inside := fun j hj => by
        rw [hlen] at hj
        rw [getD_take_of_lt _ _ _ hj]
        exact h.inside j (by omega)
      distinct := fun i j hi hj he => by
        rw [hlen] at hi hj
        rw [getD_take_of_lt _ _ _ hi, getD_take_of_lt _ _ _ hj] at he
        exact h.distinct i j (by omega) (by omega) he
      below := fun j hj => by
        rw [hlen] at hj
        exact hc1 j hj
      above := by rw [hlen]; exact hc2
      sz_le := by omega }

theorem file_range_first (d : Disk) (bs : Nat) (l : List Nat) (m : Nat) (hbs : 0 < bs) :
    file_range d bs (l.take ((m + bs - 1) / bs)) 0 m = file_range d bs l 0 m := by
  unfold file_range
  apply List.map_congr_left
  intro p hp
  rw [List.mem_range'_1] at hp
  obtain ⟨_, hc2⟩ := ceil_facts bs m hbs
  have hlt : p / bs < (m + bs - 1) / bs := by
    rw [Nat.div_lt_iff_lt_mul hbs]
    omega
  rw [getD_take_of_lt _ _ _ hlt]

theorem file_range_take (d : Disk) (bs : Nat) (l : List Nat) (m sz : Nat) (hm : m ≤ sz) :
    file_range d bs l 0 m = (file_range d bs l 0 sz).take m := by
  rw [← file_range_append d bs l 0 m sz (Nat.zero_le _) hm, List.take_left']
  simp [file_range]

/-- Reading fewer bytes than were written: after a write of `B` that returned `0` (size
within the range where the block count does not overflow), `fs_read` with a limit `M` below
`len(B)` returns `M` and the first `M` bytes of `B`. -/
theorem fs_read_prefix (cfg : Config) (hc : cfg.sane) (s : FS) (h : Reachable cfg s)
    (f B : List Nat) (ev : Faults) (M : Nat)
    (hsz : (B.length : Int) + cfg.BLOCK_SIZE - 1 ≤ INT_MAX)
    (hret : (fs_write cfg (some f) (some B) B.length ev s).1 = 0)
    (hM : M < B.length) :
    fs_read cfg (some f) false (M : Int) noFaults
        (fs_write cfg (some f) (some B) B.length ev s).2 = ((M : Int), B.take M) := by
  have hs := inv_reachable cfg hc s h
  have hs' := inv_write cfg hc s hs (some f) (some B) B.length ev
  obtain ⟨_, h0, hv, hex, hr1, hr2⟩ := fs_write_conditions cfg s f B B.length ev hret
  obtain ⟨k, hk, hmatch, hfirst, hlen, _, _, htbl, hdisk, hcode⟩ :=
    fs_write_spec cfg hc s hs f B B.length ev h0 hv hex hr1 hr2
  have hlay := write_layout cfg hc s k B.length hsz hlen
  have hreq : required_blocks cfg (B.length : Int) =
      ((new_blocks cfg s k (required_blocks cfg (B.length : Int))).length : Int) := by
    rw [hlen, Int.toNat_of_nonneg]
    rw [required_blocks_nat cfg hc.1 _ hsz]
    exact Int.natCast_nonneg _
  have hok : (write_loop cfg ev
      ((new_blocks cfg s k (required_blocks cfg (B.length : Int))).map
          (fun (x : Nat) => (x : Int)) ++
        List.replicate (cfg.MAX_DIRECT_BLOCKS -
          (new_blocks cfg s k (required_blocks cfg (B.length : Int))).length) (-1))
      B B.length (required_blocks cfg (B.length : Int)) 0
      (required_blocks cfg (B.length : Int)).toNat s.disk).1 = true := by
    by_contra hne
    rw [hcode, if_neg hne] at hret
    exact absurd hret (by decide)
  have hk' : k < s.inode_table.length := by rw [hs.table_len]; exact hk
  have hcongr := slot_matches_set_same cfg s.inode_table k
    { s.inode_table.getD k no_inode with
      blocks := (new_blocks cfg s k (required_blocks cfg (B.length : Int))).map
          (fun (x : Nat) => (x : Int)) ++
        List.replicate (cfg.MAX_DIRECT_BLOCKS -
          (new_blocks cfg s k (required_blocks cfg (B.length : Int))).length) (-1)
      size := if (fs_write cfg (some f) (some B) B.length ev s).1 = 0 then (B.length : Int)
        else (s.inode_table.getD k no_inode).size } f hk' rfl rfl
  have hfind : find_file cfg (fs_write cfg (some f) (some B) B.length ev s).2.inode_table f 0
      cfg.MAX_FILES = (k : Int) := by
    rw [htbl, find_file_congr cfg _ _ f 0 cfg.MAX_FILES hcongr]
    exact find_file_first cfg _ f _ k hk hmatch hfirst
  have hdsz := hs'.disk_size
  unfold fs_read
  rw [if_neg (by have := hs'.mounted; omega)]
  simp only
  rw [if_neg (by
    intro hcon
    rcases hcon with hcon | hcon | hcon
    · exact Bool.noConfusion hcon
    · omega
    · omega), hfind, if_neg (by omega), Int.toNat_ofNat, htbl, getD_set_eq _ _ _ _ hk',
    if_pos hret]
  simp only
  rw [if_pos (by omega)]
  rw [hdisk] at hdsz ⊢
  have hle : ((new_blocks cfg s k (required_blocks cfg (B.length : Int))).length : Int) ≤
      cfg.MAX_DIRECT_BLOCKS := by rw [← hreq]; exact hr1
  generalize new_blocks cfg s k (required_blocks cfg (B.length : Int)) = l at hlay hreq hok hdsz hle ⊢
  rw [hreq, Int.toNat_ofNat] at hok hdsz ⊢
  have hlay' := hlay.first M (Nat.le_of_lt hM)
  have hcl : (M + cfg.BLOCK_SIZE - 1) / cfg.BLOCK_SIZE ≤ l.length :=
    ceil_le_of_le _ _ _ hc.1 (le_trans (Nat.le_of_lt hM) hlay.above)
  have hn : (l.take ((M + cfg.BLOCK_SIZE - 1) / cfg.BLOCK_SIZE)).length ≤
      0 + cfg.MAX_DIRECT_BLOCKS := by
    rw [List.length_take]
    clear hdsz hok hlay hlay' hreq
    omega
  have hrun := read_loop_run cfg _ _ M hlay' _ hdsz cfg.MAX_DIRECT_BLOCKS 0 []
    (Nat.zero_le _) hn
  rw [Nat.zero_mul, Nat.zero_min] at hrun
  simp only [Nat.cast_zero, List.nil_append] at hrun
  rw [hrun]
  simp only
  rw [file_range_first _ _ _ _ hc.1, file_range_take _ _ _ M B.length (Nat.le_of_lt hM),
    file_range_written cfg ev _ _ B hlay s.disk hok]

/-- Bounded read, for a size whose block count does not overflow: after a write of `B` that
returned `0`, `fs_read` with a limit `m >= 0` and no I/O failure returns
`min(m, len(B))` and the first `min(m, len(B))` bytes of `B`. -/
theorem fs_read_bounded (cfg : Config) (hc : cfg.sane) (s : FS) (h : Reachable cfg s)
    (f B : List Nat) (ev : Faults) (m : Int)
    (hsz : (B.length : Int) + cfg.BLOCK_SIZE - 1 ≤ INT_MAX)
    (hret : (fs_write cfg (some f) (some B) B.length ev s).1 = 0) (hm : 0 ≤ m) :
    fs_read cfg (some f) false m noFaults (fs_write cfg (some f) (some B) B.length ev s).2 =
      (min m (B.length : Int), B.take (min m (B.length : Int)).toNat) := by
  by_cases hle : (B.length : Int) ≤ m
  · rw [fs_round_trip cfg hc s h f B ev m hsz hret hle, min_eq_right hle, Int.toNat_ofNat,
      List.take_length]
  · have hlt : m < (B.length : Int) := by omega
    have hcast : ((m.toNat : Nat) : Int) = m := Int.toNat_of_nonneg hm
    have hM : m.toNat < B.length := by omega
    have := fs_read_prefix cfg hc s h f B ev m.toNat hsz hret hM
    rw [hcast] at this
    rw [this, min_eq_left (le_of_lt hlt)]

/-! ## The write calls of `fs_write` -/

/-- The calls listed by `write_loop_calls` are the ones the copy loop applies to the image. -/
theorem write_loop_calls_disk (cfg : Config) (ev : Faults) (blocks : List Int)
    (data : List Nat) (size req : Int) (n i : Nat) (d : Disk) :
    (write_loop cfg ev blocks data size req i n d).2 =
      apply_calls d (write_loop_calls cfg ev blocks data size req i n) := by
  induction n generalizing i d with
  | zero => rfl
  | succ n ih =>
    unfold write_loop write_loop_calls
    simp only
    split_ifs <;> first
      | rfl
      | (cases ev (2 * i + 1) <;> first
          | rfl
          | (simp only; rw [ih]; rfl))

/-- The calls listed by `fs_write_calls` are the ones `fs_write` applies to the image. -/
theorem fs_write_calls_disk (cfg : Config) (filename data : Option (List Nat)) (size : Int)
    (ev : Faults) (s : FS) :
    (fs_write cfg filename data size ev s).2.disk =
      apply_calls s.disk (fs_write_calls cfg filename data size ev s) := by
  unfold fs_write fs_write_calls
  by_cases hfd : s.fs_fd < 0
  · rw [if_pos hfd, if_pos hfd]; rfl
  rw [if_neg hfd, if_neg hfd]
  cases filename with
  | none => rfl
  | some f =>
    cases data with
    | none => rfl
    | some dat =>
      simp only
      by_cases hval : size < 0 ∨ strlen f ≥ cfg.MAX_FILENAME
      · rw [if_pos hval, if_pos hval]; rfl
      rw [if_neg hval, if_neg hval]
      by_cases hfind : find_file cfg s.inode_table f 0 cfg.MAX_FILES = -1
      · rw [if_pos hfind, if_pos hfind]; rfl
      rw [if_neg hfind, if_neg hfind]
      by_cases hsp : required_blocks cfg size > cfg.MAX_DIRECT_BLOCKS ∨
          required_blocks cfg size > s.sb.free_blocks
      · rw [if_pos hsp, if_pos hsp]; rfl
      rw [if_neg hsp, if_neg hsp]
      exact write_loop_calls_disk _ _ _ _ _ _ _ _ _

/-- Under a layout every call of the copy loop starts at the first byte of one of the blocks
and stores `BLOCK_SIZE` bytes at most. -/
theorem write_loop_calls_inside (cfg : Config) (ev : Faults) (blocks : List Int) (l : List Nat)
    (sz : Nat) (h : Layout cfg blocks l sz) (data : List Nat) (n i : Nat)
    (hin : i + n ≤ l.length) (w : Nat × List Nat)
    (hw : w ∈ write_loop_calls cfg ev blocks data sz l.length i n) :
    ∃ j, j < l.length ∧ w.1 = l.getD j 0 * cfg.BLOCK_SIZE ∧ w.2.length ≤ cfg.BLOCK_SIZE := by
  induction n generalizing i with
  | zero => exact absurd hw (List.not_mem_nil _)
  | succ n ih =>
    have hi : i < l.length := by omega
    obtain ⟨ho1, _⟩ := h.offset i hi
    obtain ⟨_, hc2, _⟩ := h.chunk_pos i hi
    unfold write_loop_calls at hw
    simp only at hw
    rw [ho1, h.chunk_size i hi, Int.toNat_ofNat, write_chunk_eq cfg blocks l sz h data i hi]
      at hw
    split_ifs at hw
    · exact absurd hw (List.not_mem_nil _)
    · exact absurd hw (List.not_mem_nil _)
    · cases hev : ev (2 * i + 1) with
      | some t =>
        rw [hev] at hw
        simp only [List.mem_singleton] at hw
        refine ⟨i, hi, by rw [hw], ?_⟩
        rw [hw]
        simp only [List.length_take, List.length_map, List.length_range]
        omega
      | none =>
        rw [hev] at hw
        simp only at hw
        rcases List.mem_cons.1 hw with hw | hw
        · refine ⟨i, hi, by rw [hw], ?_⟩
          rw [hw]
          simp only [List.length_map, List.length_range]
          exact hc2
        · exact ih (i + 1) (by omega) hw

/-- The write calls of an `fs_write` that passes its checks, in terms of `new_blocks`. -/
theorem fs_write_calls_eq (cfg : Config) (hc : cfg.sane) (s : FS) (hs : Inv cfg s)
    (f dat : List Nat) (size : Int) (ev : Faults) (k : Nat) (hk : k < cfg.MAX_FILES)
    (hmatch : slot_matches cfg s.inode_table f k)
    (h0 : 0 ≤ size) (hv : strlen f < cfg.MAX_FILENAME)
    (hr1 : required_blocks cfg size ≤ cfg.MAX_DIRECT_BLOCKS)
    (hr2 : required_blocks cfg size ≤ s.sb.free_blocks) :
    fs_write_calls cfg (some f) (some dat) size ev s =
      write_loop_calls cfg ev
        ((new_blocks cfg s k (required_blocks cfg size)).map (fun (x : Nat) => (x : Int)) ++
          List.replicate (cfg.MAX_DIRECT_BLOCKS -
            (new_blocks cfg s k (required_blocks cfg size)).length) (-1))
        dat size (required_blocks cfg size) 0 (required_blocks cfg size).toNat := by
  have hk' : k < s.inode_table.length := by rw [hs.table_len]; exact hk
  have hfirst : ∀ j, j < k → ¬ slot_matches cfg s.inode_table f j := by
    intro j hj hmj
    have := match_unique cfg s hs f k j hk (by omega) hmatch hmj
    omega
  obtain ⟨_, w2, _, _⟩ := write_alloc_spec cfg hc s hs k hk' hmatch.1
    (required_blocks cfg size) hr1
  unfold write_alloc at w2
  unfold fs_write_calls
  rw [if_neg (by have := hs.mounted; omega)]
  simp only
  rw [if_neg (by omega), find_file_first cfg _ f _ k hk hmatch hfirst, if_neg (by omega),
    if_neg (by omega), Int.toNat_ofNat, w2]

/-- What one `fs_write` to the file held by slot `ka` does, whatever it returns: either
nothing at all, or it replaces the block list and possibly the size of slot `ka`, the new
blocks `l` being free data blocks once the file's own blocks are released, and every byte it
stores lies in one of the blocks of `l`. -/
theorem fs_write_effect (cfg : Config) (hc : cfg.sane) (s : FS) (hs : Inv cfg s)
    (fa : List Nat) (ka : Nat) (hka : ka < cfg.MAX_FILES)
    (hma : slot_matches cfg s.inode_table fa ka) (data : Option (List Nat)) (size : Int)
    (ev : Faults) (hhi : size ≤ INT_MAX) :
    ((fs_write cfg (some fa) data size ev s).2 = s ∧
      fs_write_calls cfg (some fa) data size ev s = []) ∨
    (∃ (l : List Nat) (sz : Int),
      (fs_write cfg (some fa) data size ev s).2.inode_table =
        s.inode_table.set ka
          { s.inode_table.getD ka no_inode with
            blocks := l.map (fun (x : Nat) => (x : Int)) ++
              List.replicate (cfg.MAX_DIRECT_BLOCKS - l.length) (-1)
            size := sz } ∧
      (∀ x ∈ l, DATA_BLOCK_START ≤ x ∧ x < cfg.MAX_BLOCKS ∧
        bit_test (clear_list s.bitmap (own (s.inode_table.getD ka no_inode))) x = false) ∧
      (∀ p, (∀ x ∈ l, ¬ (x * cfg.BLOCK_SIZE ≤ p ∧ p < x * cfg.BLOCK_SIZE + cfg.BLOCK_SIZE)) →
        (fs_write cfg (some fa) data size ev s).2.disk.bytes p = s.disk.bytes p) ∧
      (∀ w ∈ fs_write_calls cfg (some fa) data size ev s,
        ∃ x ∈ l, w.1 = x * cfg.BLOCK_SIZE ∧ w.2.length ≤ cfg.BLOCK_SIZE)) := by
  have hk' : ka < s.inode_table.length := by rw [hs.table_len]; exact hka
  have hfd : ¬ s.fs_fd < 0 := by have := hs.mounted; omega
  have hfirst : ∀ j, j < ka → ¬ slot_matches cfg s.inode_table fa j := by
    intro j hj hmj
    have := match_unique cfg s hs fa ka j hka (by omega) hma hmj
    omega
  have hfind := find_file_first cfg s.inode_table fa cfg.MAX_FILES ka hka hma hfirst
  cases data with
  | none =>
    left
    constructor
    · unfold fs_write; rw [if_neg hfd]
    · unfold fs_write_calls; rw [if_neg hfd]
  | some dat =>
    by_cases hval : size < 0 ∨ strlen fa ≥ cfg.MAX_FILENAME
    · left
      constructor
      · unfold fs_write; rw [if_neg hfd]; simp only; rw [if_pos hval]
      · unfold fs_write_calls; rw [if_neg hfd]; simp only; rw [if_pos hval]
    have h0 : 0 ≤ size := by omega
    have hv : strlen fa < cfg.MAX_FILENAME := by omega
    obtain ⟨n, rfl⟩ : ∃ n : Nat, size = (n : Int) :=
      ⟨size.toNat, (Int.toNat_of_nonneg h0).symm⟩
    by_cases hsp : required_blocks cfg (n : Int) > cfg.MAX_DIRECT_BLOCKS ∨
        required_blocks cfg (n : Int) > s.sb.free_blocks
    · left
      constructor
      · unfold fs_write; rw [if_neg hfd]; simp only
        rw [if_neg hval, hfind, if_neg (by omega), if_pos hsp]
      · unfold fs_write_calls; rw [if_neg hfd]; simp only
        rw [if_neg hval, hfind, if_neg (by omega), if_pos hsp]
    right
    have hr1 : required_blocks cfg (n : Int) ≤ cfg.MAX_DIRECT_BLOCKS :=
      le_of_not_gt (fun hgt => hsp (Or.inl hgt))
    have hr2 : required_blocks cfg (n : Int) ≤ s.sb.free_blocks :=
      le_of_not_gt (fun hgt => hsp (Or.inr hgt))
    obtain ⟨k, hk, hmatch, _, hlen, _, _, htbl, hdisk, _⟩ :=
      fs_write_spec cfg hc s hs fa dat _ ev h0 hv ⟨ka, hka, hma⟩ hr1 hr2
    have hkk : k = ka := match_unique cfg s hs fa ka k hka hk hma hmatch
    subst hkk
    have hcalls := fs_write_calls_eq cfg hc s hs fa dat _ ev k hka hma h0 hv hr1 hr2
    have hmem := new_blocks_mem cfg s k (required_blocks cfg (n : Int))
    have hds := hc.2.1
    refine ⟨new_blocks cfg s k (required_blocks cfg (n : Int)), _, htbl, fun x hx => ?_, ?_, ?_⟩
    · obtain ⟨h1, h2, h3⟩ := hmem x hx
      clear htbl hdisk hcalls hmem
      exact ⟨h1, by omega, h3⟩
    · intro p hp
      rw [hdisk]
      clear htbl hdisk hcalls hmem
      by_cases hov : INT_MAX < (n : Int) + cfg.BLOCK_SIZE - 1
      · have hreq := required_blocks_overflow cfg hc.1 (block_size_le cfg hc) _ hov hhi
        have hz : (required_blocks cfg (n : Int)).toNat = 0 := Int.toNat_of_nonpos hreq
        rw [hz]
        rfl
      · have hsz : (n : Int) + cfg.BLOCK_SIZE - 1 ≤ INT_MAX := not_lt.1 hov
        have hlay := write_layout cfg hc s k n hsz hlen
        have hreq : required_blocks cfg (n : Int) =
            ((new_blocks cfg s k (required_blocks cfg (n : Int))).length : Int) := by
          rw [hlen, Int.toNat_of_nonneg]
          rw [required_blocks_nat cfg hc.1 _ hsz]
          exact Int.natCast_nonneg _
        generalize new_blocks cfg s k (required_blocks cfg (n : Int)) = l
          at hlay hreq hp ⊢
        rw [hreq, Int.toNat_ofNat]
        apply write_loop_frame cfg ev _ l n hlay dat l.length 0 s.disk
          (Nat.le_of_eq (Nat.zero_add _)) p
        intro j _ hj
        rw [Nat.zero_add] at hj
        apply hp
        rw [List.getD_eq_getElem _ _ hj]
        exact List.getElem_mem _
    · intro w hw
      rw [hcalls] at hw
      clear htbl hdisk hcalls hmem
      by_cases hov : INT_MAX < (n : Int) + cfg.BLOCK_SIZE - 1
      · have hreq := required_blocks_overflow cfg hc.1 (block_size_le cfg hc) _ hov hhi
        have hz : (required_blocks cfg (n : Int)).toNat = 0 := Int.toNat_of_nonpos hreq
        rw [hz] at hw
        exact absurd hw (List.not_mem_nil _)
      · have hsz : (n : Int) + cfg.BLOCK_SIZE - 1 ≤ INT_MAX := not_lt.1 hov
        have hlay := write_layout cfg hc s k n hsz hlen
        have hreq : required_blocks cfg (n : Int) =
            ((new_blocks cfg s k (required_blocks cfg (n : Int))).length : Int) := by
          rw [hlen, Int.toNat_of_nonneg]
          rw [required_blocks_nat cfg hc.1 _ hsz]
          exact Int.natCast_nonneg _
        generalize new_blocks cfg s k (required_blocks cfg (n : Int)) = l
          at hlay hreq hw ⊢
        rw [hreq, Int.toNat_ofNat] at hw
        obtain ⟨j, hj, hw1, hw2⟩ := write_loop_calls_inside cfg ev _ l n hlay dat
          l.length 0 (Nat.le_of_eq (Nat.zero_add _)) w hw
        refine ⟨l.getD j 0, ?_, hw1, hw2⟩
        rw [List.getD_eq_getElem _ _ hj]
        exact List.getElem_mem _

/-! ## Reads of a file whose blocks were not written -/

theorem disk_read_agree (d d' : Disk) (off c : Nat) (hd : off + c ≤ d.size)
    (hd' : off + c ≤ d'.size) (hb : ∀ t, t < c → d'.bytes (off + t) = d.bytes (off + t)) :
    d'.read off c = d.read off c := by
  unfold Disk.read
  rw [if_pos hd, if_pos hd']
  congr 1
  apply List.map_congr_left
  intro t ht
  exact hb t (List.mem_range.1 ht)

/-- The read loop gives the same result on two images that both span the whole geometry and
agree on every byte of the blocks of the list. -/
theorem read_loop_agree (cfg : Config) (hc : cfg.sane) (ev : Faults) (blocks : List Int)
    (btr : Int) (d d' : Disk) (hd : DISK_SIZE cfg ≤ d.size) (hd' : DISK_SIZE cfg ≤ d'.size)
    (hrange : ∀ j, blocks.getD j (-1) ≠ -1 →
      0 ≤ blocks.getD j (-1) ∧ blocks.getD j (-1) < cfg.MAX_BLOCKS)
    (hbytes : ∀ j, blocks.getD j (-1) ≠ -1 → ∀ t, t < cfg.BLOCK_SIZE →
      d'.bytes ((blocks.getD j (-1)).toNat * cfg.BLOCK_SIZE + t) =
        d.bytes ((blocks.getD j (-1)).toNat * cfg.BLOCK_SIZE + t))
    (n i : Nat) (st : ReadSt) :
    read_loop cfg ev blocks btr d' i n st = read_loop cfg ev blocks btr d i n st := by
  induction n generalizing i st with
  | zero => rfl
  | succ n ih =>
    unfold read_loop
    simp only
    by_cases hlt : st.read_counter < btr
    · rw [if_pos hlt, if_pos hlt]
      by_cases hb : blocks.getD i (-1) = -1
      · rw [if_pos hb, if_pos hb]
      · rw [if_neg hb, if_neg hb]
        obtain ⟨hb0, hb1⟩ := hrange i hb
        have hbyt := hbytes i hb
        obtain ⟨b, hbe⟩ : ∃ b : Nat, blocks.getD i (-1) = (b : Int) :=
          ⟨(blocks.getD i (-1)).toNat, (Int.toNat_of_nonneg hb0).symm⟩
        rw [hbe] at hb1 hbyt ⊢
        rw [Int.toNat_ofNat] at hbyt
        have hbm : b < cfg.MAX_BLOCKS := by exact_mod_cast hb1
        have hdisk : b * cfg.BLOCK_SIZE + cfg.BLOCK_SIZE ≤ DISK_SIZE cfg := by
          unfold DISK_SIZE
          have : (b + 1) * cfg.BLOCK_SIZE ≤ cfg.MAX_BLOCKS * cfg.BLOCK_SIZE :=
            Nat.mul_le_mul_right _ hbm
          rw [Nat.add_mul, Nat.one_mul] at this
          exact this
        have hmax := hc.2.2.2.1
        have hoff : wrap32 ((b : Int) * cfg.BLOCK_SIZE) = ((b * cfg.BLOCK_SIZE : Nat) : Int) := by
          rw [wrap32_of_range]
          · push_cast; rfl
          · have : (0 : Int) ≤ (b : Int) * cfg.BLOCK_SIZE :=
              Int.mul_nonneg (Int.natCast_nonneg _) (Int.natCast_nonneg _)
            unfold INT_MIN; omega
          · have h1 : ((b * cfg.BLOCK_SIZE : Nat) : Int) ≤ (DISK_SIZE cfg : Int) := by
              exact_mod_cast (by omega : b * cfg.BLOCK_SIZE ≤ DISK_SIZE cfg)
            push_cast at h1
            omega
        rw [hoff, Int.toNat_ofNat]
        by_cases hf : ((b * cfg.BLOCK_SIZE : Nat) : Int) < 0 ∨ (ev (2 * i)).isSome = true
        · rw [if_pos hf, if_pos hf]
        · rw [if_neg hf, if_neg hf]
          have hchunk : ∀ c : Int,
              (if c > cfg.BLOCK_SIZE then (cfg.BLOCK_SIZE : Int) else c).toNat ≤
                cfg.BLOCK_SIZE := by
            intro c
            by_cases hgt : c > cfg.BLOCK_SIZE
            · rw [if_pos hgt, Int.toNat_ofNat]
            · rw [if_neg hgt]
              exact Int.toNat_le.2 (not_lt.1 hgt)
          have hC := hchunk (wrap32 (btr - st.read_counter))
          have hread := disk_read_agree d d' (b * cfg.BLOCK_SIZE)
            (if wrap32 (btr - st.read_counter) > cfg.BLOCK_SIZE then (cfg.BLOCK_SIZE : Int)
              else wrap32 (btr - st.read_counter)).toNat
            (le_trans (Nat.add_le_add_left hC _) (le_trans hdisk hd))
            (le_trans (Nat.add_le_add_left hC _) (le_trans hdisk hd'))
            (fun t ht => hbyt t (Nat.lt_of_lt_of_le ht hC))
          rw [hread]
          simp only [ih]
    · rw [if_neg hlt, if_neg hlt]

/-! ## Isolation of files -/

/-- A block owned by one used slot is not owned by another. -/
theorem own_disjoint (tbl : List inode) (hnd : (owned tbl).Nodup) (i j : Nat) (hij : i ≠ j)
    (hi : i < tbl.length) (hj : j < tbl.length) (b : Int)
    (hbi : b ∈ own (tbl.getD i no_inode)) : b ∉ own (tbl.getD j no_inode) := by
  intro hbj
  rcases Nat.lt_or_gt_of_ne hij with h | h
  · exact owned_disjoint_slots tbl hnd i j h hj b hbi hbj
  · exact owned_disjoint_slots tbl hnd j i h hi b hbj hbi

/-- A block that another file owns is not among the blocks a write allocates. -/
theorem new_block_ne_owned (cfg : Config) (s : FS) (hs : Inv cfg s) (ka kb : Nat)
    (hka : ka < s.inode_table.length) (hkb : kb < s.inode_table.length) (hne : ka ≠ kb)
    (b : Int) (hb : b ∈ own (s.inode_table.getD kb no_inode)) (x : Nat)
    (hx : bit_test (clear_list s.bitmap (own (s.inode_table.getD ka no_inode))) x = false) :
    x ≠ b.toNat := by
  intro hxb
  have h0 : (0 : Int) ≤ (DATA_BLOCK_START : Int) := Int.natCast_nonneg _
  have hbo : b ∈ owned s.inode_table :=
    (owned_perm s.inode_table kb hkb).mem_iff.2 (List.mem_append_left _ hb)
  obtain ⟨hb1, hb2⟩ := hs.range b hbo
  have hcast : ((b.toNat : Nat) : Int) = b := Int.toNat_of_nonneg (by omega)
  have hnn : ∀ c ∈ own (s.inode_table.getD ka no_inode), (0 : Int) ≤ c := by
    intro c hc
    have := (hs.range c ((owned_perm s.inode_table ka hka).mem_iff.2
      (List.mem_append_left _ hc))).1
    omega
  rw [bit_test_clear_list _ _ hnn, hxb, hcast] at hx
  have hbit : bit_test s.bitmap b.toNat = true := by
    apply (hs.bits b.toNat (by omega)).2
    right
    rw [hcast]
    exact hbo
  have hnot := own_disjoint s.inode_table hs.excl kb ka (fun e => hne e.symm) hkb hka b hb
  rw [hbit, decide_eq_true hnot] at hx
  exact Bool.noConfusion hx

theorem assigned_mem_own (nd : inode) (hu : nd.used = true) (b : Int) (hb : b ∈ assigned nd) :
    b ∈ own nd := by
  unfold own
  rw [if_pos hu]
  exact hb

/-! ## Fields no operation changes, and sizes -/

/-- `fs_create`, `fs_write` and `fs_delete` never assign the three superblock fields that
`fs_mount` validates. -/
theorem ops_keep_sb_fields (cfg : Config) (s : FS) (filename data : Option (List Nat))
    (size : Int) (ev : Faults) :
    ((fs_create cfg filename s).2.sb.total_blocks = s.sb.total_blocks ∧
      (fs_create cfg filename s).2.sb.block_size = s.sb.block_size ∧
      (fs_create cfg filename s).2.sb.total_inodes = s.sb.total_inodes) ∧
    ((fs_write cfg filename data size ev s).2.sb.total_blocks = s.sb.total_blocks ∧
      (fs_write cfg filename data size ev s).2.sb.block_size = s.sb.block_size ∧
      (fs_write cfg filename data size ev s).2.sb.total_inodes = s.sb.total_inodes) ∧
    ((fs_delete cfg filename s).2.sb.total_blocks = s.sb.total_blocks ∧
      (fs_delete cfg filename s).2.sb.block_size = s.sb.block_size ∧
      (fs_delete cfg filename s).2.sb.total_inodes = s.sb.total_inodes) := by
  refine ⟨?_, ?_, ?_⟩
  · unfold fs_create
    by_cases hfd : s.fs_fd < 0
    · rw [if_pos hfd]; exact ⟨rfl, rfl, rfl⟩
    rw [if_neg hfd]
    cases filename with
    | none => exact ⟨rfl, rfl, rfl⟩
    | some f =>
      simp only
      split_ifs <;> exact ⟨rfl, rfl, rfl⟩
  · unfold fs_write
    by_cases hfd : s.fs_fd < 0
    · rw [if_pos hfd]; exact ⟨rfl, rfl, rfl⟩
    rw [if_neg hfd]
    cases filename with
    | none => exact ⟨rfl, rfl, rfl⟩
    | some f =>
      cases data with
      | none => exact ⟨rfl, rfl, rfl⟩
      | some dat =>
        simp only
        by_cases hval : size < 0 ∨ strlen f ≥ cfg.MAX_FILENAME
        · rw [if_pos hval]; exact ⟨rfl, rfl, rfl⟩
        rw [if_neg hval]
        by_cases hfind : find_file cfg s.inode_table f 0 cfg.MAX_FILES = -1
        · rw [if_pos hfind]; exact ⟨rfl, rfl, rfl⟩
        rw [if_neg hfind]
        by_cases hsp : required_blocks cfg size > cfg.MAX_DIRECT_BLOCKS ∨
            required_blocks cfg size > s.sb.free_blocks
        · rw [if_pos hsp]; exact ⟨rfl, rfl, rfl⟩
        rw [if_neg hsp]
        exact ⟨rfl, rfl, rfl⟩
  · unfold fs_delete
    by_cases hfd : s.fs_fd < 0
    · rw [if_pos hfd]; exact ⟨rfl, rfl, rfl⟩
    rw [if_neg hfd]
    cases filename with
    | none => exact ⟨rfl, rfl, rfl⟩
    | some f =>
      simp only
      split_ifs <;> exact ⟨rfl, rfl, rfl⟩

/-- The size field of every slot after a write: as before, or the non-negative size
written. -/
theorem fs_write_slot_size (cfg : Config) (s : FS) (hlen : s.inode_table.length = cfg.MAX_FILES)
    (filename data : Option (List Nat)) (size : Int) (ev : Faults) (j : Nat) :
    ((fs_write cfg filename data size ev s).2.inode_table.getD j no_inode).size =
      (s.inode_table.getD j no_inode).size ∨
    0 ≤ ((fs_write cfg filename data size ev s).2.inode_table.getD j no_inode).size := by
  unfold fs_write
  by_cases hfd : s.fs_fd < 0
  · rw [if_pos hfd]; exact Or.inl rfl
  rw [if_neg hfd]
  cases filename with
  | none => exact Or.inl rfl
  | some g =>
    cases data with
    | none => exact Or.inl rfl
    | some dat =>
      simp only
      by_cases hval : size < 0 ∨ strlen g ≥ cfg.MAX_FILENAME
      · rw [if_pos hval]; exact Or.inl rfl
      rw [if_neg hval]
      by_cases hfind : find_file cfg s.inode_table g 0 cfg.MAX_FILES = -1
      · rw [if_pos hfind]; exact Or.inl rfl
      rw [if_neg hfind]
      by_cases hsp : required_blocks cfg size > cfg.MAX_DIRECT_BLOCKS ∨
          required_blocks cfg size > s.sb.free_blocks
      · rw [if_pos hsp]; exact Or.inl rfl
      rw [if_neg hsp]
      obtain ⟨k, _, hk, hidx, _, _⟩ := find_file_pos cfg s.inode_table g 0 cfg.MAX_FILES hfind
      rw [hidx, Int.toNat_ofNat]
      have hk' : k < s.inode_table.length := by rw [hlen]; omega
      dsimp only
      rw [table_getD_set _ _ _ _ hk']
      by_cases hjk : j = k
      · rw [if_pos hjk, hjk]
        dsimp only
        split
        · exact Or.inr (not_lt.1 (fun hneg => hval (Or.inl hneg)))
        · exact Or.inl rfl
      · rw [if_neg hjk]; exact Or.inl rfl

theorem fs_delete_slot_size (cfg : Config) (s : FS) (hlen : s.inode_table.length = cfg.MAX_FILES)
    (filename : Option (List Nat)) (j : Nat) :
    ((fs_delete cfg filename s).2.inode_table.getD j no_inode).size =
      (s.inode_table.getD j no_inode).size := by
  unfold fs_delete
  by_cases hfd : s.fs_fd < 0
  · rw [if_pos hfd]
  rw [if_neg hfd]
  cases filename with
  | none => rfl
  | some g =>
    simp only
    by_cases hval : strlen g = 0 ∨ strlen g ≥ cfg.MAX_FILENAME
    · rw [if_pos hval]
    rw [if_neg hval]
    by_cases hfind : find_file cfg s.inode_table g 0 cfg.MAX_FILES = -1
    · rw [if_pos hfind]
    rw [if_neg hfind]
    obtain ⟨k, _, hk, hidx, _, _⟩ := find_file_pos cfg s.inode_table g 0 cfg.MAX_FILES hfind
    rw [hidx, Int.toNat_ofNat]
    have hk' : k < s.inode_table.length := by rw [hlen]; omega
    dsimp only
    rw [table_getD_set _ _ _ _ hk']
    by_cases hjk : j = k
    · rw [if_pos hjk, hjk]
    · rw [if_neg hjk]

theorem fs_create_slot_size (cfg : Config) (s : FS) (hlen : s.inode_table.length = cfg.MAX_FILES)
    (filename : Option (List Nat)) (j : Nat) :
    ((fs_create cfg filename s).2.inode_table.getD j no_inode).size =
      (s.inode_table.getD j no_inode).size ∨
    ((fs_create cfg filename s).2.inode_table.getD j no_inode).size = 0 := by
  unfold fs_create
  by_cases hfd : s.fs_fd < 0
  · rw [if_pos hfd]; exact Or.inl rfl
  rw [if_neg hfd]
  cases filename with
  | none => exact Or.inl rfl
  | some f =>
    simp only
    by_cases hval : strlen f = 0 ∨ strlen f ≥ cfg.MAX_FILENAME
    · rw [if_pos hval]; exact Or.inl rfl
    rw [if_neg hval]
    by_cases hfind : find_file cfg s.inode_table f 0 cfg.MAX_FILES ≠ -1
    · rw [if_pos hfind]; exact Or.inl rfl
    rw [if_neg hfind]
    by_cases hfree : find_free s.inode_table 0 cfg.MAX_FILES = -1
    · rw [if_pos hfree]; exact Or.inl rfl
    rw [if_neg hfree]
    rcases find_free_spec s.inode_table 0 cfg.MAX_FILES with ⟨h1, _⟩ | ⟨k, _, hk, hidx, _, _⟩
    · exact absurd h1 hfree
    rw [hidx, Int.toNat_ofNat]
    have hk' : k < s.inode_table.length := by rw [hlen]; omega
    dsimp only
    rw [table_getD_set _ _ _ _ hk']
    by_cases hjk : j = k
    · rw [if_pos hjk]; exact Or.inr rfl
    · rw [if_neg hjk]; exact Or.inl rfl

/-- In every reachable state the size field of every slot is non-negative. -/
theorem reachable_size_nonneg (cfg : Config) (hc : cfg.sane) (s : FS) (h : Reachable cfg s)
    (j : Nat) : 0 ≤ (s.inode_table.getD j no_inode).size := by
  induction h generalizing j with
  | fresh =>
    rw [fresh_eq cfg hc]
    dsimp only
    by_cases hj : j < cfg.MAX_FILES
    · rw [List.getD_eq_getElem _ _ (by simpa using hj), List.getElem_replicate]
      exact le_refl _
    · rw [List.getD_eq_default _ _ (by simpa using hj)]
      exact le_refl _
  | create s filename hprev ih =>
    have hs := inv_reachable cfg hc s hprev
    rcases fs_create_slot_size cfg s hs.table_len filename j with h1 | h1
    · rw [h1]; exact ih j
    · rw [h1]
  | write s filename data size ev hprev _ _ ih =>
    have hs := inv_reachable cfg hc s hprev
    rcases fs_write_slot_size cfg s hs.table_len filename data size ev j with h1 | h1
    · rw [h1]; exact ih j
    · exact h1
  | delete s filename hprev ih =>
    have hs := inv_reachable cfg hc s hprev
    rw [fs_delete_slot_size cfg s hs.table_len filename j]
    exact ih j

/-! ## Bounds of a read -/

theorem disk_read_length (d : Disk) (off n : Nat) (bs : List Nat) (h : d.read off n = some bs) :
    bs.length = n := by
  unfold Disk.read at h
  split at h
  · rw [← Option.some.inj h, List.length_map, List.length_range]
  · exact Option.noConfusion h

theorem read_chunk_bounds (bs : Nat) (btr rc : Int) (h0 : 0 ≤ rc) (hlt : rc < btr)
    (hbtr : btr ≤ INT_MAX) :
    0 ≤ (if wrap32 (btr - rc) > (bs : Int) then (bs : Int) else wrap32 (btr - rc)) ∧
    rc + (if wrap32 (btr - rc) > (bs : Int) then (bs : Int) else wrap32 (btr - rc)) ≤ btr := by
  have hw : wrap32 (btr - rc) = btr - rc :=
    wrap32_of_range _ (by unfold INT_MIN; omega) (by omega)
  rw [hw]
  split <;> omega

/-- The read loop counts the bytes it stores and never passes `bytes_to_read`. -/
theorem read_loop_bound (cfg : Config) (ev : Faults) (blocks : List Int) (btr : Int) (d : Disk)
    (hbtr : btr ≤ INT_MAX) (n i : Nat) (st st' : ReadSt)
    (h0 : 0 ≤ st.read_counter) (hlen : (st.out.length : Int) = st.read_counter)
    (hle : st.read_counter ≤ btr ∨ st.read_counter = 0)
    (hrun : read_loop cfg ev blocks btr d i n st = some st') :
    0 ≤ st'.read_counter ∧ (st'.out.length : Int) = st'.read_counter ∧
    (st'.read_counter ≤ btr ∨ st'.read_counter = 0) := by
  induction n generalizing i st with
  | zero =>
    unfold read_loop at hrun
    rw [← Option.some.inj hrun]
    exact ⟨h0, hlen, hle⟩
  | succ n ih =>
    unfold read_loop at hrun
    simp only at hrun
    by_cases hlt : st.read_counter < btr
    · rw [if_pos hlt] at hrun
      by_cases hb : blocks.getD i (-1) = -1
      · rw [if_pos hb] at hrun
        rw [← Option.some.inj hrun]
        exact ⟨h0, hlen, hle⟩
      · rw [if_neg hb] at hrun
        by_cases hf : wrap32 (blocks.getD i (-1) * cfg.BLOCK_SIZE) < 0 ∨
            (ev (2 * i)).isSome = true
        · rw [if_pos hf] at hrun
          exact Option.noConfusion hrun
        · rw [if_neg hf] at hrun
          obtain ⟨hc0, hc1⟩ := read_chunk_bounds cfg.BLOCK_SIZE btr st.read_counter h0 hlt hbtr
          cases hr : (if (ev (2 * i + 1)).isSome = true then none
              else d.read (wrap32 (blocks.getD i (-1) * cfg.BLOCK_SIZE)).toNat
                (if wrap32 (btr - st.read_counter) > cfg.BLOCK_SIZE then (cfg.BLOCK_SIZE : Int)
                  else wrap32 (btr - st.read_counter)).toNat) with
          | none =>
            rw [hr] at hrun
            exact Option.noConfusion hrun
          | some bs =>
            rw [hr] at hrun
            simp only at hrun
            have hbl : bs.length = (if wrap32 (btr - st.read_counter) > cfg.BLOCK_SIZE
                then (cfg.BLOCK_SIZE : Int) else wrap32 (btr - st.read_counter)).toNat := by
              split at hr
              · exact Option.noConfusion hr
              · exact disk_read_length _ _ _ _ hr
            generalize (if wrap32 (btr - st.read_counter) > cfg.BLOCK_SIZE
                then (cfg.BLOCK_SIZE : Int) else wrap32 (btr - st.read_counter)) = c
              at hc0 hc1 hbl hrun
            have hw : wrap32 (st.read_counter + c) = st.read_counter + c :=
              wrap32_of_range _ (by unfold INT_MIN; omega) (by omega)
            rw [hw] at hrun
            apply ih (i + 1) ⟨st.read_counter + c, st.out ++ bs⟩ _ _ _ hrun
            · show 0 ≤ st.read_counter + c
              omega
            · show ((st.out ++ bs).length : Int) = st.read_counter + c
              rw [List.length_append, hbl]
              push_cast
              rw [Int.toNat_of_nonneg hc0, hlen]
            · left
              exact hc1
    · rw [if_neg hlt] at hrun
      rw [← Option.some.inj hrun]
      exact ⟨h0, hlen, hle⟩

/-- Whatever the I/O outcomes, in a reachable state `fs_read` returns `-3`, `-1`, or a count
between `0` and both `max_size` and the size of the inode, and stores that many bytes. -/
theorem fs_read_bound (cfg : Config) (hc : cfg.sane) (s : FS) (h : Reachable cfg s)
    (f : List Nat) (buffer_null : Bool) (m : Int) (ev : Faults) (hm : m ≤ INT_MAX) :
    (fs_read cfg (some f) buffer_null m ev s).1 = -3 ∨
    (fs_read cfg (some f) buffer_null m ev s).1 = -1 ∨
    (0 ≤ (fs_read cfg (some f) buffer_null m ev s).1 ∧
      ((fs_read cfg (some f) buffer_null m ev s).2.length : Int) =
        (fs_read cfg (some f) buffer_null m ev s).1 ∧
      (fs_read cfg (some f) buffer_null m ev s).1 ≤ m ∧
      ∃ k, k < cfg.MAX_FILES ∧ slot_matches cfg s.inode_table f k ∧
        (fs_read cfg (some f) buffer_null m ev s).1 ≤ (s.inode_table.getD k no_inode).size) := by
  unfold fs_read
  by_cases hfd : s.fs_fd < 0
  · rw [if_pos hfd]; exact Or.inl rfl
  rw [if_neg hfd]
  simp only
  by_cases hval : buffer_null = true ∨ m < 0 ∨ strlen f ≥ cfg.MAX_FILENAME
  · rw [if_pos hval]; exact Or.inl rfl
  rw [if_neg hval]
  by_cases hfind : find_file cfg s.inode_table f 0 cfg.MAX_FILES = -1
  · rw [if_pos hfind]; exact Or.inr (Or.inl rfl)
  rw [if_neg hfind]
  obtain ⟨k, _, hk, hidx, hmatch, _⟩ := find_file_pos cfg s.inode_table f 0 cfg.MAX_FILES hfind
  rw [hidx, Int.toNat_ofNat]
  have hsz := reachable_size_nonneg cfg hc s h k
  have hm0 : 0 ≤ m := not_lt.1 (fun hneg => hval (Or.inr (Or.inl hneg)))
  cases hrun : read_loop cfg ev (s.inode_table.getD k no_inode).blocks
      (if m < (s.inode_table.getD k no_inode).size then m
        else (s.inode_table.getD k no_inode).size) s.disk 0 cfg.MAX_DIRECT_BLOCKS ⟨0, []⟩ with
  | none => exact Or.inl rfl
  | some st' =>
    right; right
    simp only
    have hbtr : (if m < (s.inode_table.getD k no_inode).size then m
        else (s.inode_table.getD k no_inode).size) ≤ INT_MAX := by
      split <;> omega
    obtain ⟨b0, b1, b2⟩ := read_loop_bound cfg ev _ _ s.disk hbtr cfg.MAX_DIRECT_BLOCKS 0
      ⟨0, []⟩ st' (le_refl _) rfl (Or.inr rfl) hrun
    have hfin : st'.read_counter ≤ m ∧
        st'.read_counter ≤ (s.inode_table.getD k no_inode).size := by
      generalize (s.inode_table.getD k no_inode).size = z at hsz b2 hbtr
      clear hrun
      split at b2 <;> omega
    exact ⟨b0, b1, hfin.1, k, by omega, hmatch, hfin.2⟩

/-! ## A mount loads the records of the image -/

/-- C2. Free-block accounting: in every state reached from a freshly formatted and mounted
image by `fs_create`, `fs_write` and `fs_delete` calls (whatever they return, whatever the
I/O outcomes), `sb.free_blocks` equals `MAX_BLOCKS` minus the 10 reserved blocks minus the
number of assigned (non `-1`) block entries over all used inodes. -/
theorem C2_free_block_accounting (cfg : Config) (hc : cfg.sane) (s : FS)
    (h : Reachable cfg s) :
    s.sb.free_blocks =
      (cfg.MAX_BLOCKS : Int) - (10 : Int) - (assigned_count s.inode_table : Int) := by
  have hs := inv_reachable cfg hc s h
  rw [hs.free_blocks, owned_length]
  rfl

theorem C2_free_block_accounting_witness :
    tinyConfig.sane ∧ Reachable tinyConfig demo_state ∧
    demo_state.sb.free_blocks =
      (tinyConfig.MAX_BLOCKS : Int) - (10 : Int) - (assigned_count demo_state.inode_table : Int) :=
  ⟨by decide,
   Reachable.write _ _ _ _ _ (Reachable.create _ _ Reachable.fresh) (by decide) (by decide),
   C2_free_block_accounting tinyConfig (by decide) demo_state
     (Reachable.write _ _ _ _ _ (Reachable.create _ _ Reachable.fresh) (by decide) (by decide))⟩

/-- C3. Free-inode accounting: in every state reached from a freshly formatted and mounted
image by `fs_create`, `fs_write` and `fs_delete` calls, successful or failing,
`sb.free_inodes` equals the number of inode-table slots with `used = false`. -/
theorem C3_free_inode_accounting (cfg : Config) (hc : cfg.sane) (s : FS)
    (h : Reachable cfg s) :
    s.sb.free_inodes = (unused_count s.inode_table : Int) :=
  (inv_reachable cfg hc s h).free_inodes

theorem C3_free_inode_accounting_witness :
    tinyConfig.sane ∧ Reachable tinyConfig demo_state ∧
    demo_state.sb.free_inodes = (unused_count demo_state.inode_table : Int) :=
  ⟨by decide,
   Reachable.write _ _ _ _ _ (Reachable.create _ _ Reachable.fresh) (by decide) (by decide),
   C3_free_inode_accounting tinyConfig (by decide) demo_state
     (Reachable.write _ _ _ _ _ (Reachable.create _ _ Reachable.fresh) (by decide) (by decide))⟩

/-- C4. Block exclusivity: in every reachable state, if entry `p` of used inode `i` and entry
`q` of used inode `j` hold the same block index (not the sentinel `-1`), then `i = j` and
`p = q`: no block occurs in the lists of two used inodes, nor twice in one list. -/
theorem C4_block_exclusivity (cfg : Config) (hc : cfg.sane) (s : FS) (h : Reachable cfg s)
    (i j p q : Nat)
    (hui : (s.inode_table.getD i no_inode).used = true)
    (huj : (s.inode_table.getD j no_inode).used = true)
    (hne : (s.inode_table.getD i no_inode).blocks.getD p (-1) ≠ -1)
    (heq : (s.inode_table.getD i no_inode).blocks.getD p (-1) =
      (s.inode_table.getD j no_inode).blocks.getD q (-1)) :
    i = j ∧ p = q :=
  exclusive_of_nodup s.inode_table (inv_reachable cfg hc s h).excl i j p q hui huj hne heq

theorem C4_block_exclusivity_witness :
    tinyConfig.sane ∧ Reachable tinyConfig demo_state ∧
    (demo_state.inode_table.getD 0 no_inode).used = true ∧
    (demo_state.inode_table.getD 0 no_inode).blocks.getD 1 (-1) ≠ -1 ∧
    (0 = 0 ∧ 1 = 1) :=
  ⟨by decide,
   Reachable.write _ _ _ _ _ (Reachable.create _ _ Reachable.fresh) (by decide) (by decide),
   by decide, by decide,
   C4_block_exclusivity tinyConfig (by decide) demo_state
     (Reachable.write _ _ _ _ _ (Reachable.create _ _ Reachable.fresh) (by decide) (by decide))
     0 0 1 1 (by decide) (by decide) (by decide) rfl⟩

/-- C5 (amended). Bitmap invariant: in every reachable state and for every block index
`i < MAX_BLOCKS`, bit `i` of the bitmap is set if and only if `i` is a reserved metadata block
(`i < 10`) or `i` appears in the block list of some used inode. -/
theorem C5_bitmap_invariant (cfg : Config) (hc : cfg.sane) (s : FS) (h : Reachable cfg s)
    (i : Nat) (hi : i < cfg.MAX_BLOCKS) :
    bit_test s.bitmap i = true ↔
      (i < 10 ∨ ∃ nd ∈ s.inode_table, nd.used = true ∧ (i : Int) ∈ nd.blocks) := by
  rw [(inv_reachable cfg hc s h).bits i hi, mem_owned]
  apply or_congr Iff.rfl
  apply exists_congr
  intro nd
  apply and_congr Iff.rfl
  unfold own assigned
  by_cases hu : nd.used = true
  · rw [if_pos hu, List.mem_filter]
    constructor
    · exact fun hx => ⟨hu, hx.1⟩
    · refine fun hx => ⟨hx.2, ?_⟩
      simp only [ne_eq, decide_not, Bool.not_eq_true', decide_eq_false_iff_not]
      omega
  · rw [if_neg hu]
    constructor
    · exact fun hx => absurd hx (List.not_mem_nil _)
    · exact fun hx => absurd hx.1 hu

theorem C5_bitmap_invariant_witness :
    tinyConfig.sane ∧ Reachable tinyConfig demo_state ∧ 11 < tinyConfig.MAX_BLOCKS ∧
    (bit_test demo_state.bitmap 11 = true ↔
      (11 < 10 ∨ ∃ nd ∈ demo_state.inode_table, nd.used = true ∧ ((11 : Nat) : Int) ∈ nd.blocks)) :=
  ⟨by decide,
   Reachable.write _ _ _ _ _ (Reachable.create _ _ Reachable.fresh) (by decide) (by decide),
   by decide,
   C5_bitmap_invariant tinyConfig (by decide) demo_state
     (Reachable.write _ _ _ _ _ (Reachable.create _ _ Reachable.fresh) (by decide) (by decide))
     11 (by decide)⟩

/-- C5, the claim as worded fails. After `fs_format`, `fs_mount`, `fs_create("a")`, a
one-byte `fs_write` to `"a"` and `fs_delete("a")` on the standard geometry, the equivalence
"bit `i` is set iff `i < 10` or `i` appears in the block list of some inode" fails for some
`i < MAX_BLOCKS`: `fs_delete` clears the bit of the block the file had and marks the slot
unused, but leaves the block index in the slot's block list. -/
theorem C5_stale_block_entries :
    Reachable stdConfig
      (fs_delete stdConfig (some [97])
        (fs_write stdConfig (some [97]) (some [1]) 1 noFaults
          (fs_create stdConfig (some [97]) (fresh stdConfig)).2).2).2 ∧
    ¬ (∀ i, i < stdConfig.MAX_BLOCKS →
        (bit_test (fs_delete stdConfig (some [97])
            (fs_write stdConfig (some [97]) (some [1]) 1 noFaults
              (fs_create stdConfig (some [97]) (fresh stdConfig)).2).2).2.bitmap i = true ↔
          (i < 10 ∨ ∃ nd ∈ (fs_delete stdConfig (some [97])
            (fs_write stdConfig (some [97]) (some [1]) 1 noFaults
              (fs_create stdConfig (some [97]) (fresh stdConfig)).2).2).2.inode_table,
            (i : Int) ∈ nd.blocks))) := by
  have hc : stdConfig.sane := by decide
  have hcreate := fs_create_fresh stdConfig hc (by decide) [97] (by decide) (by decide)
  obtain ⟨_, hv1, hv2, hex⟩ := create_then_matches stdConfig (fresh stdConfig) [97]
    (inv_fresh stdConfig hc).table_len hcreate
  have hr1 : Reachable stdConfig (fs_create stdConfig (some [97]) (fresh stdConfig)).2 :=
    Reachable.create (fresh stdConfig) (some [97]) Reachable.fresh
  have hr2 : Reachable stdConfig (fs_write stdConfig (some [97]) (some [1]) 1 noFaults
      (fs_create stdConfig (some [97]) (fresh stdConfig)).2).2 :=
    Reachable.write _ (some [97]) (some [1]) 1 noFaults hr1 (by decide) (by decide)
  have hfree : (fs_create stdConfig (some [97]) (fresh stdConfig)).2.sb.free_blocks = 2550 := by
    rw [fs_create_free_blocks, fresh_eq stdConfig hc]
    rfl
  have hw := fs_write_succeeds stdConfig hc _ hr1 [97] [1] 1 hv2 hex (by decide) (by decide)
    (by rw [hfree]; decide)
  obtain ⟨k, hk, hmatch, hfirst, hused, _, _, hblk, _⟩ := fs_write_block_list stdConfig hc _ hr1
    [97] [1] 1 noFaults (by decide) hw
  obtain ⟨hb1, _, _⟩ := hblk 0 (by decide)
  have hs1 := inv_reachable stdConfig hc _ hr1
  have hs2 := inv_reachable stdConfig hc _ hr2
  have hkeep := fs_write_keeps_names stdConfig _ hs1.table_len (some [97]) (some [1]) 1 noFaults
    [97]
  obtain ⟨hin, hlt, hcast, hbit⟩ := fs_delete_stale stdConfig hc _ hs2 [97] k hv1 hv2 hk
    ((hkeep k).2 hmatch) (fun j hj hm => hfirst j hj ((hkeep j).1 hm)) _
    (mem_own_getD _ 0 hused (data_block_ne_sentinel _ hb1))
  refine ⟨Reachable.delete _ (some [97]) hr2, fun hall => ?_⟩
  have h := (hall _ hlt).2 (Or.inr (by rw [hcast]; exact hin))
  rw [hbit] at h
  exact Bool.noConfusion h

/-- C6. Namespace invariant: in every reachable state no two used inodes share a name: two
used slots whose name fields compare equal under `strncmp(.., .., MAX_FILENAME)` (in
particular two used slots with identical name fields) are the same slot. -/
theorem C6_namespace_invariant (cfg : Config) (hc : cfg.sane) (s : FS) (h : Reachable cfg s)
    (i j : Nat)
    (hui : (s.inode_table.getD i no_inode).used = true)
    (huj : (s.inode_table.getD j no_inode).used = true)
    (hname : strncmp (s.inode_table.getD i no_inode).name (s.inode_table.getD j no_inode).name
        cfg.MAX_FILENAME = 0 ∨
      (s.inode_table.getD i no_inode).name = (s.inode_table.getD j no_inode).name) :
    i = j := by
  have hs := inv_reachable cfg hc s h
  apply hs.names i j (used_lt_length _ _ hui) (used_lt_length _ _ huj) hui huj
  rcases hname with h1 | h1
  · exact h1
  · rw [h1]; exact strncmp_self _ _

theorem C6_namespace_invariant_witness :
    tinyConfig.sane ∧ Reachable tinyConfig demo_state ∧
    (demo_state.inode_table.getD 0 no_inode).used = true ∧ 0 = 0 :=
  ⟨by decide,
   Reachable.write _ _ _ _ _ (Reachable.create _ _ Reachable.fresh) (by decide) (by decide),
   by decide,
   C6_namespace_invariant tinyConfig (by decide) demo_state
     (Reachable.write _ _ _ _ _ (Reachable.create _ _ Reachable.fresh) (by decide) (by decide))
     0 0 (by decide) (by decide) (Or.inr rfl)⟩

/-- C9. Deleting a nonexistent file: in every mounted state, for every valid name (non-empty,
shorter than `MAX_FILENAME`) that matches no used inode, `fs_delete` returns `-1` (NotFound)
and the whole state (superblock counters, bitmap, inode table, backing file) is unchanged. -/
theorem C9_delete_not_found (cfg : Config) (s : FS) (f : List Nat)
    (hm : 0 ≤ s.fs_fd) (hv1 : strlen f ≠ 0) (hv2 : strlen f < cfg.MAX_FILENAME)
    (hnone : ∀ j, j < cfg.MAX_FILES → ¬ slot_matches cfg s.inode_table f j) :
    fs_delete cfg (some f) s = (-1, s) := by
  unfold fs_delete
  rw [if_neg (by omega)]
  simp only
  rw [if_neg (by omega)]
  rcases find_file_spec cfg s.inode_table f 0 cfg.MAX_FILES with ⟨h1, _⟩ | ⟨k, _, hk, _, hmatch, _⟩
  · rw [if_pos h1]
  · exact absurd hmatch (hnone k (by omega))

theorem C9_delete_not_found_witness :
    0 ≤ (fresh tinyConfig).fs_fd ∧ strlen [97] ≠ 0 ∧ strlen [97] < tinyConfig.MAX_FILENAME ∧
    (∀ j, j < tinyConfig.MAX_FILES → ¬ slot_matches tinyConfig (fresh tinyConfig).inode_table [97] j) ∧
    fs_delete tinyConfig (some [97]) (fresh tinyConfig) = (-1, fresh tinyConfig) :=
  ⟨by decide, by decide, by decide, by decide,
   C9_delete_not_found tinyConfig (fresh tinyConfig) [97] (by decide) (by decide) (by decide)
     (by decide)⟩

/-- C10. Creating an existing file: in every mounted state, for every valid name held by a
used inode, `fs_create` returns `-1` (AlreadyExists) and the whole state is unchanged; in
particular, when a create of a name succeeds (on a table of `MAX_FILES` slots), creating the
same name again returns `-1` and changes nothing, so the used inodes stay as they are. -/
theorem C10_create_already_exists (cfg : Config) (s : FS) (f : List Nat)
    (hm : 0 ≤ s.fs_fd) (hv1 : strlen f ≠ 0) (hv2 : strlen f < cfg.MAX_FILENAME) :
    ((∃ j, j < cfg.MAX_FILES ∧ slot_matches cfg s.inode_table f j) →
      fs_create cfg (some f) s = (-1, s)) ∧
    (s.inode_table.length = cfg.MAX_FILES → (fs_create cfg (some f) s).1 = 0 →
      fs_create cfg (some f) (fs_create cfg (some f) s).2 = (-1, (fs_create cfg (some f) s).2)) := by
  have key : ∀ t : FS, 0 ≤ t.fs_fd →
      (∃ j, j < cfg.MAX_FILES ∧ slot_matches cfg t.inode_table f j) →
      fs_create cfg (some f) t = (-1, t) := by
    intro t ht hex
    obtain ⟨j, hj, hmatch⟩ := hex
    unfold fs_create
    rw [if_neg (by omega)]
    simp only
    rw [if_neg (by omega)]
    have hne : find_file cfg t.inode_table f 0 cfg.MAX_FILES ≠ -1 := by
      intro h1
      exact find_file_neg cfg t.inode_table f 0 cfg.MAX_FILES h1 j (by omega) (by omega) hmatch
    rw [if_pos hne]
  refine ⟨key s hm, fun hlen hok => ?_⟩
  obtain ⟨h1, _, _, h4⟩ := create_then_matches cfg s f hlen hok
  exact key _ h1 h4

theorem C10_create_already_exists_witness :
    0 ≤ (fresh tinyConfig).fs_fd ∧ strlen [120] ≠ 0 ∧ strlen [120] < tinyConfig.MAX_FILENAME ∧
    (fresh tinyConfig).inode_table.length = tinyConfig.MAX_FILES ∧
    (fs_create tinyConfig (some [120]) (fresh tinyConfig)).1 = 0 ∧
    fs_create tinyConfig (some [120]) (fs_create tinyConfig (some [120]) (fresh tinyConfig)).2 =
      (-1, (fs_create tinyConfig (some [120]) (fresh tinyConfig)).2) :=
  ⟨by decide, by decide, by decide, by decide, by decide,
   (C10_create_already_exists tinyConfig (fresh tinyConfig) [120] (by decide) (by decide)
     (by decide)).2 (by decide) (by decide)⟩

theorem overflow_start_facts :
    Inv stdConfig (fs_create stdConfig (some [97]) (fresh stdConfig)).2 ∧
    ∃ j, j < stdConfig.MAX_FILES ∧
      slot_matches stdConfig (fs_create stdConfig (some [97]) (fresh stdConfig)).2.inode_table
        [97] j := by
  have hc : stdConfig.sane := by decide
  have hcreate := fs_create_fresh stdConfig hc (by decide) [97] (by decide) (by decide)
  obtain ⟨_, _, _, h4⟩ := create_then_matches stdConfig (fresh stdConfig) [97]
    (inv_fresh stdConfig hc).table_len hcreate
  exact ⟨inv_reachable stdConfig hc _
    (Reachable.create (fresh stdConfig) (some [97]) Reachable.fresh), h4⟩

/-- C1 (code defect). On the image left by `fs_format`, `fs_mount` and `fs_create("a")`
(2560 blocks of 4096 bytes), for a buffer `B` of `INT_MAX = 2147483647` bytes,
`fs_write("a", B, len(B))` returns `0`, yet a following `fs_read("a", buffer, 2147483647)`
without I/O failure returns `0` bytes instead of `len(B)`: the `int` sum
`size + BLOCK_SIZE - 1` wraps to a negative value, so no block is allocated or written. -/
theorem C1_round_trip_overflow :
    (List.replicate 2147483647 (0 : Nat)).length = 2147483647 ∧
    (fs_write stdConfig (some [97]) (some (List.replicate 2147483647 0)) 2147483647 noFaults
      (fs_create stdConfig (some [97]) (fresh stdConfig)).2).1 = 0 ∧
    fs_read stdConfig (some [97]) false 2147483647 noFaults
      (fs_write stdConfig (some [97]) (some (List.replicate 2147483647 0)) 2147483647 noFaults
        (fs_create stdConfig (some [97]) (fresh stdConfig)).2).2 = (0, []) := by
  obtain ⟨hs, hex⟩ := overflow_start_facts
  obtain ⟨h1, _, _, _, _, h5⟩ := fs_write_overflow stdConfig (by decide) _ hs [97]
    (List.replicate 2147483647 0) 2147483647 noFaults (by decide) hex (by decide) (by decide)
  exact ⟨List.length_replicate _ _, h1, h5 2147483647 noFaults (by omega)⟩

/-- C7 (code defect). On the image left by `fs_format`, `fs_mount` and `fs_create("a")`,
`fs_write("a", B, 2147483647)` returns `0` and leaves the inode of `"a"` with
`size = 2147483647` and no assigned block entry, although
`ceil(2147483647 / 4096) = 524288` entries are due. -/
theorem C7_block_list_overflow :
    (fs_write stdConfig (some [97]) (some (List.replicate 2147483647 0)) 2147483647 noFaults
      (fs_create stdConfig (some [97]) (fresh stdConfig)).2).1 = 0 ∧
    ∃ k, slot_matches stdConfig
        (fs_create stdConfig (some [97]) (fresh stdConfig)).2.inode_table [97] k ∧
      ((fs_write stdConfig (some [97]) (some (List.replicate 2147483647 0)) 2147483647 noFaults
        (fs_create stdConfig (some [97]) (fresh stdConfig)).2).2.inode_table.getD k
          no_inode).size = 2147483647 ∧
      assigned ((fs_write stdConfig (some [97]) (some (List.replicate 2147483647 0)) 2147483647
        noFaults (fs_create stdConfig (some [97]) (fresh stdConfig)).2).2.inode_table.getD k
          no_inode) = [] ∧
      ((2147483647 : Int) + stdConfig.BLOCK_SIZE - 1) / stdConfig.BLOCK_SIZE = 524288 := by
  obtain ⟨hs, hex⟩ := overflow_start_facts
  obtain ⟨h1, k, hk, hmatch, htbl, _⟩ := fs_write_overflow stdConfig (by decide) _
    hs [97] (List.replicate 2147483647 0) 2147483647 noFaults (by decide) hex (by decide)
    (by decide)
  have hk' : k < (fs_create stdConfig (some [97]) (fresh stdConfig)).2.inode_table.length := by
    rw [hs.table_len]; exact hk
  refine ⟨h1, k, hmatch, ?_⟩
  rw [htbl, getD_set_eq _ _ _ _ hk']
  refine ⟨rfl, ?_, by decide⟩
  unfold assigned
  exact filter_replicate_sentinel _

/-- C8 (code defect). On the mounted image left by `fs_format`, `fs_mount` and
`fs_create("a")`, `fs_write("a", B, 2147483647)` needs `ceil(2147483647 / 4096) = 524288`
blocks, more than `MAX_DIRECT_BLOCKS = 12`, yet it returns `0` and not `-2`: the machine
value of `required_blocks` is `-524287`. -/
theorem C8_space_check_overflow :
    0 ≤ (fs_create stdConfig (some [97]) (fresh stdConfig)).2.fs_fd ∧
    (∃ j, j < stdConfig.MAX_FILES ∧
      slot_matches stdConfig (fs_create stdConfig (some [97]) (fresh stdConfig)).2.inode_table
        [97] j) ∧
    ((2147483647 : Int) + stdConfig.BLOCK_SIZE - 1) / stdConfig.BLOCK_SIZE >
      stdConfig.MAX_DIRECT_BLOCKS ∧
    required_blocks stdConfig 2147483647 = -524287 ∧
    (fs_write stdConfig (some [97]) (some (List.replicate 2147483647 0)) 2147483647 noFaults
      (fs_create stdConfig (some [97]) (fresh stdConfig)).2).1 = 0 := by
  obtain ⟨hs, hex⟩ := overflow_start_facts
  obtain ⟨h1, _⟩ := fs_write_overflow stdConfig (by decide) _ hs [97]
    (List.replicate 2147483647 0) 2147483647 noFaults (by decide) hex (by decide) (by decide)
  exact ⟨hs.mounted, hex, by decide, by rfl, h1⟩

/-- C17 (amended). Mount validation: when the superblock stored in the image differs from the
compiled-in constants in `total_blocks`, `block_size` or `total_inodes`, `fs_mount` returns
`-1` whatever the outcome of each I/O operation, and the in-memory bitmap and inode table and
the image are as before the call. When the open fails or the first seek does not fail,
`fs_fd = -1` afterwards (unmounted, file closed). The in-memory superblock is not preserved:
once the open, the seek and the read of the superblock have succeeded it holds the rejected
superblock of the image; when one of them fails it is as before the call. -/
theorem C17_mount_validation (cfg : Config) (s : FS) (path : List Nat) (ev : Faults)
    (r : superblock) (hdisk : s.disk.sb = some r)
    (hbad : r.total_blocks ≠ cfg.MAX_BLOCKS ∨ r.block_size ≠ cfg.BLOCK_SIZE ∨
      r.total_inodes ≠ cfg.MAX_FILES) :
    (fs_mount cfg (some path) ev s).1 = -1 ∧
    ((ev 0).isSome = true ∨ ev 1 = none → (fs_mount cfg (some path) ev s).2.fs_fd = -1) ∧
    (fs_mount cfg (some path) ev s).2.bitmap = s.bitmap ∧
    (fs_mount cfg (some path) ev s).2.inode_table = s.inode_table ∧
    (fs_mount cfg (some path) ev s).2.disk = s.disk ∧
    (fs_mount cfg (some path) ev s).2.sb =
      if (ev 0).isSome = true ∨ (ev 1).isSome = true ∨ (ev 2).isSome = true then s.sb
      else r :=
  fs_mount_mismatch cfg s path ev r hdisk hbad

theorem C17_mount_validation_witness :
    (boot stdConfig tampered_disk).disk.sb = some { fresh_sb stdConfig with total_blocks := 0 } ∧
    (({ fresh_sb stdConfig with total_blocks := 0 } : superblock).total_blocks ≠
        stdConfig.MAX_BLOCKS ∨
      ({ fresh_sb stdConfig with total_blocks := 0 } : superblock).block_size ≠
        stdConfig.BLOCK_SIZE ∨
      ({ fresh_sb stdConfig with total_blocks := 0 } : superblock).total_inodes ≠
        stdConfig.MAX_FILES) ∧
    (fs_mount stdConfig (some image_path) noFaults (boot stdConfig tampered_disk)).1 = -1 ∧
    (fs_mount stdConfig (some image_path) noFaults (boot stdConfig tampered_disk)).2.fs_fd = -1 ∧
    (fs_mount stdConfig (some image_path) noFaults (boot stdConfig tampered_disk)).2.bitmap =
      (boot stdConfig tampered_disk).bitmap ∧
    (fs_mount stdConfig (some image_path) noFaults (boot stdConfig tampered_disk)).2.inode_table =
      (boot stdConfig tampered_disk).inode_table ∧
    (fs_mount stdConfig (some image_path) noFaults (boot stdConfig tampered_disk)).2.disk =
      (boot stdConfig tampered_disk).disk ∧
    (fs_mount stdConfig (some image_path) noFaults (boot stdConfig tampered_disk)).2.sb =
      { fresh_sb stdConfig with total_blocks := 0 } :=
  have h := C17_mount_validation stdConfig (boot stdConfig tampered_disk) image_path noFaults
    { fresh_sb stdConfig with total_blocks := 0 } rfl (Or.inl (by decide))
  ⟨rfl, Or.inl (by decide), h.1, h.2.1 (Or.inr rfl), h.2.2.1, h.2.2.2.1, h.2.2.2.2.1,
    h.2.2.2.2.2.trans (if_neg (by decide))⟩

/-- C17, the claim as worded fails. Mounting a formatted standard image whose superblock
holds `total_blocks = 0` fails with `-1`, but the in-memory superblock is no longer the one
held before the call: `fs_mount` reads the superblock of the image into the global `sb`
before it validates it. -/
theorem C17_superblock_overwritten :
    tampered_disk.sb = some { fresh_sb stdConfig with total_blocks := 0 } ∧
    ({ fresh_sb stdConfig with total_blocks := 0 } : superblock).total_blocks ≠
      stdConfig.MAX_BLOCKS ∧
    (fs_mount stdConfig (some image_path) noFaults (boot stdConfig tampered_disk)).1 = -1 ∧
    (fs_mount stdConfig (some image_path) noFaults (boot stdConfig tampered_disk)).2.sb ≠
      (boot stdConfig tampered_disk).sb := by
  obtain ⟨h1, _, _, _, _, h6⟩ := fs_mount_mismatch stdConfig (boot stdConfig tampered_disk)
    image_path noFaults { fresh_sb stdConfig with total_blocks := 0 } rfl (Or.inl (by decide))
  refine ⟨rfl, by decide, h1, ?_⟩
  rw [h6, if_neg (by decide)]
  decide

/-- C18 (code defect). On a freshly formatted and mounted standard image, `fs_write` and
`fs_read` called with the empty name return `-1` (NotFound) and not their invalid-argument
code `-3`: unlike `fs_create` and `fs_delete`, they do not test `strlen(filename) == 0`. -/
theorem C18_empty_name_not_rejected :
    strlen [] = 0 ∧ 0 ≤ (fresh stdConfig).fs_fd ∧
    fs_write stdConfig (some []) (some [1]) 1 noFaults (fresh stdConfig) =
      (-1, fresh stdConfig) ∧
    fs_read stdConfig (some []) false 1 noFaults (fresh stdConfig) = (-1, []) := by
  have hs := inv_fresh stdConfig (by decide)
  exact ⟨rfl, hs.mounted,
    fs_write_not_found stdConfig _ [] [1] 1 noFaults hs.mounted (by decide) (by decide)
      (fun j _ => fresh_no_match stdConfig (by decide) [] j),
    fs_read_not_found stdConfig _ [] 1 noFaults hs.mounted (by decide) (by decide)
      (fun j _ => fresh_no_match stdConfig (by decide) [] j)⟩

/-- C19. NotMounted: in the state left by `fs_unmount` and in the state at program start,
`fs_fd` is `-1`, and every call of `fs_create`, `fs_delete`, `fs_list`, `fs_write` and
`fs_read`, for all arguments and I/O outcomes, returns its not-mounted code (`-3`, `-2`, `-1`,
`-3`, `-3`) and leaves superblock, bitmap, inode table and image as they are (`fs_list` and
`fs_read` store nothing and have no effect on the state). -/
theorem C19_not_mounted (cfg : Config) (s : FS) (d : Disk) (ev : Faults)
    (filename data : Option (List Nat)) (size max_files : Int)
    (buffer_null filenames_null : Bool) (ev' : Faults) :
    ((fs_unmount cfg ev s).fs_fd = -1 ∧
      fs_create cfg filename (fs_unmount cfg ev s) = (-3, fs_unmount cfg ev s) ∧
      fs_delete cfg filename (fs_unmount cfg ev s) = (-2, fs_unmount cfg ev s) ∧
      fs_list cfg filenames_null max_files (fs_unmount cfg ev s) = (-1, []) ∧
      fs_write cfg filename data size ev' (fs_unmount cfg ev s) = (-3, fs_unmount cfg ev s) ∧
      fs_read cfg filename buffer_null size ev' (fs_unmount cfg ev s) = (-3, [])) ∧
    ((boot cfg d).fs_fd = -1 ∧
      fs_create cfg filename (boot cfg d) = (-3, boot cfg d) ∧
      fs_delete cfg filename (boot cfg d) = (-2, boot cfg d) ∧
      fs_list cfg filenames_null max_files (boot cfg d) = (-1, []) ∧
      fs_write cfg filename data size ev' (boot cfg d) = (-3, boot cfg d) ∧
      fs_read cfg filename buffer_null size ev' (boot cfg d) = (-3, [])) :=
  ⟨⟨rfl, not_mounted_calls cfg (fs_unmount cfg ev s) (by show (-1 : Int) < 0; decide) filename data size max_files
      buffer_null filenames_null ev'⟩,
   ⟨rfl, not_mounted_calls cfg (boot cfg d) (by show (-1 : Int) < 0; decide) filename data size max_files
      buffer_null filenames_null ev'⟩⟩

/-- C11 (amended). `fs_create` on a fresh name: in a mounted state (table of `MAX_FILES`
slots with `MAX_DIRECT_BLOCKS` block entries each), for a valid name that no used inode holds:
if no slot is unused the call returns `-2` (TableFull) and the state is unchanged; otherwise it
returns `0`, the lowest-index unused slot `k` becomes used with that name, size `0` and all
block entries `-1`, every other slot, the bitmap, `free_blocks` and the image are unchanged,
and `free_inodes` is decremented as an `int`: it decreases by exactly 1 unless it was
`INT_MIN`. After `MAX_FILES` successful creates on a fresh image the call returns `-2`. -/
theorem C11_create_fresh_name (cfg : Config) (s : FS) (f : List Nat)
    (hm : 0 ≤ s.fs_fd) (hlen : s.inode_table.length = cfg.MAX_FILES)
    (hblk : ∀ nd ∈ s.inode_table, nd.blocks.length = cfg.MAX_DIRECT_BLOCKS)
    (hv1 : strlen f ≠ 0) (hv2 : strlen f < cfg.MAX_FILENAME)
    (hnone : ∀ j, j < cfg.MAX_FILES → ¬ slot_matches cfg s.inode_table f j) :
    ((∀ j, j < cfg.MAX_FILES → (s.inode_table.getD j no_inode).used = true) →
      fs_create cfg (some f) s = (-2, s)) ∧
    (∀ k, k < cfg.MAX_FILES → (s.inode_table.getD k no_inode).used = false →
      (∀ j, j < k → (s.inode_table.getD j no_inode).used = true) →
      (fs_create cfg (some f) s).1 = 0 ∧
      ((fs_create cfg (some f) s).2.inode_table.getD k no_inode).used = true ∧
      slot_matches cfg (fs_create cfg (some f) s).2.inode_table f k ∧
      cname ((fs_create cfg (some f) s).2.inode_table.getD k no_inode).name cfg.MAX_FILENAME =
        cname f cfg.MAX_FILENAME ∧
      ((fs_create cfg (some f) s).2.inode_table.getD k no_inode).size = 0 ∧
      ((fs_create cfg (some f) s).2.inode_table.getD k no_inode).blocks =
        List.replicate cfg.MAX_DIRECT_BLOCKS (-1) ∧
      (fs_create cfg (some f) s).2.sb.free_inodes = wrap32 (s.sb.free_inodes - 1) ∧
      (INT_MIN < s.sb.free_inodes → s.sb.free_inodes ≤ INT_MAX →
        (fs_create cfg (some f) s).2.sb.free_inodes = s.sb.free_inodes - 1) ∧
      (∀ j, j ≠ k → (fs_create cfg (some f) s).2.inode_table.getD j no_inode =
        s.inode_table.getD j no_inode) ∧
      (fs_create cfg (some f) s).2.inode_table.length = s.inode_table.length ∧
      (fs_create cfg (some f) s).2.bitmap = s.bitmap ∧
      (fs_create cfg (some f) s).2.sb.free_blocks = s.sb.free_blocks ∧
      (fs_create cfg (some f) s).2.sb.total_blocks = s.sb.total_blocks ∧
      (fs_create cfg (some f) s).2.sb.block_size = s.sb.block_size ∧
      (fs_create cfg (some f) s).2.sb.total_inodes = s.sb.total_inodes ∧
      (fs_create cfg (some f) s).2.disk = s.disk ∧
      (fs_create cfg (some f) s).2.fs_fd = s.fs_fd) ∧
    (cfg.sane → Created cfg cfg.MAX_FILES s → fs_create cfg (some f) s = (-2, s)) := by
  refine ⟨fs_create_full cfg s f hm hv1 hv2 hnone, fun k hk hfree hfirst => ?_,
    fun hc hcr => ?_⟩
  · have hk' : k < s.inode_table.length := by rw [hlen]; exact hk
    rw [fs_create_slot cfg s f hm hv1 hv2 hnone k hk hfree hfirst]
    dsimp only
    rw [getD_set_eq _ _ _ _ hk']
    refine ⟨rfl, rfl, ?_, ?_, rfl, ?_, rfl, ?_, ?_, ?_, rfl, rfl, rfl, rfl, rfl, rfl, rfl⟩
    · unfold slot_matches
      rw [getD_set_eq _ _ _ _ hk']
      refine ⟨rfl, ?_⟩
      rw [stored_name_matches f _ hv2]
      exact strncmp_self _ _
    · rw [strncpy_set_last f _ hv2, cname_strncpy]
    · exact create_fill_loop_all _ _
        (hblk _ (getD_mem_table _ _ hk'))
    · intro h1 h2
      exact wrap32_of_range _ (by unfold INT_MIN at h1 ⊢; omega) (by omega)
    · intro j hj
      exact getD_set_ne _ _ _ _ _ (fun e => hj e.symm)
    · exact List.length_set _ _ _
  · have hcount := created_unused_count cfg hc _ s hcr
    apply fs_create_full cfg s f hm hv1 hv2 hnone
    intro j hj
    exact unused_count_zero _ (by omega) j (by rw [hlen]; exact hj)

theorem C11_create_fresh_name_witness :
    0 ≤ (fresh tinyConfig).fs_fd ∧ (fresh tinyConfig).inode_table.length = tinyConfig.MAX_FILES ∧
    (∀ nd ∈ (fresh tinyConfig).inode_table, nd.blocks.length = tinyConfig.MAX_DIRECT_BLOCKS) ∧
    strlen [97] ≠ 0 ∧ strlen [97] < tinyConfig.MAX_FILENAME ∧
    (∀ j, j < tinyConfig.MAX_FILES →
      ¬ slot_matches tinyConfig (fresh tinyConfig).inode_table [97] j) ∧
    ((fresh tinyConfig).inode_table.getD 0 no_inode).used = false ∧
    (fs_create tinyConfig (some [97]) (fresh tinyConfig)).1 = 0 ∧
    ((fs_create tinyConfig (some [97]) (fresh tinyConfig)).2.inode_table.getD 0 no_inode).blocks =
      List.replicate tinyConfig.MAX_DIRECT_BLOCKS (-1) ∧
    (fs_create tinyConfig (some [97]) (fresh tinyConfig)).2.sb.free_inodes =
      (fresh tinyConfig).sb.free_inodes - 1 :=
  have h := (C11_create_fresh_name tinyConfig (fresh tinyConfig) [97] (by decide) (by decide)
    (by decide) (by decide) (by decide) (by decide)).2.1 0 (by decide) (by decide) (by decide)
  ⟨by decide, by decide, by decide, by decide, by decide, by decide, by decide, h.1,
    h.2.2.2.2.2.1, h.2.2.2.2.2.2.2.1 (by decide) (by decide)⟩

/-- C11, the claim as worded fails. `fs_mount` accepts a formatted standard image whose
superblock holds `free_inodes = INT_MIN` (it validates three other fields only); in that
mounted state `fs_create("a")` returns `0`, and `free_inodes` is not one less than before:
the `int` decrement of `INT_MIN` yields `INT_MAX`. -/
theorem C11_free_inodes_wraps :
    (fs_mount stdConfig (some image_path) noFaults (boot stdConfig crafted_disk)).1 = 0 ∧
    crafted_state.sb.free_inodes = -2147483648 ∧
    (∀ j, j < stdConfig.MAX_FILES → ¬ slot_matches stdConfig crafted_state.inode_table [97] j) ∧
    (crafted_state.inode_table.getD 0 no_inode).used = false ∧
    (fs_create stdConfig (some [97]) crafted_state).1 = 0 ∧
    (fs_create stdConfig (some [97]) crafted_state).2.sb.free_inodes = 2147483647 ∧
    (fs_create stdConfig (some [97]) crafted_state).2.sb.free_inodes ≠
      crafted_state.sb.free_inodes - 1 := by
  have heq : crafted_state = (fs_mount stdConfig (some image_path) noFaults
      (boot stdConfig crafted_disk)).2 := rfl
  rw [heq, crafted_state_eq]
  dsimp only
  have hnone : ∀ j, j < stdConfig.MAX_FILES →
      ¬ slot_matches stdConfig (List.replicate stdConfig.MAX_FILES (empty_inode stdConfig)) [97] j := by
    intro j _ hm
    have := hm.1
    rw [replicate_empty_unused] at this
    exact Bool.noConfusion this
  refine ⟨rfl, rfl, hnone, replicate_empty_unused _ _ _, ?_⟩
  rw [fs_create_slot stdConfig _ [97] (by decide) (by decide) (by decide) hnone 0 (by decide)
    (replicate_empty_unused _ _ _) (fun j hj => absurd hj (Nat.not_lt_zero j))]
  exact ⟨rfl, by decide, by decide⟩

/-- C15. `fs_list` in a mounted state (table of `MAX_FILES` slots), for a limit `> 0` and a
non-null output array: the count returned is `min(limit, number of used slots)`, that many
rows are stored, and for each `k` below the count row `k` is the name of the `k`-th used slot
in ascending slot order (the name field copied by `strncpy` and terminated; as a C string, the
name the slot holds). `fs_list` only reads the state: it has no effect on it. -/
theorem C15_list (cfg : Config) (s : FS) (limit : Int) (hm : 0 ≤ s.fs_fd)
    (hlen : s.inode_table.length = cfg.MAX_FILES) (hl : 0 < limit) :
    (fs_list cfg false limit s).1 = min limit ((used_slots s.inode_table).length : Int) ∧
    (fs_list cfg false limit s).2.length = (fs_list cfg false limit s).1.toNat ∧
    (∀ k : Nat, (k : Int) < (fs_list cfg false limit s).1 →
      k < (used_slots s.inode_table).length ∧
      (fs_list cfg false limit s).2.getD k [] =
        list_row cfg ((used_slots s.inode_table).getD k no_inode) ∧
      cname ((fs_list cfg false limit s).2.getD k []) cfg.MAX_FILENAME =
        slot_name cfg ((used_slots s.inode_table).getD k no_inode)) := by
  rw [fs_list_spec cfg s limit hm hlen hl]
  simp only
  have hcount : (((used_slots s.inode_table).take limit.toNat).length : Int) =
      min limit ((used_slots s.inode_table).length : Int) := by
    rw [List.length_take]
    omega
  refine ⟨hcount, ?_, fun k hk => ?_⟩
  · rw [List.length_map, Int.toNat_ofNat]
  · rw [List.length_take] at hk
    have hk1 : k < (used_slots s.inode_table).length := by omega
    have hk2 : k < limit.toNat := by omega
    have hk3 : k < ((used_slots s.inode_table).take limit.toNat).length := by
      rw [List.length_take]; omega
    have hrow : (((used_slots s.inode_table).take limit.toNat).map (list_row cfg)).getD k [] =
        list_row cfg ((used_slots s.inode_table).getD k no_inode) := by
      rw [List.getD_eq_getElem _ _ (by rw [List.length_map]; exact hk3), List.getElem_map,
        List.getElem_take, List.getD_eq_getElem _ _ hk1]
    refine ⟨hk1, hrow, ?_⟩
    rw [hrow]
    exact cname_list_row _ _

theorem C15_list_witness :
    0 ≤ demo_state.fs_fd ∧ demo_state.inode_table.length = tinyConfig.MAX_FILES ∧
    (0 : Int) < 2 ∧
    (fs_list tinyConfig false 2 demo_state).1 = 1 ∧
    (fs_list tinyConfig false 2 demo_state).2.getD 0 [] = [97, 0, 0, 0] :=
  have h := C15_list tinyConfig demo_state 2 (by decide) (by decide) (by decide)
  ⟨by decide, by decide, by decide, h.1.trans (by decide),
    (h.2.2 0 (by rw [h.1]; decide)).2.1.trans (by decide)⟩

/-- C12. `fs_delete` on an existing file: in every reachable state, for a name `f` held by
the used inode of slot `k`, `fs_delete` returns `0`; afterwards slot `k` is unused with its
name, size and block entries as they were, every other slot is unchanged, the bit of every
block that was assigned to the file is clear and no other bit has changed, `free_blocks` has
grown by the number of assigned blocks, `free_inodes` has grown by 1, the image is untouched,
and a following `fs_read`, `fs_write` (non-null buffer, size `≥ 0`) or `fs_delete` of that
name returns `-1` (NotFound). -/
theorem C12_delete_existing (cfg : Config) (hc : cfg.sane) (s : FS) (h : Reachable cfg s)
    (f : List Nat) (k : Nat) (hk : k < cfg.MAX_FILES)
    (hmatch : slot_matches cfg s.inode_table f k) :
    (fs_delete cfg (some f) s).1 = 0 ∧
    ((fs_delete cfg (some f) s).2.inode_table.getD k no_inode).used = false ∧
    ((fs_delete cfg (some f) s).2.inode_table.getD k no_inode).name =
      (s.inode_table.getD k no_inode).name ∧
    ((fs_delete cfg (some f) s).2.inode_table.getD k no_inode).size =
      (s.inode_table.getD k no_inode).size ∧
    ((fs_delete cfg (some f) s).2.inode_table.getD k no_inode).blocks =
      (s.inode_table.getD k no_inode).blocks ∧
    (∀ j, j ≠ k → (fs_delete cfg (some f) s).2.inode_table.getD j no_inode =
      s.inode_table.getD j no_inode) ∧
    (∀ i : Nat, (i : Int) ∈ assigned (s.inode_table.getD k no_inode) →
      bit_test (fs_delete cfg (some f) s).2.bitmap i = false) ∧
    (∀ i : Nat, (i : Int) ∉ assigned (s.inode_table.getD k no_inode) →
      bit_test (fs_delete cfg (some f) s).2.bitmap i = bit_test s.bitmap i) ∧
    (fs_delete cfg (some f) s).2.sb.free_blocks =
      s.sb.free_blocks + (assigned (s.inode_table.getD k no_inode)).length ∧
    (fs_delete cfg (some f) s).2.sb.free_inodes = s.sb.free_inodes + 1 ∧
    (fs_delete cfg (some f) s).2.disk = s.disk ∧
    (∀ (size : Int) (ev : Faults), 0 ≤ size →
      fs_read cfg (some f) false size ev (fs_delete cfg (some f) s).2 = (-1, [])) ∧
    (∀ (dat : List Nat) (size : Int) (ev : Faults), 0 ≤ size →
      fs_write cfg (some f) (some dat) size ev (fs_delete cfg (some f) s).2 =
        (-1, (fs_delete cfg (some f) s).2)) ∧
    fs_delete cfg (some f) (fs_delete cfg (some f) s).2 = (-1, (fs_delete cfg (some f) s).2) := by
  have hs := inv_reachable cfg hc s h
  have hk' : k < s.inode_table.length := by rw [hs.table_len]; exact hk
  obtain ⟨hn1, hn2⟩ := reachable_names_valid cfg hc s h k hmatch.1
  obtain ⟨hv1, hv2⟩ := valid_of_match _ f _ hmatch.2 hn1 hn2
  have hnone := fs_delete_no_match cfg s hs f k hk hmatch
  have hnn : ∀ b ∈ assigned (s.inode_table.getD k no_inode), (0 : Int) ≤ b := by
    intro b hb
    have hb' : b ∈ own (s.inode_table.getD k no_inode) := by
      unfold own; rw [if_pos hmatch.1]; exact hb
    have := (hs.range b ((owned_perm s.inode_table k hk').mem_iff.2
      (List.mem_append_left _ hb'))).1
    have h0 : (0 : Int) ≤ (DATA_BLOCK_START : Int) := Int.natCast_nonneg _
    omega
  rw [fs_delete_spec cfg hc s hs f hv1 hv2 k hk hmatch]
  dsimp only
  rw [getD_set_eq _ _ _ _ hk']
  refine ⟨rfl, rfl, rfl, rfl, rfl, fun j hj => getD_set_ne _ _ _ _ _ (fun e => hj e.symm),
    fun i hi => ?_, fun i hi => ?_, rfl, rfl, rfl, fun size ev h0 => ?_,
    fun dat size ev h0 => ?_, ?_⟩
  · rw [bit_test_clear_list _ _ hnn, decide_eq_false (fun hcon => hcon hi), Bool.and_false]
  · rw [bit_test_clear_list _ _ hnn, decide_eq_true hi, Bool.and_true]
  · exact fs_read_not_found cfg _ f size ev hs.mounted h0 hv2 hnone
  · exact fs_write_not_found cfg _ f dat size ev hs.mounted h0 hv2 hnone
  · exact fs_delete_not_found cfg _ f hs.mounted hv1 hv2 hnone

theorem C12_delete_existing_witness :
    tinyConfig.sane ∧ Reachable tinyConfig demo_state ∧ 0 < tinyConfig.MAX_FILES ∧
    slot_matches tinyConfig demo_state.inode_table [97] 0 ∧
    (fs_delete tinyConfig (some [97]) demo_state).1 = 0 ∧
    (fs_delete tinyConfig (some [97]) demo_state).2.sb.free_blocks =
      demo_state.sb.free_blocks + (assigned (demo_state.inode_table.getD 0 no_inode)).length ∧
    fs_delete tinyConfig (some [97]) (fs_delete tinyConfig (some [97]) demo_state).2 =
      (-1, (fs_delete tinyConfig (some [97]) demo_state).2) :=
  have h := C12_delete_existing tinyConfig (by decide) demo_state
    (Reachable.write _ _ _ _ _ (Reachable.create _ _ Reachable.fresh) (by decide) (by decide))
    [97] 0 (by decide) (by decide)
  ⟨by decide,
   Reachable.write _ _ _ _ _ (Reachable.create _ _ Reachable.fresh) (by decide) (by decide),
   by decide, by decide, h.1, h.2.2.2.2.2.2.2.2.1, h.2.2.2.2.2.2.2.2.2.2.2.2.2⟩

/-- C13 (code defect). On the image left by `fs_format`, `fs_mount` and `fs_create("a")`,
`fs_write("a", B, 2147483647)` returns `0`; the write needs
`ceil(2147483647 / 4096) = 524288` blocks, yet the file's new block list is empty and
`free_blocks` is its old value plus the number of old blocks, not that minus `524288`: the
machine value of `required_blocks` is `-524287`, so the first-fit scan allocates nothing. -/
theorem C13_first_fit_overflow :
    (fs_write stdConfig (some [97]) (some (List.replicate 2147483647 0)) 2147483647 noFaults
      (fs_create stdConfig (some [97]) (fresh stdConfig)).2).1 = 0 ∧
    ((2147483647 : Int) + stdConfig.BLOCK_SIZE - 1) / stdConfig.BLOCK_SIZE = 524288 ∧
    ∃ k, slot_matches stdConfig
        (fs_create stdConfig (some [97]) (fresh stdConfig)).2.inode_table [97] k ∧
      assigned ((fs_write stdConfig (some [97]) (some (List.replicate 2147483647 0)) 2147483647
        noFaults (fs_create stdConfig (some [97]) (fresh stdConfig)).2).2.inode_table.getD k
          no_inode) = [] ∧
      (fs_write stdConfig (some [97]) (some (List.replicate 2147483647 0)) 2147483647 noFaults
        (fs_create stdConfig (some [97]) (fresh stdConfig)).2).2.sb.free_blocks =
        (fs_create stdConfig (some [97]) (fresh stdConfig)).2.sb.free_blocks +
          (assigned ((fs_create stdConfig (some [97])
            (fresh stdConfig)).2.inode_table.getD k no_inode)).length ∧
      (fs_write stdConfig (some [97]) (some (List.replicate 2147483647 0)) 2147483647 noFaults
        (fs_create stdConfig (some [97]) (fresh stdConfig)).2).2.sb.free_blocks ≠
        (fs_create stdConfig (some [97]) (fresh stdConfig)).2.sb.free_blocks +
          (assigned ((fs_create stdConfig (some [97])
            (fresh stdConfig)).2.inode_table.getD k no_inode)).length - 524288 := by
  have hc : stdConfig.sane := by decide
  have hcreate := fs_create_fresh stdConfig hc (by decide) [97] (by decide) (by decide)
  obtain ⟨_, _, hv, hex⟩ := create_then_matches stdConfig (fresh stdConfig) [97]
    (inv_fresh stdConfig hc).table_len hcreate
  have hr : Reachable stdConfig (fs_create stdConfig (some [97]) (fresh stdConfig)).2 :=
    Reachable.create (fresh stdConfig) (some [97]) Reachable.fresh
  obtain ⟨hret, _⟩ := fs_write_overflow stdConfig hc _ (inv_reachable stdConfig hc _ hr) [97]
    (List.replicate 2147483647 0) 2147483647 noFaults hv hex (by decide) (by decide)
  obtain ⟨k, _, hmatch, hasg, hfb⟩ := fs_write_overflow_alloc stdConfig hc _ hr [97]
    (List.replicate 2147483647 0) 2147483647 noFaults (by decide) (by decide) hret
  refine ⟨hret, by decide, k, hmatch, hasg, hfb, ?_⟩
  rw [hfb]
  exact int_ne_sub _ 524288 (by decide)

/-- C14 (code defect). On the image left by `fs_format`, `fs_mount` and `fs_create("a")`,
`fs_write("a", B, 2147483647)` with a buffer `B` of `2147483647` bytes returns `0` and sets
the inode's size to `2147483647`; a following `fs_read("a", buffer, 1)` without I/O failure
returns `0` and copies nothing, not `min(1, inode.size) = 1` byte of `B`: the write stored
the size without allocating any block. -/
theorem C14_bounded_read_overflow :
    (List.replicate 2147483647 (0 : Nat)).length = 2147483647 ∧
    (fs_write stdConfig (some [97]) (some (List.replicate 2147483647 0)) 2147483647 noFaults
      (fs_create stdConfig (some [97]) (fresh stdConfig)).2).1 = 0 ∧
    (∃ k, slot_matches stdConfig
        (fs_create stdConfig (some [97]) (fresh stdConfig)).2.inode_table [97] k ∧
      ((fs_write stdConfig (some [97]) (some (List.replicate 2147483647 0)) 2147483647 noFaults
        (fs_create stdConfig (some [97]) (fresh stdConfig)).2).2.inode_table.getD k
          no_inode).size = 2147483647) ∧
    fs_read stdConfig (some [97]) false 1 noFaults
      (fs_write stdConfig (some [97]) (some (List.replicate 2147483647 0)) 2147483647 noFaults
        (fs_create stdConfig (some [97]) (fresh stdConfig)).2).2 = (0, []) ∧
    (0 : Int) ≠ min 1 2147483647 := by
  have hc : stdConfig.sane := by decide
  have hcreate := fs_create_fresh stdConfig hc (by decide) [97] (by decide) (by decide)
  obtain ⟨_, _, hv, hex⟩ := create_then_matches stdConfig (fresh stdConfig) [97]
    (inv_fresh stdConfig hc).table_len hcreate
  have hs := inv_reachable stdConfig hc _
    (Reachable.create (fresh stdConfig) (some [97]) Reachable.fresh)
  obtain ⟨h1, k, hk, hmatch, htbl, h5⟩ := fs_write_overflow stdConfig hc _ hs [97]
    (List.replicate 2147483647 0) 2147483647 noFaults hv hex (by decide) (by decide)
  have hk' : k < (fs_create stdConfig (some [97]) (fresh stdConfig)).2.inode_table.length := by
    rw [hs.table_len]; exact hk
  refine ⟨List.length_replicate _ _, h1, ⟨k, hmatch, ?_⟩, h5 1 noFaults (by decide), by decide⟩
  rw [htbl, getD_set_eq _ _ _ _ hk']

/-- C20. File isolation: in every reachable state, for two existing files `A` (name `fa`,
slot `ka`) and `B` (name `fb`, slot `kb ≠ ka`), an `fs_write` to `A` with any buffer, any
`int` size and any I/O outcomes, whatever it returns, leaves the inode of `B` (name, used
flag, size, block list) as it is and leaves every byte of the blocks of `B` as it is, so
every `fs_read` of `B` returns what it returned before; the image after the call is the
image before it with the `write` calls of `fs_write_calls` applied, and each of these calls
stores its bytes inside one data block (index `≥ 10`) that `A` owns after the call. -/
theorem C20_file_isolation (cfg : Config) (hc : cfg.sane) (s : FS) (h : Reachable cfg s)
    (fa fb : List Nat) (ka kb : Nat) (hka : ka < cfg.MAX_FILES) (hkb : kb < cfg.MAX_FILES)
    (hma : slot_matches cfg s.inode_table fa ka) (hmb : slot_matches cfg s.inode_table fb kb)
    (hne : ka ≠ kb) (data : Option (List Nat)) (size : Int) (ev : Faults)
    (hhi : size ≤ INT_MAX) :
    (fs_write cfg (some fa) data size ev s).2.inode_table.getD kb no_inode =
      s.inode_table.getD kb no_inode ∧
    (∀ b ∈ assigned (s.inode_table.getD kb no_inode), ∀ t, t < cfg.BLOCK_SIZE →
      (fs_write cfg (some fa) data size ev s).2.disk.bytes (b.toNat * cfg.BLOCK_SIZE + t) =
        s.disk.bytes (b.toNat * cfg.BLOCK_SIZE + t)) ∧
    (∀ (buffer_null : Bool) (m : Int) (ev' : Faults),
      fs_read cfg (some fb) buffer_null m ev' (fs_write cfg (some fa) data size ev s).2 =
        fs_read cfg (some fb) buffer_null m ev' s) ∧
    (fs_write cfg (some fa) data size ev s).2.disk =
      apply_calls s.disk (fs_write_calls cfg (some fa) data size ev s) ∧
    (∀ w ∈ fs_write_calls cfg (some fa) data size ev s,
      ∃ b ∈ assigned ((fs_write cfg (some fa) data size ev s).2.inode_table.getD ka no_inode),
        (DATA_BLOCK_START : Int) ≤ b ∧ b.toNat * cfg.BLOCK_SIZE ≤ w.1 ∧
        w.1 + w.2.length ≤ (b.toNat + 1) * cfg.BLOCK_SIZE) := by
  have hs := inv_reachable cfg hc s h
  have hs' := inv_write cfg hc s hs (some fa) data size ev
  have hka' : ka < s.inode_table.length := by rw [hs.table_len]; exact hka
  have hkb' : kb < s.inode_table.length := by rw [hs.table_len]; exact hkb
  refine ⟨?_, ?_, ?_, fs_write_calls_disk cfg (some fa) data size ev s, ?_⟩
  · rcases fs_write_effect cfg hc s hs fa ka hka hma data size ev hhi with
      ⟨hsame, _⟩ | ⟨l, sz, htbl, _, _, _⟩
    · rw [hsame]
    · rw [htbl]
      exact getD_set_ne _ _ _ _ _ hne
  · intro b hb t ht
    rcases fs_write_effect cfg hc s hs fa ka hka hma data size ev hhi with
      ⟨hsame, _⟩ | ⟨l, sz, _, hmem, hframe, _⟩
    · rw [hsame]
    · apply hframe
      intro x hx
      have hxb := new_block_ne_owned cfg s hs ka kb hka' hkb' hne b
        (assigned_mem_own _ hmb.1 b hb) x (hmem x hx).2.2
      exact block_range_disjoint _ _ _ t _ hxb ht rfl
  · intro buffer_null m ev'
    rcases fs_write_effect cfg hc s hs fa ka hka hma data size ev hhi with
      ⟨hsame, _⟩ | ⟨l, sz, htbl, hmem, hframe, _⟩
    · rw [hsame]
    · have hfirst : ∀ j, j < kb → ¬ slot_matches cfg s.inode_table fb j := by
        intro j hj hmj
        have := match_unique cfg s hs fb kb j hkb (by omega) hmb hmj
        omega
      have hfind := find_file_first cfg s.inode_table fb cfg.MAX_FILES kb hkb hmb hfirst
      have hcongr := slot_matches_set_same cfg s.inode_table ka
        { s.inode_table.getD ka no_inode with
          blocks := l.map (fun (x : Nat) => (x : Int)) ++
            List.replicate (cfg.MAX_DIRECT_BLOCKS - l.length) (-1)
          size := sz } fb hka' rfl rfl
      have hfind' : find_file cfg (fs_write cfg (some fa) data size ev s).2.inode_table fb 0
          cfg.MAX_FILES = (kb : Int) := by
        rw [htbl, find_file_congr cfg _ _ fb 0 cfg.MAX_FILES hcongr]
        exact hfind
      have hnode : (fs_write cfg (some fa) data size ev s).2.inode_table.getD kb no_inode =
          s.inode_table.getD kb no_inode := by
        rw [htbl]
        exact getD_set_ne _ _ _ _ _ hne
      have hrange : ∀ j, (s.inode_table.getD kb no_inode).blocks.getD j (-1) ≠ -1 →
          0 ≤ (s.inode_table.getD kb no_inode).blocks.getD j (-1) ∧
          (s.inode_table.getD kb no_inode).blocks.getD j (-1) < cfg.MAX_BLOCKS := by
        intro j hj
        have hmem' := mem_own_getD _ j hmb.1 hj
        have := hs.range _ ((owned_perm s.inode_table kb hkb').mem_iff.2
          (List.mem_append_left _ hmem'))
        have h0 : (0 : Int) ≤ (DATA_BLOCK_START : Int) := Int.natCast_nonneg _
        exact ⟨le_trans h0 this.1, this.2⟩
      have hbytes : ∀ j, (s.inode_table.getD kb no_inode).blocks.getD j (-1) ≠ -1 →
          ∀ t, t < cfg.BLOCK_SIZE →
          (fs_write cfg (some fa) data size ev s).2.disk.bytes
            (((s.inode_table.getD kb no_inode).blocks.getD j (-1)).toNat * cfg.BLOCK_SIZE + t) =
          s.disk.bytes
            (((s.inode_table.getD kb no_inode).blocks.getD j (-1)).toNat * cfg.BLOCK_SIZE + t) := by
        intro j hj t ht
        apply hframe
        intro x hx
        have hxb := new_block_ne_owned cfg s hs ka kb hka' hkb' hne _
          (mem_own_getD _ j hmb.1 hj) x (hmem x hx).2.2
        exact block_range_disjoint _ _ _ t _ hxb ht rfl
      have hloop := read_loop_agree cfg hc ev' (s.inode_table.getD kb no_inode).blocks
      unfold fs_read
      rw [if_neg (show ¬ (fs_write cfg (some fa) data size ev s).2.fs_fd < 0 from
        not_lt.2 hs'.mounted), if_neg (show ¬ s.fs_fd < 0 from not_lt.2 hs.mounted)]
      simp only
      rw [hfind', hfind, Int.toNat_ofNat, hnode]
      simp only [hloop _ s.disk (fs_write cfg (some fa) data size ev s).2.disk hs.disk_size
        hs'.disk_size hrange hbytes]
  · intro w hw
    rcases fs_write_effect cfg hc s hs fa ka hka hma data size ev hhi with
      ⟨_, hcalls⟩ | ⟨l, sz, htbl, hmem, _, hinside⟩
    · rw [hcalls] at hw
      exact absurd hw (List.not_mem_nil _)
    · obtain ⟨x, hx, hw1, hw2⟩ := hinside w hw
      obtain ⟨hx1, _, _⟩ := hmem x hx
      refine ⟨(x : Int), ?_, by exact_mod_cast hx1, ?_, ?_⟩
      · rw [htbl, getD_set_eq _ _ _ _ hka']
        unfold assigned
        dsimp only
        rw [List.filter_append, filter_replicate_sentinel, List.append_nil,
          filter_cast_ne_sentinel]
        exact List.mem_map.2 ⟨x, hx, rfl⟩
      · rw [Int.toNat_ofNat, hw1]
      · rw [Int.toNat_ofNat, hw1, Nat.add_mul, Nat.one_mul]
        exact Nat.add_le_add_left hw2 _

theorem C20_file_isolation_witness :
    tinyConfig.sane ∧ Reachable tinyConfig two_files ∧
    0 < tinyConfig.MAX_FILES ∧ 1 < tinyConfig.MAX_FILES ∧
    slot_matches tinyConfig two_files.inode_table [97] 0 ∧
    slot_matches tinyConfig two_files.inode_table [98] 1 ∧ 0 ≠ 1 ∧ (1 : Int) ≤ INT_MAX ∧
    (fs_write tinyConfig (some [97]) (some [5]) 1 noFaults two_files).2.inode_table.getD 1
      no_inode = two_files.inode_table.getD 1 no_inode ∧
    (fs_read tinyConfig (some [98]) false 3 noFaults
        (fs_write tinyConfig (some [97]) (some [5]) 1 noFaults two_files).2 =
      fs_read tinyConfig (some [98]) false 3 noFaults two_files) :=
  have hr : Reachable tinyConfig two_files :=
    Reachable.write _ _ _ _ _
      (Reachable.create _ _
        (Reachable.write _ _ _ _ _ (Reachable.create _ _ Reachable.fresh) (by decide)
          (by decide)))
      (by decide) (by decide)
  have h := C20_file_isolation tinyConfig (by decide) two_files hr [97] [98] 0 1 (by decide)
    (by decide) (by decide) (by decide) (by decide) (some [5]) 1 noFaults (by decide)
  ⟨by decide, hr, by decide, by decide, by decide, by decide, by decide, by decide, h.1,
    h.2.2.1 false 3 noFaults⟩

end OnlyFiles
